import Mathlib

/-!
# Elasticsearch exporter: mapping-mode encoders

A shallow embedding of `exporter/elasticsearchexporter/model.go`.

Conventions of the embedding:

* a Go `error` value is a `GoError`; a returned `nil` error is `none`;
* `*bytes.Buffer` is passed and returned explicitly as a `Buffer` (a list of bytes);
* `*objmodel.Document` is passed and returned explicitly as a `Document`;
* a Go `map[string]T` literal is an association list, read with `List.lookup`;
* `pcommon.Map` is the ordered list of its key/value pairs, `Get` returns the
  first entry stored under a key and `All` iterates in list order;
* collaborators that live outside `model.go` (the mapping-mode enumeration, the
  `%q` verb of `fmt`, the document serializer, the native OTel serializer) are
  collected in the record `Env` and every definition that calls one of them
  takes the record as its first argument.
-/

set_option autoImplicit false

namespace ElasticsearchExporter

/-! ## Go runtime values -/

/-- One byte of an output buffer. -/
abbrev Byte := Fin 256

/-- Content of a `bytes.Buffer`. -/
abbrev Buffer := List Byte

/-- Go `error` values: `mk` is built by `errors.New` or by `fmt.Errorf` without a
`%w` verb, `wrap` is built by `fmt.Errorf` with one `%w` operand. -/
inductive GoError where
  | mk (msg : String)
  | wrap (msg : String) (inner : GoError)
  deriving DecidableEq, Repr

namespace GoError

/-- Message of an error, the result of the Go method `Error()`. -/
def Error : GoError → String
  | mk msg => msg
  | wrap msg _ => msg

/-- Go `errors.Unwrap`. -/
def Unwrap : GoError → Option GoError
  | mk _ => none
  | wrap _ inner => some inner

/-- Go `errors.Is`: the target is found somewhere on the unwrap chain. -/
def Is : GoError → GoError → Bool
  | mk msg, target => decide (mk msg = target)
  | wrap msg inner, target => decide (wrap msg inner = target) || Is inner target

end GoError

/-- Value of a Go `int64` expression whose mathematical value is `i`: the representative of
`i` modulo `2^64` in the range from `-2^63` to `2^63 - 1`. -/
def wrapInt64 (i : Int) : Int :=
  (i + 2 ^ 63) % 2 ^ 64 - 2 ^ 63

/-- Go conversion `int64(u)` of a `uint64` value. -/
def int64OfUint64 (u : Nat) : Int :=
  wrapInt64 (u % 2 ^ 64 : Nat)

namespace time

/-- A Go `time.Time`, kept as the `int64` count of nanoseconds since the Unix epoch. -/
structure Time where
  nsec : Int

/-- Method `Time.UnixNano()`. -/
def Time.UnixNano (t : Time) : Int :=
  t.nsec

end time

/-! ## pdata: `pcommon`, `plog`, `ptrace`, `pprofile` -/

namespace pcommon

/-- Enumeration `pcommon.ValueType`. -/
inductive ValueType where
  | ValueTypeEmpty
  | ValueTypeStr
  | ValueTypeInt
  | ValueTypeDouble
  | ValueTypeBool
  | ValueTypeMap
  | ValueTypeSlice
  | ValueTypeBytes
  deriving DecidableEq, Repr

/-- Printable name of a value type, the result of the pdata method `ValueType.String()`. -/
def ValueType.name : ValueType → String
  | .ValueTypeEmpty => "Empty"
  | .ValueTypeStr => "Str"
  | .ValueTypeInt => "Int"
  | .ValueTypeDouble => "Double"
  | .ValueTypeBool => "Bool"
  | .ValueTypeMap => "Map"
  | .ValueTypeSlice => "Slice"
  | .ValueTypeBytes => "Bytes"

/-- A `pcommon.Value`. A double is carried by its 64 bit pattern. -/
inductive Value where
  | empty
  | str (s : String)
  | int (i : Int)
  | double (bits : Nat)
  | bool (b : Bool)
  | map (m : List (String × Value))
  | slice (l : List Value)
  | bytes (b : List Byte)

/-- A `pcommon.Map`: key/value pairs in storage order. -/
abbrev Map := List (String × Value)

/-- Method `Value.Type()`. -/
def Value.Type : Value → ValueType
  | .empty => .ValueTypeEmpty
  | .str _ => .ValueTypeStr
  | .int _ => .ValueTypeInt
  | .double _ => .ValueTypeDouble
  | .bool _ => .ValueTypeBool
  | .map _ => .ValueTypeMap
  | .slice _ => .ValueTypeSlice
  | .bytes _ => .ValueTypeBytes

/-- Method `Value.Str()`: the string payload, the empty string for every other type. -/
def Value.Str : Value → String
  | .str s => s
  | _ => ""

/-- Method `Value.Map()`: the map payload, an empty map for every other type. -/
def Value.Map : Value → Map
  | .map m => m
  | _ => []

/-- Method `Map.Get(key)`: the first value stored under the key. -/
def Map.Get (m : Map) (key : String) : Option Value :=
  List.lookup key m

/-- Timestamp in nanoseconds since the epoch (Go `uint64`). -/
abbrev Timestamp := Nat

/-- Method `Map.PutStr(k, v)`: the first entry stored under the key receives the string value,
and a new entry is appended when the key is not stored. -/
def Map.PutStr : Map → String → String → Map
  | [], k, v => [(k, .str v)]
  | (k0, v0) :: rest, k, v =>
    if k0 = k then (k0, .str v) :: rest else (k0, v0) :: Map.PutStr rest k v

/-- Method `Timestamp.AsTime()`: `time.Unix(0, int64(ts))`. -/
def Timestamp.AsTime (ts : Timestamp) : time.Time :=
  ⟨int64OfUint64 ts⟩

/-- A 16 byte trace identifier. -/
abbrev TraceID := Fin 16 → Byte

/-- An 8 byte span identifier. -/
abbrev SpanID := Fin 8 → Byte

/-- Method `TraceID.IsEmpty()`: all bytes are zero. -/
def TraceID.IsEmpty (id : TraceID) : Bool :=
  (List.ofFn id).all (fun b => decide (b = 0))

/-- Method `SpanID.IsEmpty()`: all bytes are zero. -/
def SpanID.IsEmpty (id : SpanID) : Bool :=
  (List.ofFn id).all (fun b => decide (b = 0))

/-- A `pcommon.Resource`. -/
structure Resource where
  Attributes : Map

/-- A `pcommon.InstrumentationScope`. -/
structure InstrumentationScope where
  Name : String
  Version : String
  Attributes : Map

end pcommon

namespace plog

/-- A `plog.LogRecord`. -/
structure LogRecord where
  Timestamp : pcommon.Timestamp
  ObservedTimestamp : pcommon.Timestamp
  TraceID : pcommon.TraceID
  SpanID : pcommon.SpanID
  Flags : Nat
  SeverityText : String
  SeverityNumber : Int
  Body : pcommon.Value
  Attributes : pcommon.Map

/-- Constant `plog.SeverityNumberUnspecified`. -/
def SeverityNumberUnspecified : Int := 0

end plog

namespace ptrace

/-- A `ptrace.SpanEvent`. -/
structure SpanEvent where
  Timestamp : pcommon.Timestamp
  Name : String
  Attributes : pcommon.Map

/-- A `ptrace.SpanLink`. -/
structure SpanLink where
  TraceID : pcommon.TraceID
  SpanID : pcommon.SpanID
  Attributes : pcommon.Map

/-- A `ptrace.Status`. -/
structure Status where
  Code : Int
  Message : String

/-- A `ptrace.Span`. -/
structure Span where
  TraceID : pcommon.TraceID
  SpanID : pcommon.SpanID
  ParentSpanID : pcommon.SpanID
  Name : String
  Kind : Int
  StartTimestamp : pcommon.Timestamp
  EndTimestamp : pcommon.Timestamp
  Attributes : pcommon.Map
  Events : List SpanEvent
  Links : List SpanLink
  Status : Status

/-- Constant `ptrace.StatusCodeUnset`. -/
def StatusCodeUnset : Int := 0

/-- Constant `ptrace.StatusCodeOk`. -/
def StatusCodeOk : Int := 1

/-- Constant `ptrace.StatusCodeError`. -/
def StatusCodeError : Int := 2

end ptrace

namespace pprofile

/-- A `pprofile.ProfilesDictionary`, kept as its wire bytes. -/
structure ProfilesDictionary where
  raw : List Byte

/-- A `pprofile.Profile`, kept as its wire bytes. -/
structure Profile where
  raw : List Byte

end pprofile

/-- The callback `func(*bytes.Buffer, string, string) error` handed to `encodeProfile`. -/
abbrev PushData := Buffer → String → String → Option GoError

/-! ## semconv v1.22.0 attribute keys used by `model.go` -/

namespace semconv

def ServiceInstanceIDKey : String := "service.instance.id"
def DeploymentEnvironmentKey : String := "deployment.environment"
def TelemetrySDKNameKey : String := "telemetry.sdk.name"
def TelemetrySDKLanguageKey : String := "telemetry.sdk.language"
def TelemetrySDKVersionKey : String := "telemetry.sdk.version"
def TelemetryDistroNameKey : String := "telemetry.distro.name"
def TelemetryDistroVersionKey : String := "telemetry.distro.version"
def CloudPlatformKey : String := "cloud.platform"
def ContainerImageTagsKey : String := "container.image.tags"
def HostNameKey : String := "host.name"
def HostArchKey : String := "host.arch"
def ProcessExecutablePathKey : String := "process.executable.path"
def ProcessRuntimeNameKey : String := "process.runtime.name"
def ProcessRuntimeVersionKey : String := "process.runtime.version"
def OSNameKey : String := "os.name"
def OSTypeKey : String := "os.type"
def OSDescriptionKey : String := "os.description"
def OSVersionKey : String := "os.version"
def K8SDeploymentNameKey : String := "k8s.deployment.name"
def K8SNamespaceNameKey : String := "k8s.namespace.name"
def K8SNodeNameKey : String := "k8s.node.name"
def K8SPodNameKey : String := "k8s.pod.name"
def K8SPodUIDKey : String := "k8s.pod.uid"
def K8SJobNameKey : String := "k8s.job.name"
def K8SCronJobNameKey : String := "k8s.cronjob.name"
def K8SStatefulSetNameKey : String := "k8s.statefulset.name"
def K8SReplicaSetNameKey : String := "k8s.replicaset.name"
def K8SDaemonSetNameKey : String := "k8s.daemonset.name"
def K8SContainerNameKey : String := "k8s.container.name"
def K8SClusterNameKey : String := "k8s.cluster.name"
def ExceptionMessageKey : String := "exception.message"
def ExceptionStacktraceKey : String := "exception.stacktrace"
def ExceptionTypeKey : String := "exception.type"
def ExceptionEscapedKey : String := "exception.escaped"

end semconv

open pcommon

/-! ## Collaborators of `model.go` inside the exporter -/

namespace elasticsearch

/-- Modelled from the spec: `elasticsearch.Index` (package `internal/elasticsearch`, not part
of the sources at hand) is the index descriptor of the data model, a record of a data-stream
flag and the three parts of the data-stream identity (the Go field `Type` is `Type_`). -/
structure Index where
  IsDataStream : Bool
  Type_ : String
  Dataset : String
  Namespace : String

end elasticsearch

namespace pmetric

/-- The part of a `pmetric.Metric` read by `model.go`. -/
structure Metric where
  Name : String

end pmetric

namespace datapoints

/-- Modelled from the spec: `datapoints.DataPoint` (package `internal/datapoints`, not part of
the sources at hand) is a metric data point with a timestamp, attributes, the metric it
belongs to and a value whose extraction can fail. -/
structure DataPoint where
  Timestamp : pcommon.Timestamp
  Attributes : pcommon.Map
  Metric : pmetric.Metric
  Value : Except GoError pcommon.Value

end datapoints

namespace objmodel

/-- Payload of one insertion into a document, one constructor per insertion method. -/
inductive FieldValue where
  | timestamp (ts : pcommon.Timestamp)
  | traceID (id : pcommon.TraceID)
  | spanID (id : pcommon.SpanID)
  | int (i : Int)
  | string (s : String)
  | attribute (v : pcommon.Value)
  | links (ls : List ptrace.SpanLink)
  | events (es : List ptrace.SpanEvent)

/-- One insertion into a document: the dotted path and the payload. -/
structure Field where
  key : String
  value : FieldValue

/-- Modelled from the spec: `objmodel.Document` (package `internal/objmodel`, not part of the
sources at hand) is an ordered accumulator of typed fields addressable by dotted path;
insertion order and repeated insertions under one path are preserved. The model records the
insertions in order; how the document model merges or renders them when it serializes is not
described here. -/
structure Document where
  fields : List Field

namespace Document

/-- The zero value `var document objmodel.Document`. -/
def empty : Document := ⟨[]⟩

/-- Modelled from the spec: `Document.AddTimestamp` inserts a timestamp at a path. -/
def AddTimestamp (doc : Document) (key : String) (ts : pcommon.Timestamp) : Document :=
  ⟨doc.fields ++ [⟨key, .timestamp ts⟩]⟩

/-- Modelled from the spec: `Document.AddTraceID` inserts a trace identifier at a path. -/
def AddTraceID (doc : Document) (key : String) (id : pcommon.TraceID) : Document :=
  ⟨doc.fields ++ [⟨key, .traceID id⟩]⟩

/-- Modelled from the spec: `Document.AddSpanID` inserts a span identifier at a path. -/
def AddSpanID (doc : Document) (key : String) (id : pcommon.SpanID) : Document :=
  ⟨doc.fields ++ [⟨key, .spanID id⟩]⟩

/-- Modelled from the spec: `Document.AddInt` inserts an integer scalar at a path. -/
def AddInt (doc : Document) (key : String) (i : Int) : Document :=
  ⟨doc.fields ++ [⟨key, .int i⟩]⟩

/-- Modelled from the spec: `Document.AddString` inserts a string scalar at a path. -/
def AddString (doc : Document) (key : String) (v : String) : Document :=
  ⟨doc.fields ++ [⟨key, .string v⟩]⟩

/-- Modelled from the spec: `Document.AddAttribute` inserts one attribute value at a path. -/
def AddAttribute (doc : Document) (key : String) (attr : pcommon.Value) : Document :=
  ⟨doc.fields ++ [⟨key, .attribute attr⟩]⟩

/-- Path of an attribute inserted in bulk below a path: a non-empty path and the attribute
name are joined with a dot, the empty path leaves the attribute name as it is. -/
def flattenKey (path key : String) : String :=
  if path = "" then key else path ++ "." ++ key

/-- Modelled from the spec: `Document.AddAttributes` is the bulk attribute insertion; it
inserts every attribute of the map, in the order of the map, at the path of the attribute
below the given path. -/
def AddAttributes (doc : Document) (key : String) (attributes : pcommon.Map) : Document :=
  ⟨doc.fields ++ attributes.map (fun kv => ⟨flattenKey key kv.1, .attribute kv.2⟩)⟩

/-- Modelled from the spec: `Document.AddLinks` inserts the links of a span at a path. -/
def AddLinks (doc : Document) (key : String) (links : List ptrace.SpanLink) : Document :=
  ⟨doc.fields ++ [⟨key, .links links⟩]⟩

/-- Modelled from the spec: `Document.AddEvents` inserts the events of a span, serialized
inline, below a path. -/
def AddEvents (doc : Document) (key : String) (events : List ptrace.SpanEvent) : Document :=
  ⟨doc.fields ++ [⟨key, .events events⟩]⟩

end Document

end objmodel

/-- A Go value of type `any` stored in a link object of `spanLinksToString`: a string, or the
raw form `AsRaw()` of an attribute map. -/
inductive LinkValue where
  | str (s : String)
  | raw (m : pcommon.Map)

/-- A Go `map[string]any`: its entries, at most one per key. -/
abbrev LinkObject := List (String × LinkValue)

/-- Go map assignment `m[k] = v`. -/
def LinkObject.set : LinkObject → String → LinkValue → LinkObject
  | [], k, v => [(k, v)]
  | (k0, v0) :: rest, k, v =>
    if k0 = k then (k0, v) :: rest else (k0, v0) :: LinkObject.set rest k v

/-- Lower-case hexadecimal digit of a number below sixteen. -/
def hexDigit (n : Nat) : Char :=
  "0123456789abcdef".data.getD n (Char.ofNat 48)

/-- Go `hex.EncodeToString`: two lower-case hexadecimal digits per byte. -/
def hexEncodeToString (bytes : List Byte) : String :=
  String.mk (bytes.flatMap (fun b => [hexDigit (b.val / 16), hexDigit (b.val % 16)]))

namespace traceutil

/-- Modelled from the spec: `traceutil.SpanIDToHexOrEmptyString` (package
`internal/coreinternal/traceutil`, not part of the sources at hand) gives the hex form of a
span id and the empty string for an empty id. -/
def SpanIDToHexOrEmptyString (id : pcommon.SpanID) : String :=
  if id.IsEmpty then "" else hexEncodeToString (List.ofFn id)

/-- Modelled from the spec: `traceutil.TraceIDToHexOrEmptyString` (package
`internal/coreinternal/traceutil`, not part of the sources at hand) gives the hex form of a
trace id and the empty string for an empty id. -/
def TraceIDToHexOrEmptyString (id : pcommon.TraceID) : String :=
  if id.IsEmpty then "" else hexEncodeToString (List.ofFn id)

end traceutil

open objmodel

/-- Go `type MappingMode int`. -/
abbrev MappingMode := Int

/-- Result of an `encodeLog`, `encodeSpan` or `encodeSpanEvent` call: the returned error and
the content of the buffer after the call. -/
abbrev EncodeResult := Option GoError × Buffer

/-- Result of an `encodeMetrics` call: the returned map (`none` is the nil map), the returned
error, and the validation-error slice and the buffer after the call. -/
structure MetricsResult where
  hints : Option (List (String × String))
  err : Option GoError
  validationErrors : List GoError
  buf : Buffer
  deriving DecidableEq

namespace otelserializer

/-- The native OTel serializer `otelserializer.Serializer` (package
`internal/serializer/otelserializer`, not part of the sources at hand), an opaque delegate:
one unconstrained function per method called by `model.go`. -/
structure Serializer where
  SerializeLog : Resource → String → InstrumentationScope → String → plog.LogRecord →
    elasticsearch.Index → Buffer → EncodeResult
  SerializeSpan : Resource → String → InstrumentationScope → String → ptrace.Span →
    elasticsearch.Index → Buffer → EncodeResult
  SerializeSpanEvent : Resource → String → InstrumentationScope → String → ptrace.Span →
    ptrace.SpanEvent → elasticsearch.Index → Buffer → Buffer
  SerializeMetrics : Resource → String → InstrumentationScope → String →
    List datapoints.DataPoint → List GoError → elasticsearch.Index → Buffer → MetricsResult
  SerializeProfile : pprofile.ProfilesDictionary → Resource → InstrumentationScope →
    pprofile.Profile → PushData → Option GoError

end otelserializer

/-- Declarations used by `model.go` whose definition is outside `model.go`:
the five constants of the `MappingMode` enumeration and its `String()` method (`config.go`),
the rendering of a string by the `%q` verb of `fmt`, the bytes `serializer.Map` writes for a
map, `Document.Serialize`, `Document.DynamicTemplates`, `otelserializer.New`,
`traceutil.SpanKindStr`, and the JSON text `encoding/json` writes for a string and for the raw
form of an attribute map that it can encode. -/
structure Env where
  MappingNone : MappingMode
  MappingRaw : MappingMode
  MappingECS : MappingMode
  MappingBodyMap : MappingMode
  MappingOTel : MappingMode
  modeString : MappingMode → String
  fmtQ : String → String
  mapBytes : pcommon.Map → List Byte
  documentSerialize : Document → Bool → Buffer → EncodeResult
  documentDynamicTemplates : Document → Option (List (String × String))
  otelserializerNew : Except GoError otelserializer.Serializer
  spanKindStr : Int → String
  jsonString : String → String
  jsonRaw : pcommon.Map → String

/-- The five enumeration constants are pairwise different, as Go requires of the case
constants of the `switch` in `newEncoder`. -/
def Env.WellFormed (X : Env) : Prop :=
  [X.MappingNone, X.MappingRaw, X.MappingECS, X.MappingBodyMap, X.MappingOTel].Nodup

instance (X : Env) : Decidable X.WellFormed := by
  unfold Env.WellFormed; infer_instance

/-- A mode value is one of the five members of the enumeration. -/
def Env.IsMember (X : Env) (mode : MappingMode) : Prop :=
  mode ∈ [X.MappingNone, X.MappingRaw, X.MappingECS, X.MappingBodyMap, X.MappingOTel]

/-- Modelled from the spec: `serializer.Map` (package `internal/serializer`, not part of the
sources at hand) writes the direct serialization of a map to the buffer. -/
def serializer.Map (X : Env) (m : pcommon.Map) (buf : Buffer) : Buffer :=
  buf ++ X.mapBytes m

/-- Method `Document.Serialize(buf, dedot)`. -/
def objmodel.Document.Serialize (X : Env) (doc : Document) (buf : Buffer) (dedot : Bool) :
    EncodeResult :=
  X.documentSerialize doc dedot buf

/-- Method `Document.DynamicTemplates()`. -/
def objmodel.Document.DynamicTemplates (X : Env) (doc : Document) :
    Option (List (String × String)) :=
  X.documentDynamicTemplates doc

/-! ## Go `encoding/json` on a slice of link objects -/

/-- A `float64` with this bit pattern is a NaN or an infinity: its eleven exponent bits are
all set. -/
def float64IsNaNOrInf (bits : Nat) : Bool :=
  decide ((bits / 2 ^ 52) % 2 ^ 11 = 2047)

mutual

/-- The raw form of a value holds a NaN or an infinity, at any depth. -/
def unsupportedFloatInValue : Value → Bool
  | .double bits => float64IsNaNOrInf bits
  | .map m => unsupportedFloatInMap m
  | .slice l => unsupportedFloatInSlice l
  | _ => false

/-- The raw form of a map holds a NaN or an infinity, at any depth. -/
def unsupportedFloatInMap : List (String × Value) → Bool
  | [] => false
  | (_, v) :: rest => unsupportedFloatInValue v || unsupportedFloatInMap rest

/-- The raw form of a slice holds a NaN or an infinity, at any depth. -/
def unsupportedFloatInSlice : List Value → Bool
  | [] => false
  | v :: rest => unsupportedFloatInValue v || unsupportedFloatInSlice rest

end

namespace json

/-- Order in which `encoding/json` writes the keys of a map: by the characters of the key. -/
def keyLE (a b : String) : Bool :=
  decide (a.data ≤ b.data)

/-- Encodes the elements of a list in order and stops at the first error. -/
def marshalEach {α : Type} (f : α → Except GoError String) :
    List α → Except GoError (List String)
  | [] => .ok []
  | a :: rest =>
    match f a with
    | .error err => .error err
    | .ok encoded =>
      match marshalEach f rest with
      | .error err => .error err
      | .ok others => .ok (encoded :: others)

/-- Encoding of a value stored in a link object: a string is written as a JSON string; the
raw form of an attribute map is refused with an unsupported-value error when it holds a NaN
or an infinity, and written as a JSON object otherwise. -/
def marshalValue (X : Env) : LinkValue → Except GoError String
  | .str s => .ok (X.jsonString s)
  | .raw m =>
    if unsupportedFloatInMap m then .error (.mk "json: unsupported value")
    else .ok (X.jsonRaw m)

/-- Encoding of a `map[string]any`: the members `key:value` in the order of the keys, joined
by commas between braces. -/
def marshalObject (X : Env) (obj : LinkObject) : Except GoError String :=
  match marshalEach
      (fun kv : String × LinkValue =>
        match marshalValue X kv.2 with
        | .error err => .error err
        | .ok encoded => .ok (X.jsonString kv.1 ++ ":" ++ encoded))
      (obj.insertionSort (fun a b => keyLE a.1 b.1 = true)) with
  | .error err => .error err
  | .ok members => .ok ("\x7b" ++ ",".intercalate members ++ "\x7d")

/-- Go `json.Marshal` (standard library) on a non-nil `[]map[string]any`, as its documentation
describes it: the elements in order, joined by commas between brackets; a map is written with
its keys sorted; a floating-point NaN or infinity anywhere in a value makes the call fail with
an unsupported-value error and no output. -/
def Marshal (X : Env) (linkArray : List LinkObject) : Except GoError String :=
  match marshalEach (marshalObject X) linkArray with
  | .error err => .error err
  | .ok elements => .ok ("[" ++ ",".intercalate elements ++ "]")

end json

/-! ## `model.go` -/

/-- Table `resourceAttrsConversionMap`: SemConv resource attribute names and their ECS names; an
empty ECS name means the attribute is neither converted nor passed through. -/
def resourceAttrsConversionMap : List (String × String) :=
  [ (semconv.ServiceInstanceIDKey, "service.node.name"),
    (semconv.DeploymentEnvironmentKey, "service.environment"),
    (semconv.TelemetrySDKNameKey, ""),
    (semconv.TelemetrySDKLanguageKey, ""),
    (semconv.TelemetrySDKVersionKey, ""),
    (semconv.TelemetryDistroNameKey, ""),
    (semconv.TelemetryDistroVersionKey, ""),
    (semconv.CloudPlatformKey, "cloud.service.name"),
    (semconv.ContainerImageTagsKey, "container.image.tag"),
    (semconv.HostNameKey, "host.hostname"),
    (semconv.HostArchKey, "host.architecture"),
    (semconv.ProcessExecutablePathKey, "process.executable"),
    (semconv.ProcessRuntimeNameKey, "service.runtime.name"),
    (semconv.ProcessRuntimeVersionKey, "service.runtime.version"),
    (semconv.OSNameKey, "host.os.name"),
    (semconv.OSTypeKey, "host.os.platform"),
    (semconv.OSDescriptionKey, "host.os.full"),
    (semconv.OSVersionKey, "host.os.version"),
    (semconv.K8SDeploymentNameKey, "kubernetes.deployment.name"),
    (semconv.K8SNamespaceNameKey, "kubernetes.namespace"),
    (semconv.K8SNodeNameKey, "kubernetes.node.name"),
    (semconv.K8SPodNameKey, "kubernetes.pod.name"),
    (semconv.K8SPodUIDKey, "kubernetes.pod.uid"),
    (semconv.K8SJobNameKey, "kubernetes.job.name"),
    (semconv.K8SCronJobNameKey, "kubernetes.cronjob.name"),
    (semconv.K8SStatefulSetNameKey, "kubernetes.statefulset.name"),
    (semconv.K8SReplicaSetNameKey, "kubernetes.replicaset.name"),
    (semconv.K8SDaemonSetNameKey, "kubernetes.daemonset.name"),
    (semconv.K8SContainerNameKey, "kubernetes.container.name"),
    (semconv.K8SClusterNameKey, "orchestrator.cluster.name") ]

/-- Table `resourceAttrsToPreserve`: attributes that are kept under their original name next
to their ECS name. -/
def resourceAttrsToPreserve : List (String × Bool) :=
  [ (semconv.HostNameKey, true) ]

/-- Sentinel `ErrInvalidTypeForBodyMapMode`. -/
def ErrInvalidTypeForBodyMapMode : GoError :=
  .mk "invalid log record body type for 'bodymap' mapping mode"

/-- Struct `encodingContext`. -/
structure encodingContext where
  resource : Resource
  resourceSchemaURL : String
  scope : InstrumentationScope
  scopeSchemaURL : String

/-- Struct `metricsUnsupportedEncoder`. -/
structure metricsUnsupportedEncoder where
  mode : MappingMode

/-- Struct `profilesUnsupportedEncoder`. -/
structure profilesUnsupportedEncoder where
  mode : MappingMode

/-- Struct `nonOTelSpanEncoder`. -/
structure nonOTelSpanEncoder where
  attributesPrefix : String
  eventsPrefix : String
  dedot : Bool

/-- Struct `nopSpanEventEncoder`. -/
structure nopSpanEventEncoder where

/-- Struct `ecsDataPointsEncoder`. -/
structure ecsDataPointsEncoder where

/-- Struct `legacyModeEncoder`, with its four embedded structs. -/
structure legacyModeEncoder where
  nonOTelSpanEncoder : ElasticsearchExporter.nonOTelSpanEncoder
  nopSpanEventEncoder : ElasticsearchExporter.nopSpanEventEncoder
  metricsUnsupportedEncoder : ElasticsearchExporter.metricsUnsupportedEncoder
  profilesUnsupportedEncoder : ElasticsearchExporter.profilesUnsupportedEncoder
  attributesPrefix : String

/-- Struct `ecsModeEncoder`, with its three embedded structs. -/
structure ecsModeEncoder where
  ecsDataPointsEncoder : ElasticsearchExporter.ecsDataPointsEncoder
  nopSpanEventEncoder : ElasticsearchExporter.nopSpanEventEncoder
  profilesUnsupportedEncoder : ElasticsearchExporter.profilesUnsupportedEncoder

/-- Struct `bodymapModeEncoder`, with its two embedded structs. -/
structure bodymapModeEncoder where
  metricsUnsupportedEncoder : ElasticsearchExporter.metricsUnsupportedEncoder
  profilesUnsupportedEncoder : ElasticsearchExporter.profilesUnsupportedEncoder

/-- Struct `otelModeEncoder`. -/
structure otelModeEncoder where
  serializer : otelserializer.Serializer

/-- Interface `documentEncoder`: a value of the interface is a value of one of the four
struct types that implement it. -/
inductive documentEncoder where
  | legacy (e : legacyModeEncoder)
  | ecs (e : ecsModeEncoder)
  | bodymap (e : bodymapModeEncoder)
  | otel (e : otelModeEncoder)

/-- Function `newEncoder`. The `switch` tries its cases in source order. -/
def newEncoder (X : Env) (mode : MappingMode) : Except GoError documentEncoder :=
  if mode = X.MappingNone then
    .ok (.legacy
      { metricsUnsupportedEncoder := ⟨mode⟩
        profilesUnsupportedEncoder := ⟨mode⟩
        nonOTelSpanEncoder := ⟨"Attributes", "Events", false⟩
        nopSpanEventEncoder := ⟨⟩
        attributesPrefix := "Attributes" })
  else if mode = X.MappingRaw then
    .ok (.legacy
      { metricsUnsupportedEncoder := ⟨mode⟩
        profilesUnsupportedEncoder := ⟨mode⟩
        nonOTelSpanEncoder := ⟨"", "", false⟩
        nopSpanEventEncoder := ⟨⟩
        attributesPrefix := "" })
  else if mode = X.MappingECS then
    .ok (.ecs
      { ecsDataPointsEncoder := ⟨⟩
        nopSpanEventEncoder := ⟨⟩
        profilesUnsupportedEncoder := ⟨mode⟩ })
  else if mode = X.MappingBodyMap then
    .ok (.bodymap
      { metricsUnsupportedEncoder := ⟨mode⟩
        profilesUnsupportedEncoder := ⟨mode⟩ })
  else if mode = X.MappingOTel then
    match X.otelserializerNew with
    | .error err => .error err
    | .ok ser => .ok (.otel ⟨ser⟩)
  else
    .error (.mk ("unknown mapping mode " ++ X.fmtQ (X.modeString mode) ++ " (" ++
      toString mode ++ ")"))

/-- Method `otelModeEncoder.encodeSpanEvent`. -/
def otelModeEncoder.encodeSpanEvent (e : otelModeEncoder) (ec : encodingContext)
    (span : ptrace.Span) (spanEvent : ptrace.SpanEvent) (idx : elasticsearch.Index)
    (buf : Buffer) : EncodeResult :=
  (none, e.serializer.SerializeSpanEvent ec.resource ec.resourceSchemaURL ec.scope
    ec.scopeSchemaURL span spanEvent idx buf)

/-- Method `otelModeEncoder.encodeMetrics`. -/
def otelModeEncoder.encodeMetrics (e : otelModeEncoder) (ec : encodingContext)
    (dataPoints : List datapoints.DataPoint) (validationErrors : List GoError)
    (idx : elasticsearch.Index) (buf : Buffer) : MetricsResult :=
  e.serializer.SerializeMetrics ec.resource ec.resourceSchemaURL ec.scope ec.scopeSchemaURL
    dataPoints validationErrors idx buf

/-- Method `otelModeEncoder.encodeProfile`. -/
def otelModeEncoder.encodeProfile (e : otelModeEncoder) (ec : encodingContext)
    (dic : pprofile.ProfilesDictionary) (profile : pprofile.Profile) (pushData : PushData) :
    Option GoError :=
  e.serializer.SerializeProfile dic ec.resource ec.scope profile pushData

/-- Method `bodymapModeEncoder.encodeLog`. -/
def bodymapModeEncoder.encodeLog (X : Env) (_e : bodymapModeEncoder) (_ec : encodingContext)
    (record : plog.LogRecord) (_idx : elasticsearch.Index) (buf : Buffer) : EncodeResult :=
  let body := record.Body
  if body.Type ≠ .ValueTypeMap then
    (some (.wrap (ErrInvalidTypeForBodyMapMode.Error ++ ": " ++ X.fmtQ body.Type.name)
      ErrInvalidTypeForBodyMapMode), buf)
  else
    (none, serializer.Map X body.Map buf)

/-- Method `bodymapModeEncoder.encodeSpan`. -/
def bodymapModeEncoder.encodeSpan (_e : bodymapModeEncoder) (_ec : encodingContext)
    (_span : ptrace.Span) (_idx : elasticsearch.Index) (buf : Buffer) : EncodeResult :=
  (some (.mk "bodymap mode does not support encoding spans"), buf)

/-- Method `bodymapModeEncoder.encodeSpanEvent`. -/
def bodymapModeEncoder.encodeSpanEvent (_e : bodymapModeEncoder) (_ec : encodingContext)
    (_span : ptrace.Span) (_spanEvent : ptrace.SpanEvent) (_idx : elasticsearch.Index)
    (buf : Buffer) : EncodeResult :=
  (some (.mk "bodymap mode does not support encoding span events"), buf)

/-- Method `metricsUnsupportedEncoder.encodeMetrics`. -/
def metricsUnsupportedEncoder.encodeMetrics (X : Env) (e : metricsUnsupportedEncoder)
    (_ec : encodingContext) (_dataPoints : List datapoints.DataPoint)
    (validationErrors : List GoError) (_idx : elasticsearch.Index) (buf : Buffer) :
    MetricsResult :=
  { hints := none
    err := some (.mk ("mapping mode " ++ X.fmtQ (X.modeString e.mode) ++ " (" ++
      toString e.mode ++ ") does not support metrics"))
    validationErrors := validationErrors
    buf := buf }

/-- Method `profilesUnsupportedEncoder.encodeProfile`. -/
def profilesUnsupportedEncoder.encodeProfile (X : Env) (e : profilesUnsupportedEncoder)
    (_ec : encodingContext) (_dic : pprofile.ProfilesDictionary) (_profile : pprofile.Profile)
    (_pushData : PushData) : Option GoError :=
  some (.mk ("mapping mode " ++ X.fmtQ (X.modeString e.mode) ++ " (" ++
    toString e.mode ++ ") does not support profiles"))

/-- Function `addDataStreamAttributes`. -/
def addDataStreamAttributes (document : Document) (key : String) (idx : elasticsearch.Index) :
    Document :=
  if idx.IsDataStream then
    let document := document.AddString (key ++ "data_stream.type") idx.Type_
    let document := document.AddString (key ++ "data_stream.dataset") idx.Dataset
    document.AddString (key ++ "data_stream.namespace") idx.Namespace
  else
    document

/-- Method `nopSpanEventEncoder.encodeSpanEvent`. -/
def nopSpanEventEncoder.encodeSpanEvent (_e : nopSpanEventEncoder) (_ec : encodingContext)
    (_span : ptrace.Span) (_spanEvent : ptrace.SpanEvent) (_idx : elasticsearch.Index)
    (buf : Buffer) : EncodeResult :=
  (none, buf)

/-- Function `encodeAttributes`. -/
def encodeAttributes (attributesPrefix : String) (document : Document)
    (attributes : pcommon.Map) (idx : elasticsearch.Index) : Document :=
  let document := document.AddAttributes attributesPrefix attributes
  addDataStreamAttributes document attributesPrefix idx

/-- Body of the `for k, v := range attrs.All()` loop of `encodeAttributesECSMode`. -/
def encodeAttributesECSModeStep (conversionMap : List (String × String))
    (preserveMap : List (String × Bool)) (document : Document) (kv : String × Value) :
    Document :=
  match conversionMap.lookup kv.1 with
  | some ecsKey =>
    if ecsKey = "" then
      document
    else
      let document := document.AddAttribute ecsKey kv.2
      if (preserveMap.lookup kv.1).getD false then
        document.AddAttribute kv.1 kv.2
      else
        document
  | none => document.AddAttribute kv.1 kv.2

/-- Function `encodeAttributesECSMode`. -/
def encodeAttributesECSMode (document : Document) (attrs : pcommon.Map)
    (conversionMap : List (String × String)) (preserveMap : List (String × Bool)) : Document :=
  if conversionMap.length = 0 then
    document.AddAttributes "" attrs
  else
    attrs.foldl (encodeAttributesECSModeStep conversionMap preserveMap) document

/-- Function `encodeLogAgentNameECSMode`. -/
def encodeLogAgentNameECSMode (document : Document) (resource : Resource) : Document :=
  let telemetrySdkName := "otlp"
  let telemetrySdkLanguage := ""
  let telemetryDistroName := ""
  let attrs := resource.Attributes
  let telemetrySdkName :=
    match Map.Get attrs semconv.TelemetrySDKNameKey with
    | some v => v.Str
    | none => telemetrySdkName
  let telemetrySdkLanguage :=
    match Map.Get attrs semconv.TelemetrySDKLanguageKey with
    | some v => v.Str
    | none => telemetrySdkLanguage
  let distroAndLanguage : String × String :=
    match Map.Get attrs semconv.TelemetryDistroNameKey with
    | some v => (v.Str, if telemetrySdkLanguage = "" then "unknown" else telemetrySdkLanguage)
    | none => (telemetryDistroName, telemetrySdkLanguage)
  let telemetryDistroName := distroAndLanguage.1
  let telemetrySdkLanguage := distroAndLanguage.2
  let agentName := telemetrySdkName
  let agentName :=
    if telemetryDistroName ≠ "" then
      agentName ++ "/" ++ telemetrySdkLanguage ++ "/" ++ telemetryDistroName
    else if telemetrySdkLanguage ≠ "" then
      agentName ++ "/" ++ telemetrySdkLanguage
    else
      agentName
  document.AddString "agent.name" agentName

/-- Function `encodeLogAgentVersionECSMode`. -/
def encodeLogAgentVersionECSMode (document : Document) (resource : Resource) : Document :=
  let attrs := resource.Attributes
  match Map.Get attrs semconv.TelemetryDistroVersionKey with
  | some telemetryDistroVersion => document.AddString "agent.version" telemetryDistroVersion.Str
  | none =>
    match Map.Get attrs semconv.TelemetrySDKVersionKey with
    | some telemetrySdkVersion => document.AddString "agent.version" telemetrySdkVersion.Str
    | none => document

/-- Function `encodeHostOsTypeECSMode`. -/
def encodeHostOsTypeECSMode (document : Document) (resource : Resource) : Document :=
  let ecsHostOsType := ""
  let ecsHostOsType :=
    match Map.Get resource.Attributes semconv.OSTypeKey with
    | some semConvOsType =>
      if semConvOsType.Str = "windows" ∨ semConvOsType.Str = "linux" then
        semConvOsType.Str
      else if semConvOsType.Str = "darwin" then
        "macos"
      else if semConvOsType.Str = "aix" ∨ semConvOsType.Str = "hpux" ∨
          semConvOsType.Str = "solaris" then
        "unix"
      else
        ecsHostOsType
    | none => ecsHostOsType
  let ecsHostOsType :=
    match Map.Get resource.Attributes semconv.OSNameKey with
    | some semConvOsName =>
      if semConvOsName.Str = "Android" then
        "android"
      else if semConvOsName.Str = "iOS" then
        "ios"
      else
        ecsHostOsType
    | none => ecsHostOsType
  if ecsHostOsType = "" then
    document
  else
    document.AddString "host.os.type" ecsHostOsType

/-- The document and the validation errors `ecsDataPointsEncoder.encodeMetrics` has built
when it calls `Serialize`, for the first data point `dp0` of the slice. -/
def ecsDataPointsEncoder.encodeMetricsState (ec : encodingContext) (dp0 : datapoints.DataPoint)
    (dataPoints : List datapoints.DataPoint) (validationErrors : List GoError)
    (idx : elasticsearch.Index) : Document × List GoError :=
  let document := Document.empty
  let document := encodeAttributesECSMode document ec.resource.Attributes
    resourceAttrsConversionMap resourceAttrsToPreserve
  let document := document.AddTimestamp "@timestamp" dp0.Timestamp
  let document := document.AddAttributes "" dp0.Attributes
  let document := addDataStreamAttributes document "" idx
  dataPoints.foldl
    (fun (st : Document × List GoError) dp =>
      match dp.Value with
      | .error err => (st.1, st.2 ++ [err])
      | .ok value => (st.1.AddAttribute dp.Metric.Name value, st.2))
    (document, validationErrors)

/-- Method `ecsDataPointsEncoder.encodeMetrics`. The result `none` is the run-time panic of
`dataPoints[0]` on an empty slice. `Document.DynamicTemplates` is read after the document has
been serialized. -/
def ecsDataPointsEncoder.encodeMetrics (X : Env) (_e : ecsDataPointsEncoder)
    (ec : encodingContext) (dataPoints : List datapoints.DataPoint)
    (validationErrors : List GoError) (idx : elasticsearch.Index) (buf : Buffer) :
    Option MetricsResult :=
  match dataPoints with
  | [] => none
  | dp0 :: _ =>
    let document := Document.empty
    let document := encodeAttributesECSMode document ec.resource.Attributes
      resourceAttrsConversionMap resourceAttrsToPreserve
    let document := document.AddTimestamp "@timestamp" dp0.Timestamp
    let document := document.AddAttributes "" dp0.Attributes
    let document := addDataStreamAttributes document "" idx
    let state := dataPoints.foldl
      (fun (st : Document × List GoError) dp =>
        match dp.Value with
        | .error err => (st.1, st.2 ++ [err])
        | .ok value => (st.1.AddAttribute dp.Metric.Name value, st.2))
      (document, validationErrors)
    let res := state.1.Serialize X buf true
    some
      { hints := state.1.DynamicTemplates X
        err := res.1
        validationErrors := state.2
        buf := res.2 }

/-- Constants `traceIDField`, `spanIDField` and `attributeField`. -/
def traceIDField : String := "traceID"

def spanIDField : String := "spanID"

def attributeField : String := "attribute"

/-- The slice `linkArray` built by the loop of `spanLinksToString`. -/
def spanLinksArray (spanLinkSlice : List ptrace.SpanLink) : List LinkObject :=
  spanLinkSlice.foldl
    (fun linkArray spanLink =>
      let link : LinkObject := []
      let link := link.set spanIDField
        (.str (traceutil.SpanIDToHexOrEmptyString spanLink.SpanID))
      let link := link.set traceIDField
        (.str (traceutil.TraceIDToHexOrEmptyString spanLink.TraceID))
      let link := link.set attributeField (.raw spanLink.Attributes)
      linkArray ++ [link])
    []

/-- Function `spanLinksToString`. The error of `json.Marshal` is discarded; the byte slice is
nil on an error and converts to the empty string. -/
def spanLinksToString (X : Env) (spanLinkSlice : List ptrace.SpanLink) : String :=
  match json.Marshal X (spanLinksArray spanLinkSlice) with
  | .ok linkArrayBytes => linkArrayBytes
  | .error _ => ""

/-- Function `durationAsMicroseconds`. The subtraction is an `int64` subtraction and the
division truncates toward zero. -/
def durationAsMicroseconds (start end_ : time.Time) : Int :=
  Int.tdiv (wrapInt64 (end_.UnixNano - start.UnixNano)) 1000

/-- Function `scopeToAttributes`. The fresh map `attrs` receives a copy of the scope
attributes by `CopyTo`; the scope is a value and is not changed. -/
def scopeToAttributes (scope : InstrumentationScope) : pcommon.Map :=
  let attrs : pcommon.Map := scope.Attributes
  let attrs := Map.PutStr attrs "name" scope.Name
  let attrs := Map.PutStr attrs "version" scope.Version
  attrs

/-- Function `encodeLogTimestampECSMode`. -/
def encodeLogTimestampECSMode (document : Document) (record : plog.LogRecord) : Document :=
  if record.Timestamp ≠ 0 then
    document.AddTimestamp "@timestamp" record.Timestamp
  else
    document.AddTimestamp "@timestamp" record.ObservedTimestamp

/-- The document `legacyModeEncoder.encodeLog` has built when it calls `Serialize`. -/
def legacyModeEncoder.encodeLogDocument (e : legacyModeEncoder) (ec : encodingContext)
    (record : plog.LogRecord) (idx : elasticsearch.Index) : Document :=
  let document := Document.empty
  let docTimeStamp := record.Timestamp
  let docTimeStamp :=
    if docTimeStamp.AsTime.UnixNano = 0 then record.ObservedTimestamp else docTimeStamp
  let document := document.AddTimestamp "@timestamp" docTimeStamp
  let document := document.AddTraceID "TraceId" record.TraceID
  let document := document.AddSpanID "SpanId" record.SpanID
  let document := document.AddInt "TraceFlags" (record.Flags : Int)
  let document := document.AddString "SeverityText" record.SeverityText
  let document := document.AddInt "SeverityNumber" record.SeverityNumber
  let document := document.AddAttribute "Body" record.Body
  let document := document.AddAttributes "Resource" ec.resource.Attributes
  let document := document.AddAttributes "Scope" (scopeToAttributes ec.scope)
  encodeAttributes e.attributesPrefix document record.Attributes idx

/-- Method `legacyModeEncoder.encodeLog`. -/
def legacyModeEncoder.encodeLog (X : Env) (e : legacyModeEncoder) (ec : encodingContext)
    (record : plog.LogRecord) (idx : elasticsearch.Index) (buf : Buffer) : EncodeResult :=
  (e.encodeLogDocument ec record idx).Serialize X buf false

/-- Table `recordAttrsConversionMap` of `ecsModeEncoder.encodeLog`. -/
def recordAttrsConversionMap : List (String × String) :=
  [ ("event.name", "event.action"),
    (semconv.ExceptionMessageKey, "error.message"),
    (semconv.ExceptionStacktraceKey, "error.stacktrace"),
    (semconv.ExceptionTypeKey, "error.type"),
    (semconv.ExceptionEscapedKey, "event.error.exception.handled") ]

/-- The document `ecsModeEncoder.encodeLog` has built when it calls `Serialize`. -/
def ecsModeEncoder.encodeLogDocument (_e : ecsModeEncoder) (ec : encodingContext)
    (record : plog.LogRecord) (idx : elasticsearch.Index) : Document :=
  let document := Document.empty
  let document := encodeAttributesECSMode document ec.resource.Attributes
    resourceAttrsConversionMap resourceAttrsToPreserve
  let scopeAttrsConversionMap : List (String × String) := []
  let document := encodeAttributesECSMode document ec.scope.Attributes
    scopeAttrsConversionMap resourceAttrsToPreserve
  let document := encodeAttributesECSMode document record.Attributes
    recordAttrsConversionMap resourceAttrsToPreserve
  let document := addDataStreamAttributes document "" idx
  let document := encodeLogAgentNameECSMode document ec.resource
  let document := encodeLogAgentVersionECSMode document ec.resource
  let document := encodeHostOsTypeECSMode document ec.resource
  let document := encodeLogTimestampECSMode document record
  let document := document.AddTraceID "trace.id" record.TraceID
  let document := document.AddSpanID "span.id" record.SpanID
  let document :=
    if record.SeverityNumber ≠ plog.SeverityNumberUnspecified then
      document.AddInt "event.severity" record.SeverityNumber
    else
      document
  let document := document.AddString "log.level" record.SeverityText
  let document :=
    if record.Body.Type = .ValueTypeStr then
      document.AddAttribute "message" record.Body
    else
      document
  document

/-- Method `ecsModeEncoder.encodeLog`. -/
def ecsModeEncoder.encodeLog (X : Env) (e : ecsModeEncoder) (ec : encodingContext)
    (record : plog.LogRecord) (idx : elasticsearch.Index) (buf : Buffer) : EncodeResult :=
  (e.encodeLogDocument ec record idx).Serialize X buf true

/-- The document `ecsModeEncoder.encodeSpan` has built when it calls `Serialize`. -/
def ecsModeEncoder.encodeSpanDocument (_e : ecsModeEncoder) (ec : encodingContext)
    (span : ptrace.Span) (idx : elasticsearch.Index) : Document :=
  let document := Document.empty
  let document := encodeAttributesECSMode document ec.resource.Attributes
    resourceAttrsConversionMap resourceAttrsToPreserve
  let scopeAttrsConversionMap : List (String × String) := []
  let document := encodeAttributesECSMode document ec.scope.Attributes
    scopeAttrsConversionMap resourceAttrsToPreserve
  let spanAttrsConversionMap : List (String × String) := []
  let document := encodeAttributesECSMode document span.Attributes
    spanAttrsConversionMap resourceAttrsToPreserve
  let document := encodeHostOsTypeECSMode document ec.resource
  let document := addDataStreamAttributes document "" idx
  let document := document.AddTimestamp "@timestamp" span.StartTimestamp
  let document := document.AddTraceID "trace.id" span.TraceID
  let document := document.AddSpanID "span.id" span.SpanID
  let document := document.AddString "span.name" span.Name
  let document := document.AddSpanID "parent.id" span.ParentSpanID
  let document :=
    if span.Status.Code = ptrace.StatusCodeOk then
      document.AddString "event.outcome" "success"
    else if span.Status.Code = ptrace.StatusCodeError then
      document.AddString "event.outcome" "failure"
    else
      document
  document.AddLinks "span.links" span.Links

/-- Method `ecsModeEncoder.encodeSpan`. -/
def ecsModeEncoder.encodeSpan (X : Env) (e : ecsModeEncoder) (ec : encodingContext)
    (span : ptrace.Span) (idx : elasticsearch.Index) (buf : Buffer) : EncodeResult :=
  (e.encodeSpanDocument ec span idx).Serialize X buf true

/-- Method `otelModeEncoder.encodeLog`. -/
def otelModeEncoder.encodeLog (e : otelModeEncoder) (ec : encodingContext)
    (record : plog.LogRecord) (idx : elasticsearch.Index) (buf : Buffer) : EncodeResult :=
  e.serializer.SerializeLog ec.resource ec.resourceSchemaURL ec.scope ec.scopeSchemaURL
    record idx buf

/-- Method `otelModeEncoder.encodeSpan`. -/
def otelModeEncoder.encodeSpan (e : otelModeEncoder) (ec : encodingContext)
    (span : ptrace.Span) (idx : elasticsearch.Index) (buf : Buffer) : EncodeResult :=
  e.serializer.SerializeSpan ec.resource ec.resourceSchemaURL ec.scope ec.scopeSchemaURL
    span idx buf

/-- The document `nonOTelSpanEncoder.encodeSpan` has built when it calls `Serialize`. -/
def nonOTelSpanEncoder.encodeSpanDocument (X : Env) (e : nonOTelSpanEncoder)
    (ec : encodingContext) (span : ptrace.Span) (idx : elasticsearch.Index) : Document :=
  let document := Document.empty
  let document := document.AddTimestamp "@timestamp" span.StartTimestamp
  let document := document.AddTimestamp "EndTimestamp" span.EndTimestamp
  let document := document.AddTraceID "TraceId" span.TraceID
  let document := document.AddSpanID "SpanId" span.SpanID
  let document := document.AddSpanID "ParentSpanId" span.ParentSpanID
  let document := document.AddString "Name" span.Name
  let document := document.AddString "Kind" (X.spanKindStr span.Kind)
  let document := document.AddInt "TraceStatus" span.Status.Code
  let document := document.AddString "TraceStatusDescription" span.Status.Message
  let document := document.AddString "Link" (spanLinksToString X span.Links)
  let document := document.AddAttributes "Resource" ec.resource.Attributes
  let document := document.AddInt "Duration"
    (durationAsMicroseconds span.StartTimestamp.AsTime span.EndTimestamp.AsTime)
  let document := document.AddAttributes "Scope" (scopeToAttributes ec.scope)
  let document := encodeAttributes e.attributesPrefix document span.Attributes idx
  document.AddEvents e.eventsPrefix span.Events

/-- Method `nonOTelSpanEncoder.encodeSpan`. -/
def nonOTelSpanEncoder.encodeSpan (X : Env) (e : nonOTelSpanEncoder) (ec : encodingContext)
    (span : ptrace.Span) (idx : elasticsearch.Index) (buf : Buffer) : EncodeResult :=
  (e.encodeSpanDocument X ec span idx).Serialize X buf e.dedot

/-- Interface method `documentEncoder.encodeLog`, by dynamic dispatch. -/
def documentEncoder.encodeLog (X : Env) (enc : documentEncoder) (ec : encodingContext)
    (record : plog.LogRecord) (idx : elasticsearch.Index) (buf : Buffer) : EncodeResult :=
  match enc with
  | .legacy e => e.encodeLog X ec record idx buf
  | .ecs e => e.encodeLog X ec record idx buf
  | .bodymap e => e.encodeLog X ec record idx buf
  | .otel e => e.encodeLog ec record idx buf

/-- Interface method `documentEncoder.encodeSpan`, by dynamic dispatch. -/
def documentEncoder.encodeSpan (X : Env) (enc : documentEncoder) (ec : encodingContext)
    (span : ptrace.Span) (idx : elasticsearch.Index) (buf : Buffer) : EncodeResult :=
  match enc with
  | .legacy e => e.nonOTelSpanEncoder.encodeSpan X ec span idx buf
  | .ecs e => e.encodeSpan X ec span idx buf
  | .bodymap e => e.encodeSpan ec span idx buf
  | .otel e => e.encodeSpan ec span idx buf

/-- Interface method `documentEncoder.encodeSpanEvent`, by dynamic dispatch. -/
def documentEncoder.encodeSpanEvent (enc : documentEncoder) (ec : encodingContext)
    (span : ptrace.Span) (spanEvent : ptrace.SpanEvent) (idx : elasticsearch.Index)
    (buf : Buffer) : EncodeResult :=
  match enc with
  | .legacy e => e.nopSpanEventEncoder.encodeSpanEvent ec span spanEvent idx buf
  | .ecs e => e.nopSpanEventEncoder.encodeSpanEvent ec span spanEvent idx buf
  | .bodymap e => e.encodeSpanEvent ec span spanEvent idx buf
  | .otel e => e.encodeSpanEvent ec span spanEvent idx buf

/-- Interface method `documentEncoder.encodeMetrics`, by dynamic dispatch; `none` is a
run-time panic. -/
def documentEncoder.encodeMetrics (X : Env) (enc : documentEncoder) (ec : encodingContext)
    (dataPoints : List datapoints.DataPoint) (validationErrors : List GoError)
    (idx : elasticsearch.Index) (buf : Buffer) : Option MetricsResult :=
  match enc with
  | .legacy e =>
    some (e.metricsUnsupportedEncoder.encodeMetrics X ec dataPoints validationErrors idx buf)
  | .ecs e => e.ecsDataPointsEncoder.encodeMetrics X ec dataPoints validationErrors idx buf
  | .bodymap e =>
    some (e.metricsUnsupportedEncoder.encodeMetrics X ec dataPoints validationErrors idx buf)
  | .otel e => some (e.encodeMetrics ec dataPoints validationErrors idx buf)

/-- Interface method `documentEncoder.encodeProfile`, by dynamic dispatch. -/
def documentEncoder.encodeProfile (X : Env) (enc : documentEncoder) (ec : encodingContext)
    (dic : pprofile.ProfilesDictionary) (profile : pprofile.Profile) (pushData : PushData) :
    Option GoError :=
  match enc with
  | .legacy e => e.profilesUnsupportedEncoder.encodeProfile X ec dic profile pushData
  | .ecs e => e.profilesUnsupportedEncoder.encodeProfile X ec dic profile pushData
  | .bodymap e => e.profilesUnsupportedEncoder.encodeProfile X ec dic profile pushData
  | .otel e => e.encodeProfile ec dic profile pushData

/-! ## Vocabulary of the specification -/

/-- The text `s` contains the text `t`. -/
def StrContains (s t : String) : Prop :=
  t.data <:+: s.data

/-- Per-attribute rule of the specification for the ECS attribute conversion: a key with an
empty target in the table gives nothing; a key with a non-empty target gives the value under
the target, followed by the value under the original key exactly when the key is in the
preserve set; a key absent from the table gives the value under the original key. -/
def ecsRuleFields (conversionMap : List (String × String)) (preserveMap : List (String × Bool))
    (kv : String × Value) : List Field :=
  match conversionMap.lookup kv.1 with
  | none => [⟨kv.1, .attribute kv.2⟩]
  | some target =>
    if target = "" then []
    else if preserveMap.lookup kv.1 = some true then
      [⟨target, .attribute kv.2⟩, ⟨kv.1, .attribute kv.2⟩]
    else
      [⟨target, .attribute kv.2⟩]

/-- Rule of the specification for `host.os.type`, from the optional `os.type` and `os.name`
resource attributes: the OS name decides first, then the OS type. -/
def hostOsTypeRule (osType osName : Option String) : Option String :=
  if osName = some "Android" then some "android"
  else if osName = some "iOS" then some "ios"
  else if osType = some "windows" then some "windows"
  else if osType = some "linux" then some "linux"
  else if osType = some "darwin" then some "macos"
  else if osType = some "aix" ∨ osType = some "hpux" ∨ osType = some "solaris" then some "unix"
  else none

/-- Fields produced by the resource-level conversion of the ECS encoders: the call
`encodeAttributesECSMode(&document, ec.resource.Attributes(), resourceAttrsConversionMap,
resourceAttrsToPreserve)` on the fresh document, which opens `encodeLog`, `encodeSpan` and
`encodeMetrics` of the ECS mode. -/
def resourceFields (attrs : pcommon.Map) : List Field :=
  (encodeAttributesECSMode Document.empty attrs resourceAttrsConversionMap
    resourceAttrsToPreserve).fields

/-- Keys of the resource conversion table whose target is empty. -/
def droppedResourceKeys : List String :=
  ["telemetry.sdk.name", "telemetry.sdk.language", "telemetry.sdk.version",
    "telemetry.distro.name", "telemetry.distro.version"]

/-- The SDK name of the specification of `agent.name`: the `telemetry.sdk.name` attribute, or
`otlp` when the attribute is absent. -/
def agentSdkName (resource : Resource) : String :=
  match Map.Get resource.Attributes "telemetry.sdk.name" with
  | some v => v.Str
  | none => "otlp"

/-- The language of the specification of `agent.name`: the `telemetry.sdk.language` attribute
when it is present and not empty. -/
def agentLanguage (resource : Resource) : Option String :=
  match Map.Get resource.Attributes "telemetry.sdk.language" with
  | some v => if v.Str = "" then none else some v.Str
  | none => none

/-- The six values the specification allows for `host.os.type`. -/
def hostOsTypeValues : List String :=
  ["linux", "windows", "macos", "unix", "android", "ios"]

/-- The `agent.version` value of the specification: the distro version takes precedence over
the SDK version, and there is no value when neither attribute exists. -/
def agentVersionRule (distroVersion sdkVersion : Option String) : Option String :=
  match distroVersion with
  | some v => some v
  | none => sdkVersion

/-- The timestamp of the specification for a log record: the primary timestamp when it is
not zero, the observed timestamp otherwise. -/
def selectedTimestamp (record : plog.LogRecord) : pcommon.Timestamp :=
  if record.Timestamp = 0 then record.ObservedTimestamp else record.Timestamp

/-- The `event.outcome` value of the specification: success for Ok, failure for Error,
nothing for Unset and for every other code. -/
def eventOutcomeRule (code : Int) : Option String :=
  if code = 1 then some "success" else if code = 2 then some "failure" else none

/-- The three data-stream identity fields of the specification at a key prefix, for an index
that is a data stream; no field for another index. -/
def dataStreamFields (pfx : String) (idx : elasticsearch.Index) : List Field :=
  if idx.IsDataStream then
    [⟨pfx ++ "data_stream.type", .string idx.Type_⟩,
      ⟨pfx ++ "data_stream.dataset", .string idx.Dataset⟩,
      ⟨pfx ++ "data_stream.namespace", .string idx.Namespace⟩]
  else []

/-- The validation errors of the specification for a list of data points: the
value-extraction errors of the failing points, in input order. -/
def failedValues (dataPoints : List datapoints.DataPoint) : List GoError :=
  dataPoints.filterMap (fun dp =>
    match dp.Value with
    | .error err => some err
    | .ok _ => none)

/-- The metric entries of the specification for a list of data points: one name/value
entry for each point whose value extraction succeeds, in input order. -/
def metricFields (dataPoints : List datapoints.DataPoint) : List Field :=
  dataPoints.filterMap (fun dp =>
    match dp.Value with
    | .error _ => none
    | .ok value => some ⟨dp.Metric.Name, .attribute value⟩)

/-- The link object of the specification for a span link: the three keys `spanID`, `traceID`
and `attribute`. -/
def linkObjectOf (link : ptrace.SpanLink) : LinkObject :=
  [("spanID", .str (traceutil.SpanIDToHexOrEmptyString link.SpanID)),
    ("traceID", .str (traceutil.TraceIDToHexOrEmptyString link.TraceID)),
    ("attribute", .raw link.Attributes)]

/-- The payload of a field is an attribute value. -/
def FieldIsAttribute (f : Field) : Prop :=
  ∃ v, f.value = .attribute v

/-- The payload of a field is a timestamp. -/
def objmodel.Field.isTimestamp (f : Field) : Bool :=
  match f.value with
  | .timestamp _ => true
  | _ => false

/-- Fields `encodeLogAgentNameECSMode` adds to a document. -/
def agentNameFields (resource : Resource) : List Field :=
  (encodeLogAgentNameECSMode Document.empty resource).fields

/-- Fields `encodeLogAgentVersionECSMode` adds to a document. -/
def agentVersionFields (resource : Resource) : List Field :=
  (encodeLogAgentVersionECSMode Document.empty resource).fields

/-- Fields `encodeHostOsTypeECSMode` adds to a document. -/
def hostOsTypeFields (resource : Resource) : List Field :=
  (encodeHostOsTypeECSMode Document.empty resource).fields

/-- The `event.outcome` fields of the specification for a status code. -/
def eventOutcomeFields (code : Int) : List Field :=
  match eventOutcomeRule code with
  | some outcome => [⟨"event.outcome", .string outcome⟩]
  | none => []

/-- The fields of an ECS log document that come from the resource, scope and record
attributes, the data-stream identity and the agent and OS special cases, in the order of
insertion. They precede the fields taken from the record itself. -/
def ecsLogPrefix (ec : encodingContext) (record : plog.LogRecord) (idx : elasticsearch.Index) :
    List Field :=
  resourceFields ec.resource.Attributes ++
  (ec.scope.Attributes.map (fun kv => ⟨kv.1, .attribute kv.2⟩) ++
  (record.Attributes.flatMap (ecsRuleFields recordAttrsConversionMap resourceAttrsToPreserve) ++
  (dataStreamFields "" idx ++
  (agentNameFields ec.resource ++
  (agentVersionFields ec.resource ++ hostOsTypeFields ec.resource)))))

/-- The fields of an ECS span document that come from the resource, scope and span
attributes, the OS special case and the data-stream identity, in the order of insertion. -/
def ecsSpanPrefix (ec : encodingContext) (span : ptrace.Span) (idx : elasticsearch.Index) :
    List Field :=
  resourceFields ec.resource.Attributes ++
  (ec.scope.Attributes.map (fun kv => ⟨kv.1, .attribute kv.2⟩) ++
  (span.Attributes.map (fun kv => ⟨kv.1, .attribute kv.2⟩) ++
  (hostOsTypeFields ec.resource ++ dataStreamFields "" idx)))

/-- A list of fields contains the three data-stream identity fields of an index at a key
prefix. -/
def HasDataStreamFields (fields : List Field) (pfx : String) (idx : elasticsearch.Index) :
    Prop :=
  (⟨pfx ++ "data_stream.type", .string idx.Type_⟩ : Field) ∈ fields ∧
  (⟨pfx ++ "data_stream.dataset", .string idx.Dataset⟩ : Field) ∈ fields ∧
  (⟨pfx ++ "data_stream.namespace", .string idx.Namespace⟩ : Field) ∈ fields

/-- The JSON object of the specification for a span link: the three members `attribute`,
`spanID` and `traceID`, in the order in which `encoding/json` writes the keys of a map. -/
def linkJSON (X : Env) (link : ptrace.SpanLink) : String :=
  "\x7b" ++ ",".intercalate
    [X.jsonString "attribute" ++ ":" ++ X.jsonRaw link.Attributes,
      X.jsonString "spanID" ++ ":" ++
        X.jsonString (traceutil.SpanIDToHexOrEmptyString link.SpanID),
      X.jsonString "traceID" ++ ":" ++
        X.jsonString (traceutil.TraceIDToHexOrEmptyString link.TraceID)] ++ "\x7d"

/-- The JSON array of the specification for a list of span links: one object per link, in
the order of the links. -/
def linksJSON (X : Env) (links : List ptrace.SpanLink) : String :=
  "[" ++ ",".intercalate (links.map (linkJSON X)) ++ "]"

/-! ## Sample inputs -/

/-- A sample span link with one attribute whose value is the double NaN (bit pattern
`7FF8000000000000`). -/
def sampleNaNLink : ptrace.SpanLink :=
  ⟨fun i => if i = 0 then 1 else 0, fun i => if i = 0 then 2 else 0,
    [("ratio", .double 0x7FF8000000000000)]⟩


/-- A sample encoding context whose resource and scope both carry an attribute named
`@timestamp`. -/
def sampleTimestampContext : encodingContext :=
  ⟨⟨[("@timestamp", .str "resource")]⟩, "", ⟨"lib", "1.0", [("@timestamp", .str "scope")]⟩, ""⟩

/-- A sample log record with the primary timestamp 7 and an attribute named `@timestamp`. -/
def sampleTimestampRecord : plog.LogRecord :=
  ⟨7, 42, fun _ => 0, fun _ => 0, 0, "", 0, .empty, [("@timestamp", .str "record")]⟩

/-- Sample resource with SDK name `otlp` and a distro name that is the empty string. -/
def sampleEmptyDistroResource : Resource :=
  ⟨[("telemetry.sdk.name", .str "otlp"), ("telemetry.distro.name", .str "")]⟩

/-- Sample scope whose attributes already use the keys `name` and `version`. -/
def sampleScope : InstrumentationScope :=
  ⟨"lib", "1.0", [("name", .str "old"), ("k", .int 1), ("version", .int 2)]⟩


/-- A sample span link with an empty span id, the trace id `01 00 .. 00` and one attribute. -/
def sampleLink : ptrace.SpanLink :=
  ⟨fun i => if i = 0 then 1 else 0, fun _ => 0, [("k", .int 1)]⟩


/-- The sample span with the given status. -/
def sampleSpanWithStatus (code : Int) (message : String) : ptrace.Span :=
  ⟨fun _ => 0, fun _ => 0, fun _ => 0, "op", 0, 0, 0, [("event.outcome", .str "attr")], [], [],
    ⟨code, message⟩⟩


/-- A sample log record with severity number 9, severity text `INFO`, a string body, no
primary timestamp and the observed timestamp 42. -/
def sampleInfoRecord : plog.LogRecord :=
  ⟨0, 42, fun _ => 0, fun _ => 0, 0, "INFO", 9, .str "started", []⟩

/-- A sample index that is a data stream. -/
def sampleDataStream : elasticsearch.Index :=
  ⟨true, "logs", "generic", "default"⟩


/-- Three sample data points; the value of the second one cannot be extracted. -/
def sampleDataPoints : List datapoints.DataPoint :=
  [⟨5, [("host", .str "a")], ⟨"cpu"⟩, .ok (.int 1)⟩,
    ⟨5, [("host", .str "a")], ⟨"mem"⟩, .error (.mk "invalid number")⟩,
    ⟨5, [("host", .str "a")], ⟨"disk"⟩, .ok (.int 3)⟩]


/-- Sample resource of an Android device that reports the OS type `linux`. -/
def sampleAndroidResource : Resource :=
  ⟨[("os.type", .str "linux"), ("os.name", .str "Android")]⟩

/-- Sample resource with SDK name `otlp`, language `go` and distro `contrib`. -/
def sampleContribResource : Resource :=
  ⟨[("telemetry.sdk.name", .str "otlp"), ("telemetry.sdk.language", .str "go"),
    ("telemetry.distro.name", .str "contrib")]⟩


/-- Sample resource attributes: a host name, an SDK name and an OS type. -/
def sampleResourceAttrs : pcommon.Map :=
  [("host.name", .str "h1"), ("telemetry.sdk.name", .str "go"), ("os.type", .str "linux")]


/-- A serializer that writes nothing and reports no error. -/
def sampleSerializer : otelserializer.Serializer where
  SerializeLog := fun _ _ _ _ _ _ buf => (none, buf)
  SerializeSpan := fun _ _ _ _ _ _ buf => (none, buf)
  SerializeSpanEvent := fun _ _ _ _ _ _ _ buf => buf
  SerializeMetrics := fun _ _ _ _ _ errs _ buf => ⟨none, none, errs, buf⟩
  SerializeProfile := fun _ _ _ _ _ => none

/-- A sample environment: the enumeration numbered from zero, printable names of the modes,
a `%q` and a JSON string encoding that put a text with no special character between double
quotes, and a JSON encoding of a raw attribute map that writes integers and strings and
stands `null` for every other value. -/
def sampleEnv : Env where
  MappingNone := 0
  MappingECS := 1
  MappingOTel := 2
  MappingRaw := 3
  MappingBodyMap := 4
  modeString := fun m =>
    if m = 0 then "none" else if m = 1 then "ecs" else if m = 2 then "otel"
    else if m = 3 then "raw" else if m = 4 then "bodymap" else ""
  fmtQ := fun s => "\"" ++ s ++ "\""
  mapBytes := fun m => List.replicate m.length 0
  documentSerialize := fun _ _ buf => (none, buf)
  documentDynamicTemplates := fun _ => none
  otelserializerNew := .ok sampleSerializer
  spanKindStr := fun _ => "SPAN_KIND_UNSPECIFIED"
  jsonString := fun s => "\"" ++ s ++ "\""
  jsonRaw := fun m => "\x7b" ++ ",".intercalate (m.map (fun kv =>
    "\"" ++ kv.1 ++ "\":" ++
      match kv.2 with
      | .int i => toString i
      | .str t => "\"" ++ t ++ "\""
      | _ => "null")) ++ "\x7d"

/-- A sample encoding context with no attributes. -/
def sampleContext : encodingContext :=
  ⟨⟨[]⟩, "", ⟨"", "", []⟩, ""⟩

/-- A sample span. -/
def sampleSpan : ptrace.Span :=
  ⟨fun _ => 0, fun _ => 0, fun _ => 0, "op", 0, 0, 0, [], [], [], ⟨0, ""⟩⟩

/-- A sample span event. -/
def sampleSpanEvent : ptrace.SpanEvent :=
  ⟨0, "ev", []⟩

/-- A sample index that is not a data stream. -/
def sampleIndex : elasticsearch.Index :=
  ⟨false, "", "", ""⟩

/-- A sample log record with the given body. -/
def sampleRecord (body : Value) : plog.LogRecord :=
  ⟨0, 0, fun _ => 0, fun _ => 0, 0, "", 0, body, []⟩

/-! ## Shared lemmas -/

theorem strContains_mid (a t b : String) : StrContains (a ++ t ++ b) t := by
  unfold StrContains
  exact ⟨a.data, b.data, by simp [String.data_append]⟩

theorem wellFormed_ne (X : Env) (hX : X.WellFormed) :
    X.MappingNone ≠ X.MappingRaw ∧ X.MappingNone ≠ X.MappingECS ∧
    X.MappingNone ≠ X.MappingBodyMap ∧ X.MappingNone ≠ X.MappingOTel ∧
    X.MappingRaw ≠ X.MappingECS ∧ X.MappingRaw ≠ X.MappingBodyMap ∧
    X.MappingRaw ≠ X.MappingOTel ∧ X.MappingECS ≠ X.MappingBodyMap ∧
    X.MappingECS ≠ X.MappingOTel ∧ X.MappingBodyMap ≠ X.MappingOTel := by
  unfold Env.WellFormed at hX
  simp only [List.nodup_cons, List.mem_cons, List.mem_singleton, not_or, List.not_mem_nil,
    not_false_eq_true, List.nodup_nil, and_true] at hX
  tauto

theorem newEncoder_none (X : Env) :
    newEncoder X X.MappingNone = .ok (.legacy
      ⟨⟨"Attributes", "Events", false⟩, ⟨⟩, ⟨X.MappingNone⟩, ⟨X.MappingNone⟩, "Attributes"⟩) := by
  simp [newEncoder]

theorem newEncoder_raw (X : Env) (hX : X.WellFormed) :
    newEncoder X X.MappingRaw = .ok (.legacy
      ⟨⟨"", "", false⟩, ⟨⟩, ⟨X.MappingRaw⟩, ⟨X.MappingRaw⟩, ""⟩) := by
  obtain ⟨h1, -⟩ := wellFormed_ne X hX
  simp [newEncoder, Ne.symm h1]

theorem newEncoder_ecs (X : Env) (hX : X.WellFormed) :
    newEncoder X X.MappingECS = .ok (.ecs ⟨⟨⟩, ⟨⟩, ⟨X.MappingECS⟩⟩) := by
  obtain ⟨-, h2, -, -, h5, -⟩ := wellFormed_ne X hX
  simp [newEncoder, Ne.symm h2, Ne.symm h5]

theorem newEncoder_bodymap (X : Env) (hX : X.WellFormed) :
    newEncoder X X.MappingBodyMap = .ok (.bodymap ⟨⟨X.MappingBodyMap⟩, ⟨X.MappingBodyMap⟩⟩) := by
  obtain ⟨-, -, h3, -, -, h6, -, h8, -⟩ := wellFormed_ne X hX
  simp [newEncoder, Ne.symm h3, Ne.symm h6, Ne.symm h8]

theorem newEncoder_otel (X : Env) (hX : X.WellFormed) :
    newEncoder X X.MappingOTel =
      match X.otelserializerNew with
      | .error err => .error err
      | .ok ser => .ok (.otel ⟨ser⟩) := by
  obtain ⟨-, -, -, h4, -, -, h7, -, h9, h10⟩ := wellFormed_ne X hX
  simp [newEncoder, Ne.symm h4, Ne.symm h7, Ne.symm h9, Ne.symm h10]

theorem newEncoder_unknown (X : Env) (mode : MappingMode) (h : ¬ X.IsMember mode) :
    newEncoder X mode = .error (.mk ("unknown mapping mode " ++ X.fmtQ (X.modeString mode) ++
      " (" ++ toString mode ++ ")")) := by
  unfold Env.IsMember at h
  simp only [List.mem_cons, List.mem_singleton, not_or, List.not_mem_nil, or_false] at h
  obtain ⟨h1, h2, h3, h4, h5⟩ := h
  simp [newEncoder, h1, h2, h3, h4, h5]

/-! ## Mode factory -/

/-- C1: `newEncoder` returns an encoder and no error for the modes None, Raw, ECS and BodyMap;
for the mode OTel it returns an encoder when the native serializer is constructed and
returns the construction error of the serializer unchanged otherwise; for a mode value
outside the enumeration it returns no encoder and an error whose message contains the
printable value of the mode, as rendered by `%q`, and its integer value in decimal. -/
theorem newEncoder_spec (X : Env) (hX : X.WellFormed) :
    (∀ mode, mode = X.MappingNone ∨ mode = X.MappingRaw ∨ mode = X.MappingECS ∨
        mode = X.MappingBodyMap → ∃ enc, newEncoder X mode = .ok enc) ∧
    (∀ ser, X.otelserializerNew = .ok ser →
        newEncoder X X.MappingOTel = .ok (.otel ⟨ser⟩)) ∧
    (∀ err, X.otelserializerNew = .error err → newEncoder X X.MappingOTel = .error err) ∧
    (∀ mode, ¬ X.IsMember mode →
        ∃ err, newEncoder X mode = .error err ∧
          err.Error = "unknown mapping mode " ++ X.fmtQ (X.modeString mode) ++ " (" ++
            toString mode ++ ")" ∧
          StrContains err.Error (X.fmtQ (X.modeString mode)) ∧
          StrContains err.Error (toString mode)) := by
  refine ⟨?_, ?_, ?_, ?_⟩
  · rintro mode (h | h | h | h) <;> subst h
    · exact ⟨_, newEncoder_none X⟩
    · exact ⟨_, newEncoder_raw X hX⟩
    · exact ⟨_, newEncoder_ecs X hX⟩
    · exact ⟨_, newEncoder_bodymap X hX⟩
  · intro ser h
    rw [newEncoder_otel X hX, h]
  · intro err h
    rw [newEncoder_otel X hX, h]
  · intro mode h
    refine ⟨_, newEncoder_unknown X mode h, rfl, ?_, ?_⟩
    · simp only [GoError.Error]
      rw [String.append_assoc, String.append_assoc]
      exact strContains_mid _ _ _
    · simp only [GoError.Error]
      exact strContains_mid _ _ _

/-- Witness of C1 on the sample environment: mode 3 (Raw) gives an encoder, mode 7 gives the
error `unknown mapping mode "" (7)`. -/
theorem newEncoder_spec_witness :
    sampleEnv.WellFormed ∧ (∃ enc, newEncoder sampleEnv 3 = .ok enc) ∧
    (∃ err, newEncoder sampleEnv 7 = .error err ∧
      err.Error = "unknown mapping mode \"\" (7)") := by
  have hX : sampleEnv.WellFormed := by decide
  have h := newEncoder_spec sampleEnv hX
  refine ⟨hX, h.1 3 (Or.inr (Or.inl rfl)), ?_⟩
  obtain ⟨err, h1, h2, -⟩ := h.2.2.2 7 (by unfold Env.IsMember; decide)
  exact ⟨err, h1, by rw [h2]; decide⟩

/-! ## Unsupported signals -/

/-- C2: for a mode `m` among None, Raw and BodyMap the encoder built by `newEncoder m` fails
`encodeMetrics` on every input with a nil hint map and the message
`mapping mode <m> (<int m>) does not support metrics`; for `m` among None, Raw, ECS and
BodyMap it fails `encodeProfile` on every input with the message
`mapping mode <m> (<int m>) does not support profiles`. The mode named is the one given to
`newEncoder` and the wording is the same for all modes. -/
theorem unsupported_signal_error (X : Env) (hX : X.WellFormed) (m : MappingMode) :
    (m = X.MappingNone ∨ m = X.MappingRaw ∨ m = X.MappingBodyMap →
      ∃ enc, newEncoder X m = .ok enc ∧
        ∀ ec dataPoints validationErrors idx buf,
          enc.encodeMetrics X ec dataPoints validationErrors idx buf =
            some ⟨none, some (.mk ("mapping mode " ++ X.fmtQ (X.modeString m) ++ " (" ++
              toString m ++ ") does not support metrics")), validationErrors, buf⟩) ∧
    (m = X.MappingNone ∨ m = X.MappingRaw ∨ m = X.MappingECS ∨ m = X.MappingBodyMap →
      ∃ enc, newEncoder X m = .ok enc ∧
        ∀ ec dic profile pushData,
          enc.encodeProfile X ec dic profile pushData =
            some (.mk ("mapping mode " ++ X.fmtQ (X.modeString m) ++ " (" ++
              toString m ++ ") does not support profiles"))) := by
  constructor
  · rintro (h | h | h) <;> subst h
    · exact ⟨_, newEncoder_none X, fun _ _ _ _ _ => rfl⟩
    · exact ⟨_, newEncoder_raw X hX, fun _ _ _ _ _ => rfl⟩
    · exact ⟨_, newEncoder_bodymap X hX, fun _ _ _ _ _ => rfl⟩
  · rintro (h | h | h | h) <;> subst h
    · exact ⟨_, newEncoder_none X, fun _ _ _ _ => rfl⟩
    · exact ⟨_, newEncoder_raw X hX, fun _ _ _ _ => rfl⟩
    · exact ⟨_, newEncoder_ecs X hX, fun _ _ _ _ => rfl⟩
    · exact ⟨_, newEncoder_bodymap X hX, fun _ _ _ _ => rfl⟩

/-- Witness of C2 on the sample environment: the BodyMap encoder (mode 4) rejects metrics with
the message `mapping mode "bodymap" (4) does not support metrics` and a nil hint map. -/
theorem unsupported_signal_error_witness :
    sampleEnv.WellFormed ∧
    ∃ enc, newEncoder sampleEnv 4 = .ok enc ∧
      enc.encodeMetrics sampleEnv sampleContext [] [] sampleIndex [] =
        some ⟨none, some (.mk "mapping mode \"bodymap\" (4) does not support metrics"),
          [], []⟩ := by
  have hX : sampleEnv.WellFormed := by decide
  obtain ⟨enc, h1, h2⟩ :=
    (unsupported_signal_error sampleEnv hX 4).1 (Or.inr (Or.inr rfl))
  refine ⟨hX, enc, h1, ?_⟩
  rw [h2 sampleContext [] [] sampleIndex []]
  decide

/-! ## Span events -/

/-- C3, at the failing input: on the sample environment the encoder built for the BodyMap mode
returns the error `bodymap mode does not support encoding span events` from `encodeSpanEvent`,
where the claim asks for no error, the comment on `nopSpanEventEncoder` says that it is
embedded in all non-OTel encoders, and the encoders of the modes None, Raw and ECS return no
error. -/
theorem encodeSpanEvent_bodymap_counterexample :
    ∃ enc, newEncoder sampleEnv sampleEnv.MappingBodyMap = .ok enc ∧
      (enc.encodeSpanEvent sampleContext sampleSpan sampleSpanEvent sampleIndex []).1 =
        some (.mk "bodymap mode does not support encoding span events") :=
  ⟨_, newEncoder_bodymap sampleEnv (by decide), rfl⟩

/-- Behaviour of `encodeSpanEvent` by mode: the encoder built by `newEncoder` returns no error
and leaves the buffer unchanged for the modes None, Raw and ECS, and returns no error for the
mode OTel; for the mode BodyMap the code returns the error
`bodymap mode does not support encoding span events` and leaves the buffer unchanged. -/
theorem encodeSpanEvent_spec (X : Env) (hX : X.WellFormed) :
    (∀ mode, mode = X.MappingNone ∨ mode = X.MappingRaw ∨ mode = X.MappingECS →
      ∃ enc, newEncoder X mode = .ok enc ∧
        ∀ ec span spanEvent idx buf,
          enc.encodeSpanEvent ec span spanEvent idx buf = (none, buf)) ∧
    (∀ enc, newEncoder X X.MappingOTel = .ok enc →
        ∀ ec span spanEvent idx buf,
          (enc.encodeSpanEvent ec span spanEvent idx buf).1 = none) ∧
    (∃ enc, newEncoder X X.MappingBodyMap = .ok enc ∧
        ∀ ec span spanEvent idx buf,
          enc.encodeSpanEvent ec span spanEvent idx buf =
            (some (.mk "bodymap mode does not support encoding span events"), buf)) := by
  refine ⟨?_, ?_, ?_⟩
  · rintro mode (h | h | h) <;> subst h
    · exact ⟨_, newEncoder_none X, fun _ _ _ _ _ => rfl⟩
    · exact ⟨_, newEncoder_raw X hX, fun _ _ _ _ _ => rfl⟩
    · exact ⟨_, newEncoder_ecs X hX, fun _ _ _ _ _ => rfl⟩
  · intro enc h ec span spanEvent idx buf
    rw [newEncoder_otel X hX] at h
    cases hs : X.otelserializerNew with
    | error err => rw [hs] at h; cases h
    | ok ser =>
      rw [hs] at h
      cases h
      rfl
  · exact ⟨_, newEncoder_bodymap X hX, fun _ _ _ _ _ => rfl⟩

/-- On the sample environment the ECS encoder (mode 1), a sibling of the BodyMap encoder,
accepts a span event and writes nothing. -/
theorem encodeSpanEvent_spec_witness :
    sampleEnv.WellFormed ∧
    ∃ enc, newEncoder sampleEnv 1 = .ok enc ∧
      enc.encodeSpanEvent sampleContext sampleSpan sampleSpanEvent sampleIndex [7] =
        (none, [7]) := by
  have hX : sampleEnv.WellFormed := by decide
  obtain ⟨enc, h1, h2⟩ := (encodeSpanEvent_spec sampleEnv hX).1 1 (Or.inr (Or.inr rfl))
  exact ⟨hX, enc, h1, h2 _ _ _ _ _⟩

/-! ## BodyMap mode -/

/-- C4: the encoder built for the BodyMap mode is a `bodymapModeEncoder`, and `encodeSpan` and
`encodeSpanEvent` of every `bodymapModeEncoder` return an error on every input and leave the
buffer unchanged. -/
theorem bodymap_rejects_spans (X : Env) (hX : X.WellFormed) :
    (∃ e, newEncoder X X.MappingBodyMap = .ok (.bodymap e)) ∧
    (∀ (e : bodymapModeEncoder) ec span idx buf,
      e.encodeSpan ec span idx buf =
        (some (.mk "bodymap mode does not support encoding spans"), buf)) ∧
    (∀ (e : bodymapModeEncoder) ec span spanEvent idx buf,
      e.encodeSpanEvent ec span spanEvent idx buf =
        (some (.mk "bodymap mode does not support encoding span events"), buf)) :=
  ⟨⟨_, newEncoder_bodymap X hX⟩, fun _ _ _ _ _ => rfl, fun _ _ _ _ _ _ => rfl⟩

/-- Witness of C4 on the sample environment. -/
theorem bodymap_rejects_spans_witness :
    sampleEnv.WellFormed ∧
    (∀ (e : bodymapModeEncoder),
      (e.encodeSpan sampleContext sampleSpan sampleIndex [1, 2]).1.isSome = true ∧
      (e.encodeSpan sampleContext sampleSpan sampleIndex [1, 2]).2 = [1, 2]) := by
  have hX : sampleEnv.WellFormed := by decide
  refine ⟨hX, fun e => ?_⟩
  rw [(bodymap_rejects_spans sampleEnv hX).2.1 e sampleContext sampleSpan sampleIndex [1, 2]]
  exact ⟨rfl, rfl⟩

/-- C5: `bodymapModeEncoder.encodeLog` fails exactly when the type of the log body is not map.
For a body that is not a map it returns an error that wraps `ErrInvalidTypeForBodyMapMode`,
whose message ends with the `%q` rendering of the name of the body type, and the buffer is
unchanged. For a map body it returns no error and appends exactly the serialization of the
map to the buffer. The result depends on the record only through its body, and not on the
encoder value, the encoding context or the index. -/
theorem bodymap_encodeLog_spec (X : Env) (e : bodymapModeEncoder) (ec : encodingContext)
    (record : plog.LogRecord) (idx : elasticsearch.Index) (buf : Buffer) :
    ((e.encodeLog X ec record idx buf).1 ≠ none ↔ record.Body.Type ≠ .ValueTypeMap) ∧
    (record.Body.Type ≠ .ValueTypeMap →
      ∃ err, e.encodeLog X ec record idx buf = (some err, buf) ∧
        err.Unwrap = some ErrInvalidTypeForBodyMapMode ∧
        err.Is ErrInvalidTypeForBodyMapMode = true ∧
        err.Error = ErrInvalidTypeForBodyMapMode.Error ++ ": " ++
          X.fmtQ record.Body.Type.name) ∧
    (∀ m, record.Body = .map m →
      e.encodeLog X ec record idx buf = (none, buf ++ X.mapBytes m)) ∧
    (∀ (e2 : bodymapModeEncoder) (ec2 : encodingContext) (record2 : plog.LogRecord)
        (idx2 : elasticsearch.Index), record2.Body = record.Body →
      e2.encodeLog X ec2 record2 idx2 buf = e.encodeLog X ec record idx buf) := by
  refine ⟨?_, ?_, ?_, ?_⟩
  · by_cases h : record.Body.Type = .ValueTypeMap <;> simp [bodymapModeEncoder.encodeLog, h]
  · intro h
    refine ⟨.wrap (ErrInvalidTypeForBodyMapMode.Error ++ ": " ++
      X.fmtQ record.Body.Type.name) ErrInvalidTypeForBodyMapMode, ?_, rfl, ?_, rfl⟩
    · simp [bodymapModeEncoder.encodeLog, h]
    · simp only [GoError.Is, Bool.or_eq_true, decide_eq_true_eq]
      exact Or.inr (by unfold ErrInvalidTypeForBodyMapMode; simp [GoError.Is])
  · intro m h
    simp [bodymapModeEncoder.encodeLog, h, Value.Type, Value.Map, serializer.Map]
  · intro e2 ec2 record2 idx2 h
    simp [bodymapModeEncoder.encodeLog, h]

/-- Witness of C5 on the sample environment: a string body is rejected with the message
`invalid log record body type for 'bodymap' mapping mode: "Str"`, and a map body with two
entries is accepted and its two bytes are appended to the buffer. -/
theorem bodymap_encodeLog_spec_witness :
    (∃ err, bodymapModeEncoder.encodeLog sampleEnv ⟨⟨4⟩, ⟨4⟩⟩ sampleContext
        (sampleRecord (.str "hello")) sampleIndex [9] = (some err, [9]) ∧
      err.Error = "invalid log record body type for \x27bodymap\x27 mapping mode: \"Str\"") ∧
    bodymapModeEncoder.encodeLog sampleEnv ⟨⟨4⟩, ⟨4⟩⟩ sampleContext
        (sampleRecord (.map [("a", .int 1), ("b", .str "x")])) sampleIndex [9] =
      (none, [9, 0, 0]) := by
  have h1 := bodymap_encodeLog_spec sampleEnv ⟨⟨4⟩, ⟨4⟩⟩ sampleContext
    (sampleRecord (.str "hello")) sampleIndex [9]
  have h2 := bodymap_encodeLog_spec sampleEnv ⟨⟨4⟩, ⟨4⟩⟩ sampleContext
    (sampleRecord (.map [("a", .int 1), ("b", .str "x")])) sampleIndex [9]
  constructor
  · obtain ⟨err, h3, -, -, h4⟩ := h1.2.1 (by decide)
    exact ⟨err, h3, by rw [h4]; decide⟩
  · exact h2.2.2.1 _ rfl

/-! ## ECS attribute conversion -/

theorem encodeAttributesECSModeStep_fields (conversionMap : List (String × String))
    (preserveMap : List (String × Bool)) (document : Document) (kv : String × Value) :
    (encodeAttributesECSModeStep conversionMap preserveMap document kv).fields =
      document.fields ++ ecsRuleFields conversionMap preserveMap kv := by
  unfold encodeAttributesECSModeStep ecsRuleFields
  cases hl : conversionMap.lookup kv.1 with
  | none => simp [Document.AddAttribute]
  | some target =>
    by_cases ht : target = ""
    · simp [ht]
    · cases hp : preserveMap.lookup kv.1 with
      | none => simp [ht, Document.AddAttribute]
      | some b => cases b <;> simp [ht, Document.AddAttribute]

theorem foldl_encodeAttributesECSModeStep_fields (conversionMap : List (String × String))
    (preserveMap : List (String × Bool)) (attrs : pcommon.Map) (document : Document) :
    (attrs.foldl (encodeAttributesECSModeStep conversionMap preserveMap) document).fields =
      document.fields ++ attrs.flatMap (ecsRuleFields conversionMap preserveMap) := by
  induction attrs generalizing document with
  | nil => simp
  | cons kv rest ih =>
    rw [List.foldl_cons, ih, encodeAttributesECSModeStep_fields, List.flatMap_cons,
      List.append_assoc]

theorem ecsRuleFields_nil (preserveMap : List (String × Bool)) (kv : String × Value) :
    ecsRuleFields [] preserveMap kv = [⟨kv.1, .attribute kv.2⟩] := by
  simp [ecsRuleFields]

theorem encodeAttributesECSMode_fields (document : Document) (attrs : pcommon.Map)
    (conversionMap : List (String × String)) (preserveMap : List (String × Bool)) :
    (encodeAttributesECSMode document attrs conversionMap preserveMap).fields =
      document.fields ++ attrs.flatMap (ecsRuleFields conversionMap preserveMap) := by
  unfold encodeAttributesECSMode
  by_cases h : conversionMap.length = 0
  · have hnil : conversionMap = [] := List.length_eq_zero.mp h
    subst hnil
    simp only [List.length_nil, if_true, Document.AddAttributes, Document.flattenKey]
    congr 1
    induction attrs with
    | nil => rfl
    | cons kv rest ih => simp [List.flatMap_cons, ecsRuleFields_nil, ih]
  · rw [if_neg h]
    exact foldl_encodeAttributesECSModeStep_fields conversionMap preserveMap attrs document

/-- C6: for every document, attribute map, conversion table (empty or not) and preserve set,
the fields `encodeAttributesECSMode` adds are the concatenation, in the order of the map, of
the fields the per-attribute rule gives for each attribute: nothing for a key with an empty
target; the value under the target, followed by the value under the original key exactly when
the key is preserved, for a key with a non-empty target; the value under the original key for
a key absent from the table. With an empty table these are all attributes under their
original names. -/
theorem encodeAttributesECSMode_spec (document : Document) (attrs : pcommon.Map)
    (conversionMap : List (String × String)) (preserveMap : List (String × Bool)) :
    (encodeAttributesECSMode document attrs conversionMap preserveMap).fields =
      document.fields ++ attrs.flatMap (ecsRuleFields conversionMap preserveMap) ∧
    (∀ kv : String × Value, conversionMap.lookup kv.1 = some "" →
      ecsRuleFields conversionMap preserveMap kv = []) ∧
    (∀ (kv : String × Value) (target : String), conversionMap.lookup kv.1 = some target →
      target ≠ "" →
      ecsRuleFields conversionMap preserveMap kv =
        if preserveMap.lookup kv.1 = some true then
          [⟨target, .attribute kv.2⟩, ⟨kv.1, .attribute kv.2⟩]
        else [⟨target, .attribute kv.2⟩]) ∧
    (∀ kv : String × Value, conversionMap.lookup kv.1 = none →
      ecsRuleFields conversionMap preserveMap kv = [⟨kv.1, .attribute kv.2⟩]) ∧
    (encodeAttributesECSMode document attrs [] preserveMap).fields =
      document.fields ++ attrs.map (fun kv => ⟨kv.1, .attribute kv.2⟩) := by
  refine ⟨encodeAttributesECSMode_fields document attrs conversionMap preserveMap, ?_, ?_, ?_,
    ?_⟩
  · intro kv h
    simp [ecsRuleFields, h]
  · intro kv target h ht
    simp [ecsRuleFields, h, ht]
  · intro kv h
    simp [ecsRuleFields, h]
  · rw [encodeAttributesECSMode_fields]
    congr 1
    induction attrs with
    | nil => rfl
    | cons kv rest ih => simp [List.flatMap_cons, ecsRuleFields_nil, ih]

/-- Witness of C6: with the table `a -> x, b -> (empty), h -> y` and `h` preserved, the
attributes `a, b, c, h` give the fields `x, c, y, h` in this order. -/
theorem encodeAttributesECSMode_spec_witness :
    (encodeAttributesECSMode Document.empty
      [("a", .int 1), ("b", .int 2), ("c", .int 3), ("h", .int 4)]
      [("a", "x"), ("b", ""), ("h", "y")] [("h", true)]).fields =
    [⟨"x", .attribute (.int 1)⟩, ⟨"c", .attribute (.int 3)⟩, ⟨"y", .attribute (.int 4)⟩,
      ⟨"h", .attribute (.int 4)⟩] := by
  rw [(encodeAttributesECSMode_spec Document.empty _ _ _).1]
  simp [ecsRuleFields, Document.empty, List.lookup]

/-! ## The resource conversion table -/

theorem lookup_some_mem {β : Type} (l : List (String × β)) (k : String) (t : β)
    (h : l.lookup k = some t) : (k, t) ∈ l := by
  induction l with
  | nil => simp at h
  | cons p rest ih =>
    obtain ⟨a, b⟩ := p
    rw [List.lookup_cons] at h
    by_cases hk : k = a
    · subst hk
      simp at h
      subst h
      exact List.mem_cons_self _ _
    · have hb : (k == a) = false := by simpa using hk
      rw [hb] at h
      exact List.mem_cons_of_mem _ (ih h)

theorem resource_targets_not_sources :
    ∀ p ∈ resourceAttrsConversionMap, ∀ q ∈ resourceAttrsConversionMap, q.2 ≠ p.1 := by
  decide

theorem resource_preserve_lookup (k : String)
    (h : resourceAttrsToPreserve.lookup k = some true) : k = semconv.HostNameKey := by
  unfold resourceAttrsToPreserve at h
  rw [List.lookup_cons] at h
  by_cases hk : k = semconv.HostNameKey
  · exact hk
  · have hb : (k == semconv.HostNameKey) = false := by simpa using hk
    rw [hb] at h
    simp at h

theorem mem_ecsRuleFields_key (conversionMap : List (String × String))
    (preserveMap : List (String × Bool)) (kv : String × Value) (f : Field)
    (hf : f ∈ ecsRuleFields conversionMap preserveMap kv) :
    (∃ t, conversionMap.lookup kv.1 = some t ∧ t ≠ "" ∧ f.key = t) ∨
    (f.key = kv.1 ∧ conversionMap.lookup kv.1 = none) ∨
    (f.key = kv.1 ∧ preserveMap.lookup kv.1 = some true ∧
      ∃ t, conversionMap.lookup kv.1 = some t) := by
  unfold ecsRuleFields at hf
  cases hl : conversionMap.lookup kv.1 with
  | none =>
    simp only [hl, List.mem_singleton] at hf
    subst hf
    exact Or.inr (Or.inl ⟨rfl, rfl⟩)
  | some target =>
    simp only [hl] at hf
    by_cases ht : target = ""
    · simp [ht] at hf
    · by_cases hp : preserveMap.lookup kv.1 = some true
      · simp only [ht, hp, if_false, if_true, List.mem_cons, List.mem_singleton,
          List.not_mem_nil, or_false] at hf
        rcases hf with hf | hf
        · subst hf
          exact Or.inl ⟨target, rfl, ht, rfl⟩
        · subst hf
          exact Or.inr (Or.inr ⟨rfl, hp, target, rfl⟩)
      · simp only [ht, hp, if_false, List.mem_singleton] at hf
        subst hf
        exact Or.inl ⟨target, rfl, ht, rfl⟩

theorem resourceFields_eq (attrs : pcommon.Map) :
    resourceFields attrs =
      attrs.flatMap (ecsRuleFields resourceAttrsConversionMap resourceAttrsToPreserve) := by
  unfold resourceFields
  rw [encodeAttributesECSMode_fields]
  rfl

theorem resourceFields_key_ne (attrs : pcommon.Map) (k t : String)
    (hk : resourceAttrsConversionMap.lookup k = some t) (hh : k ≠ semconv.HostNameKey)
    (f : Field) (hf : f ∈ resourceFields attrs) : f.key ≠ k := by
  rw [resourceFields_eq, List.mem_flatMap] at hf
  obtain ⟨kv, -, hkv⟩ := hf
  intro hfk
  rcases mem_ecsRuleFields_key _ _ kv f hkv with ⟨t2, h1, -, h3⟩ | ⟨h1, h2⟩ | ⟨h1, h2, -⟩
  · have m1 := lookup_some_mem _ _ _ h1
    have m2 := lookup_some_mem _ _ _ hk
    exact resource_targets_not_sources _ m2 _ m1 (by simpa [← h3] using hfk)
  · rw [← h1, hfk, hk] at h2
    cases h2
  · exact hh (by rw [← hfk, h1]; exact resource_preserve_lookup _ h2)

theorem flatMap_filter_of_nil {α β : Type} (g : α → List β) (p : α → Bool) (l : List α)
    (h : ∀ a, p a = false → g a = []) : (l.filter p).flatMap g = l.flatMap g := by
  induction l with
  | nil => rfl
  | cons a rest ih =>
    cases hp : p a
    · rw [List.filter_cons_of_neg (by simp [hp]), List.flatMap_cons, h a hp, ih]
      rfl
    · rw [List.filter_cons_of_pos hp, List.flatMap_cons, List.flatMap_cons, ih]

theorem resourceFields_target_mem (attrs : pcommon.Map) (k : String) (v : Value) (t : String)
    (hm : (k, v) ∈ attrs) (hk : resourceAttrsConversionMap.lookup k = some t) (ht : t ≠ "") :
    (⟨t, .attribute v⟩ : Field) ∈ resourceFields attrs := by
  rw [resourceFields_eq, List.mem_flatMap]
  refine ⟨(k, v), hm, ?_⟩
  unfold ecsRuleFields
  simp only [hk, ht, if_false]
  split <;> simp

/-- C7: for the resource conversion table and preserve set of `model.go` and every resource
attribute map: an attribute whose key has a non-empty target in the table yields a field
under the target with its value; an attribute `host.name` yields a field under
`host.hostname` and a field under `host.name`; and each of the five keys with an empty
target is in the table with the empty target, no produced field has that key, and the
produced fields are the ones produced from the map without the attributes of that key. -/
theorem resource_conversion_spec (attrs : pcommon.Map) :
    (∀ k v t, (k, v) ∈ attrs → resourceAttrsConversionMap.lookup k = some t → t ≠ "" →
      (⟨t, .attribute v⟩ : Field) ∈ resourceFields attrs) ∧
    (∀ v, ("host.name", v) ∈ attrs →
      (⟨"host.hostname", .attribute v⟩ : Field) ∈ resourceFields attrs ∧
      (⟨"host.name", .attribute v⟩ : Field) ∈ resourceFields attrs) ∧
    (∀ k, resourceAttrsConversionMap.lookup k = some "" ↔ k ∈ droppedResourceKeys) ∧
    (∀ k, k ∈ droppedResourceKeys →
      (∀ f ∈ resourceFields attrs, f.key ≠ k) ∧
      resourceFields attrs = resourceFields (attrs.filter (fun kv => decide (kv.1 ≠ k)))) := by
  refine ⟨?_, ?_, ?_, ?_⟩
  · exact fun k v t hm hk ht => resourceFields_target_mem attrs k v t hm hk ht
  · intro v hm
    rw [resourceFields_eq]
    constructor <;>
    · rw [List.mem_flatMap]
      refine ⟨("host.name", v), hm, ?_⟩
      have h1 : resourceAttrsConversionMap.lookup "host.name" = some "host.hostname" := by
        decide
      have h2 : resourceAttrsToPreserve.lookup "host.name" = some true := by decide
      simp [ecsRuleFields, h1, h2]
  · intro k
    constructor
    · intro h
      have hm := lookup_some_mem _ _ _ h
      simp only [resourceAttrsConversionMap, List.mem_cons, Prod.mk.injEq, List.mem_singleton,
        List.not_mem_nil, or_false] at hm
      simp only [droppedResourceKeys, List.mem_cons, List.mem_singleton, List.not_mem_nil,
        or_false]
      simp [semconv.TelemetrySDKNameKey, semconv.TelemetrySDKLanguageKey,
        semconv.TelemetrySDKVersionKey, semconv.TelemetryDistroNameKey,
        semconv.TelemetryDistroVersionKey] at hm
      tauto
    · intro h
      simp only [droppedResourceKeys, List.mem_cons, List.mem_singleton, List.not_mem_nil,
        or_false] at h
      rcases h with h | h | h | h | h <;> subst h <;> decide
  · intro k hk
    have hl : resourceAttrsConversionMap.lookup k = some "" := by
      simp only [droppedResourceKeys, List.mem_cons, List.mem_singleton, List.not_mem_nil,
        or_false] at hk
      rcases hk with h | h | h | h | h <;> subst h <;> decide
    have hh : k ≠ semconv.HostNameKey := by
      intro h
      rw [h] at hl
      revert hl
      decide
    refine ⟨fun f hf => resourceFields_key_ne attrs k "" hl hh f hf, ?_⟩
    rw [resourceFields_eq, resourceFields_eq]
    symm
    apply flatMap_filter_of_nil
    intro kv hkv
    have hkk : kv.1 = k := by simpa using hkv
    simp [ecsRuleFields, hkk, hl]

/-- Witness of C7 on the sample resource attributes: the produced fields are `host.hostname`,
`host.name` and `host.os.platform`, and none has the key `telemetry.sdk.name`. -/
theorem resource_conversion_spec_witness :
    resourceFields sampleResourceAttrs =
      [⟨"host.hostname", .attribute (.str "h1")⟩, ⟨"host.name", .attribute (.str "h1")⟩,
        ⟨"host.os.platform", .attribute (.str "linux")⟩] ∧
    (⟨"host.os.platform", .attribute (.str "linux")⟩ : Field) ∈
      resourceFields sampleResourceAttrs ∧
    (⟨"host.hostname", .attribute (.str "h1")⟩ : Field) ∈ resourceFields sampleResourceAttrs ∧
    (⟨"host.name", .attribute (.str "h1")⟩ : Field) ∈ resourceFields sampleResourceAttrs ∧
    (∀ f ∈ resourceFields sampleResourceAttrs, f.key ≠ "telemetry.sdk.name") := by
  have h := resource_conversion_spec sampleResourceAttrs
  refine ⟨rfl, ?_, ?_, ?_, ?_⟩
  · exact h.1 "os.type" (.str "linux") "host.os.platform" (by simp [sampleResourceAttrs])
      (by decide) (by decide)
  · exact (h.2.1 (.str "h1") (by simp [sampleResourceAttrs])).1
  · exact (h.2.1 (.str "h1") (by simp [sampleResourceAttrs])).2
  · exact (h.2.2.2 "telemetry.sdk.name" (by decide)).1

/-- C8: for the resource conversion table of `model.go` and every resource attribute map, if
the key `k` has a non-empty target `t` in the table and `k` is not `host.name`, then the
attribute is replaced, not duplicated: no produced field has the key `k`, while every value
stored under `k` is produced under `t`. No entry of the table has `k` as its target. -/
theorem resource_rename_replaces (attrs : pcommon.Map) (k t : String)
    (hk : resourceAttrsConversionMap.lookup k = some t) (ht : t ≠ "")
    (hh : k ≠ "host.name") :
    (∀ f ∈ resourceFields attrs, f.key ≠ k) ∧
    (∀ v, (k, v) ∈ attrs → (⟨t, .attribute v⟩ : Field) ∈ resourceFields attrs) ∧
    (∀ p ∈ resourceAttrsConversionMap, p.2 ≠ k) := by
  refine ⟨fun f hf => resourceFields_key_ne attrs k t hk hh f hf, ?_, ?_⟩
  · exact fun v hm => resourceFields_target_mem attrs k v t hm hk ht
  · intro p hp
    exact resource_targets_not_sources _ (lookup_some_mem _ _ _ hk) p hp

/-- Witness of C8 on the sample resource attributes and the key `os.type`, renamed to
`host.os.platform`. -/
theorem resource_rename_replaces_witness :
    resourceAttrsConversionMap.lookup "os.type" = some "host.os.platform" ∧
    (∀ f ∈ resourceFields sampleResourceAttrs, f.key ≠ "os.type") :=
  ⟨by decide, (resource_rename_replaces sampleResourceAttrs "os.type" "host.os.platform"
    (by decide) (by decide) (by decide)).1⟩

/-! ## ECS special cases -/

theorem hostOsTypeRule_values (osType osName : Option String) (t : String)
    (h : hostOsTypeRule osType osName = some t) : t ∈ hostOsTypeValues := by
  unfold hostOsTypeRule at h
  unfold hostOsTypeValues
  split_ifs at h <;> simp at h <;> subst h <;> simp

theorem encodeHostOsTypeECSMode_eq (document : Document) (resource : Resource) :
    encodeHostOsTypeECSMode document resource =
      match hostOsTypeRule ((Map.Get resource.Attributes "os.type").map Value.Str)
        ((Map.Get resource.Attributes "os.name").map Value.Str) with
      | some t => document.AddString "host.os.type" t
      | none => document := by
  unfold encodeHostOsTypeECSMode hostOsTypeRule
  simp only [semconv.OSTypeKey, semconv.OSNameKey]
  cases Map.Get resource.Attributes "os.type" with
  | none =>
    cases Map.Get resource.Attributes "os.name" with
    | none => simp
    | some n =>
      generalize n.Str = sn
      simp only [Option.map_some', Option.map_none', Option.some.injEq]
      split_ifs <;> simp_all +decide
  | some v =>
    generalize v.Str = sv
    cases Map.Get resource.Attributes "os.name" with
    | none =>
      simp only [Option.map_some', Option.map_none', Option.some.injEq]
      split_ifs <;> simp_all +decide
    | some n =>
      generalize n.Str = sn
      simp only [Option.map_some', Option.map_none', Option.some.injEq]
      split_ifs <;> simp_all +decide

/-- C9: `encodeHostOsTypeECSMode` is the rule of the specification applied to the optional
`os.type` and `os.name` resource attributes (read as strings): `os.name` `Android` gives
`android` and `iOS` gives `ios` whatever `os.type` is; otherwise `os.type` `windows` and
`linux` give themselves, `darwin` gives `macos`, `aix`, `hpux` and `solaris` give `unix`;
every other combination adds no field. When the rule gives a value, exactly one
`host.os.type` field with that value is added, and the value is one of `linux`, `windows`,
`macos`, `unix`, `android`, `ios`. -/
theorem encodeHostOsTypeECSMode_spec (document : Document) (resource : Resource) :
    (∀ t, hostOsTypeRule ((Map.Get resource.Attributes "os.type").map Value.Str)
        ((Map.Get resource.Attributes "os.name").map Value.Str) = some t →
      (encodeHostOsTypeECSMode document resource).fields =
        document.fields ++ [⟨"host.os.type", .string t⟩] ∧ t ∈ hostOsTypeValues) ∧
    (hostOsTypeRule ((Map.Get resource.Attributes "os.type").map Value.Str)
        ((Map.Get resource.Attributes "os.name").map Value.Str) = none →
      encodeHostOsTypeECSMode document resource = document) ∧
    (∀ osType, hostOsTypeRule osType (some "Android") = some "android" ∧
      hostOsTypeRule osType (some "iOS") = some "ios") ∧
    (∀ osName, osName ≠ some "Android" → osName ≠ some "iOS" →
      hostOsTypeRule (some "windows") osName = some "windows" ∧
      hostOsTypeRule (some "linux") osName = some "linux" ∧
      hostOsTypeRule (some "darwin") osName = some "macos" ∧
      hostOsTypeRule (some "aix") osName = some "unix" ∧
      hostOsTypeRule (some "hpux") osName = some "unix" ∧
      hostOsTypeRule (some "solaris") osName = some "unix" ∧
      hostOsTypeRule none osName = none ∧
      ∀ s, s ∉ ["windows", "linux", "darwin", "aix", "hpux", "solaris"] →
        hostOsTypeRule (some s) osName = none) := by
  refine ⟨?_, ?_, ?_, ?_⟩
  · intro t h
    rw [encodeHostOsTypeECSMode_eq, h]
    exact ⟨rfl, hostOsTypeRule_values _ _ t h⟩
  · intro h
    rw [encodeHostOsTypeECSMode_eq, h]
  · intro osType
    constructor <;> simp +decide [hostOsTypeRule]
  · intro osName h1 h2
    refine ⟨?_, ?_, ?_, ?_, ?_, ?_, ?_, ?_⟩
    · simp +decide [hostOsTypeRule, h1, h2]
    · simp +decide [hostOsTypeRule, h1, h2]
    · simp +decide [hostOsTypeRule, h1, h2]
    · simp +decide [hostOsTypeRule, h1, h2]
    · simp +decide [hostOsTypeRule, h1, h2]
    · simp +decide [hostOsTypeRule, h1, h2]
    · simp +decide [hostOsTypeRule, h1, h2]
    · intro s hs
      simp only [List.mem_cons, List.mem_singleton, List.not_mem_nil, or_false, not_or] at hs
      simp +decide [hostOsTypeRule, h1, h2, hs]

/-- Witness of C9 on the sample Android resource: although `os.type` is `linux`, exactly one
`host.os.type` field with the value `android` is added. -/
theorem encodeHostOsTypeECSMode_spec_witness :
    (encodeHostOsTypeECSMode Document.empty sampleAndroidResource).fields =
      [⟨"host.os.type", .string "android"⟩] :=
  ((encodeHostOsTypeECSMode_spec Document.empty sampleAndroidResource).1 "android"
    (by decide)).1

/-- C10: `encodeLogAgentNameECSMode` adds exactly one `agent.name` field. With `sdk` the
`telemetry.sdk.name` attribute or `otlp` when absent: when a non-empty `telemetry.distro.name`
attribute is present the value is `sdk/language/distro`, where the language is the
`telemetry.sdk.language` attribute, or `unknown` when that attribute is absent or empty; when
no `telemetry.distro.name` attribute is present the value is `sdk/language` for a language
attribute that is present and not empty, and `sdk` alone otherwise. -/
theorem encodeLogAgentNameECSMode_spec (document : Document) (resource : Resource) :
    (∃ name, (encodeLogAgentNameECSMode document resource).fields =
      document.fields ++ [⟨"agent.name", .string name⟩]) ∧
    (∀ d, Map.Get resource.Attributes "telemetry.distro.name" = some d → d.Str ≠ "" →
      (encodeLogAgentNameECSMode document resource).fields =
        document.fields ++ [⟨"agent.name", .string (agentSdkName resource ++ "/" ++
          (agentLanguage resource).getD "unknown" ++ "/" ++ d.Str)⟩]) ∧
    (Map.Get resource.Attributes "telemetry.distro.name" = none →
      (encodeLogAgentNameECSMode document resource).fields =
        document.fields ++ [⟨"agent.name", .string
          (match agentLanguage resource with
            | some language => agentSdkName resource ++ "/" ++ language
            | none => agentSdkName resource)⟩]) := by
  refine ⟨⟨_, rfl⟩, ?_, ?_⟩
  · intro d hd hne
    unfold encodeLogAgentNameECSMode agentSdkName agentLanguage
    simp only [semconv.TelemetrySDKNameKey, semconv.TelemetrySDKLanguageKey,
      semconv.TelemetryDistroNameKey, hd, Document.AddString]
    cases Map.Get resource.Attributes "telemetry.sdk.language" with
    | none => simp [hne]
    | some l => by_cases hl : l.Str = "" <;> simp [hne, hl]
  · intro hd
    unfold encodeLogAgentNameECSMode agentSdkName agentLanguage
    simp only [semconv.TelemetrySDKNameKey, semconv.TelemetrySDKLanguageKey,
      semconv.TelemetryDistroNameKey, hd, Document.AddString]
    cases Map.Get resource.Attributes "telemetry.sdk.language" with
    | none => simp
    | some l => by_cases hl : l.Str = "" <;> simp [hl]

/-- Witness of C10: a resource with no attributes gives `otlp`; SDK name `otlp`, language `go`
and distro `contrib` give `otlp/go/contrib`. -/
theorem encodeLogAgentNameECSMode_spec_witness :
    (encodeLogAgentNameECSMode Document.empty ⟨[]⟩).fields =
      [⟨"agent.name", .string "otlp"⟩] ∧
    (encodeLogAgentNameECSMode Document.empty sampleContribResource).fields =
      [⟨"agent.name", .string "otlp/go/contrib"⟩] :=
  ⟨(encodeLogAgentNameECSMode_spec Document.empty ⟨[]⟩).2.2 rfl,
    (encodeLogAgentNameECSMode_spec Document.empty sampleContribResource).2.1
      (.str "contrib") rfl (by decide)⟩

/-- C11: `encodeLogAgentVersionECSMode` adds `agent.version` with the value of the
`telemetry.distro.version` attribute whenever that attribute exists, whatever
`telemetry.sdk.version` is; with the value of `telemetry.sdk.version` when only that one
exists; and adds nothing when neither exists. It adds at most one field, and a field it adds
has the key `agent.version`. -/
theorem encodeLogAgentVersionECSMode_spec (document : Document) (resource : Resource) :
    (∀ d, Map.Get resource.Attributes "telemetry.distro.version" = some d →
      (encodeLogAgentVersionECSMode document resource).fields =
        document.fields ++ [⟨"agent.version", .string d.Str⟩]) ∧
    (∀ v, Map.Get resource.Attributes "telemetry.distro.version" = none →
      Map.Get resource.Attributes "telemetry.sdk.version" = some v →
      (encodeLogAgentVersionECSMode document resource).fields =
        document.fields ++ [⟨"agent.version", .string v.Str⟩]) ∧
    (Map.Get resource.Attributes "telemetry.distro.version" = none →
      Map.Get resource.Attributes "telemetry.sdk.version" = none →
      encodeLogAgentVersionECSMode document resource = document) ∧
    (encodeLogAgentVersionECSMode document resource).fields =
      document.fields ++
        match agentVersionRule
          ((Map.Get resource.Attributes "telemetry.distro.version").map Value.Str)
          ((Map.Get resource.Attributes "telemetry.sdk.version").map Value.Str) with
        | some v => [⟨"agent.version", .string v⟩]
        | none => [] := by
  refine ⟨?_, ?_, ?_, ?_⟩
  · intro d hd
    simp [encodeLogAgentVersionECSMode, semconv.TelemetryDistroVersionKey, hd,
      Document.AddString]
  · intro v hd hv
    simp [encodeLogAgentVersionECSMode, semconv.TelemetryDistroVersionKey,
      semconv.TelemetrySDKVersionKey, hd, hv, Document.AddString]
  · intro hd hv
    simp [encodeLogAgentVersionECSMode, semconv.TelemetryDistroVersionKey,
      semconv.TelemetrySDKVersionKey, hd, hv]
  · unfold encodeLogAgentVersionECSMode agentVersionRule
    simp only [semconv.TelemetryDistroVersionKey, semconv.TelemetrySDKVersionKey]
    cases Map.Get resource.Attributes "telemetry.distro.version" with
    | some d => simp [Document.AddString]
    | none =>
      cases Map.Get resource.Attributes "telemetry.sdk.version" with
      | some v => simp [Document.AddString]
      | none => simp

/-- Witness of C11: with distro version `1.2` and SDK version `0.9` the field carries `1.2`;
with the SDK version alone it carries `0.9`. -/
theorem encodeLogAgentVersionECSMode_spec_witness :
    (encodeLogAgentVersionECSMode Document.empty
      ⟨[("telemetry.sdk.version", .str "0.9"), ("telemetry.distro.version", .str "1.2")]⟩).fields
      = [⟨"agent.version", .string "1.2"⟩] ∧
    (encodeLogAgentVersionECSMode Document.empty
      ⟨[("telemetry.sdk.version", .str "0.9")]⟩).fields = [⟨"agent.version", .string "0.9"⟩] :=
  ⟨(encodeLogAgentVersionECSMode_spec Document.empty
      ⟨[("telemetry.sdk.version", .str "0.9"), ("telemetry.distro.version", .str "1.2")]⟩).1
      (.str "1.2") rfl,
    (encodeLogAgentVersionECSMode_spec Document.empty
      ⟨[("telemetry.sdk.version", .str "0.9")]⟩).2.1 (.str "0.9") rfl rfl⟩

/-! ## Legacy documents -/

theorem wrapInt64_of_range (i : Int) (h1 : -2 ^ 63 ≤ i) (h2 : i < 2 ^ 63) :
    wrapInt64 i = i := by
  unfold wrapInt64
  omega

theorem addDataStreamAttributes_fields (document : Document) (key : String)
    (idx : elasticsearch.Index) :
    (addDataStreamAttributes document key idx).fields =
      document.fields ++ dataStreamFields key idx := by
  unfold addDataStreamAttributes dataStreamFields
  cases idx.IsDataStream <;> simp [Document.AddString]

theorem encodeAttributes_fields (pfx : String) (document : Document) (attributes : pcommon.Map)
    (idx : elasticsearch.Index) :
    (encodeAttributes pfx document attributes idx).fields =
      document.fields ++
        (attributes.map (fun kv => ⟨Document.flattenKey pfx kv.1, .attribute kv.2⟩) ++
          dataStreamFields pfx idx) := by
  unfold encodeAttributes
  simp [addDataStreamAttributes_fields, Document.AddAttributes]

theorem nonOTelSpan_fields (X : Env) (e : nonOTelSpanEncoder) (ec : encodingContext)
    (span : ptrace.Span) (idx : elasticsearch.Index) :
    (e.encodeSpanDocument X ec span idx).fields =
      [⟨"@timestamp", .timestamp span.StartTimestamp⟩,
        ⟨"EndTimestamp", .timestamp span.EndTimestamp⟩,
        ⟨"TraceId", .traceID span.TraceID⟩,
        ⟨"SpanId", .spanID span.SpanID⟩,
        ⟨"ParentSpanId", .spanID span.ParentSpanID⟩,
        ⟨"Name", .string span.Name⟩,
        ⟨"Kind", .string (X.spanKindStr span.Kind)⟩,
        ⟨"TraceStatus", .int span.Status.Code⟩,
        ⟨"TraceStatusDescription", .string span.Status.Message⟩,
        ⟨"Link", .string (spanLinksToString X span.Links)⟩] ++
      (ec.resource.Attributes.map
          (fun kv => ⟨Document.flattenKey "Resource" kv.1, .attribute kv.2⟩) ++
        ([⟨"Duration", .int (durationAsMicroseconds span.StartTimestamp.AsTime
            span.EndTimestamp.AsTime)⟩] ++
          ((scopeToAttributes ec.scope).map
              (fun kv => ⟨Document.flattenKey "Scope" kv.1, .attribute kv.2⟩) ++
            (span.Attributes.map
                (fun kv => ⟨Document.flattenKey e.attributesPrefix kv.1, .attribute kv.2⟩) ++
              (dataStreamFields e.attributesPrefix idx ++
                [⟨e.eventsPrefix, .events span.Events⟩]))))) := by
  unfold nonOTelSpanEncoder.encodeSpanDocument
  simp [encodeAttributes_fields, Document.AddAttributes, Document.AddTimestamp,
    Document.AddTraceID, Document.AddSpanID, Document.AddString, Document.AddInt,
    Document.AddEvents, Document.empty]

theorem legacyLog_fields (e : legacyModeEncoder) (ec : encodingContext)
    (record : plog.LogRecord) (idx : elasticsearch.Index) :
    (e.encodeLogDocument ec record idx).fields =
      [⟨"@timestamp", .timestamp
          (if record.Timestamp.AsTime.UnixNano = 0 then record.ObservedTimestamp
            else record.Timestamp)⟩,
        ⟨"TraceId", .traceID record.TraceID⟩,
        ⟨"SpanId", .spanID record.SpanID⟩,
        ⟨"TraceFlags", .int (record.Flags : Int)⟩,
        ⟨"SeverityText", .string record.SeverityText⟩,
        ⟨"SeverityNumber", .int record.SeverityNumber⟩,
        ⟨"Body", .attribute record.Body⟩] ++
      (ec.resource.Attributes.map
          (fun kv => ⟨Document.flattenKey "Resource" kv.1, .attribute kv.2⟩) ++
        ((scopeToAttributes ec.scope).map
            (fun kv => ⟨Document.flattenKey "Scope" kv.1, .attribute kv.2⟩) ++
          (record.Attributes.map
              (fun kv => ⟨Document.flattenKey e.attributesPrefix kv.1, .attribute kv.2⟩) ++
            dataStreamFields e.attributesPrefix idx))) := by
  unfold legacyModeEncoder.encodeLogDocument
  simp [encodeAttributes_fields, Document.AddAttributes, Document.AddTimestamp,
    Document.AddTraceID, Document.AddSpanID, Document.AddString, Document.AddInt,
    Document.AddAttribute, Document.empty]

/-- C12: `durationAsMicroseconds` is the difference of the two nanosecond counts divided by
1000 with truncation toward zero whenever the difference fits in a signed 64 bit integer;
for a start not after the end the result `d` satisfies
`d * 1000 <= end_ns - start_ns < (d + 1) * 1000`; and the span encoder of the None and Raw
modes inserts this value for the times of the start and end timestamps under `Duration`. -/
theorem durationAsMicroseconds_spec (start end_ : time.Time)
    (hlo : -2 ^ 63 ≤ end_.UnixNano - start.UnixNano)
    (hhi : end_.UnixNano - start.UnixNano < 2 ^ 63) :
    durationAsMicroseconds start end_ = Int.tdiv (end_.UnixNano - start.UnixNano) 1000 ∧
    (start.UnixNano ≤ end_.UnixNano →
      durationAsMicroseconds start end_ * 1000 ≤ end_.UnixNano - start.UnixNano ∧
      end_.UnixNano - start.UnixNano < (durationAsMicroseconds start end_ + 1) * 1000) ∧
    (∀ (X : Env) (e : nonOTelSpanEncoder) (ec : encodingContext) (span : ptrace.Span)
        (idx : elasticsearch.Index),
      (⟨"Duration", .int (durationAsMicroseconds span.StartTimestamp.AsTime
          span.EndTimestamp.AsTime)⟩ : Field) ∈ (e.encodeSpanDocument X ec span idx).fields) := by
  have hw : durationAsMicroseconds start end_ =
      Int.tdiv (end_.UnixNano - start.UnixNano) 1000 := by
    unfold durationAsMicroseconds
    rw [wrapInt64_of_range _ hlo hhi]
  refine ⟨hw, ?_, ?_⟩
  · intro hle
    rw [hw, Int.tdiv_eq_ediv (by omega) (by norm_num)]
    omega
  · intro X e ec span idx
    rw [nonOTelSpan_fields]
    simp

/-- Witness of C12: start 1 000 000 000 ns and end 1 005 500 000 ns give 5500 microseconds,
and a difference of 5999 ns gives 5, not 6. -/
theorem durationAsMicroseconds_spec_witness :
    durationAsMicroseconds (Timestamp.AsTime 1000000000) (Timestamp.AsTime 1005500000) = 5500 ∧
    durationAsMicroseconds ⟨0⟩ ⟨5999⟩ = 5 ∧
    durationAsMicroseconds ⟨0⟩ ⟨5999⟩ * 1000 ≤ 5999 := by
  have h := durationAsMicroseconds_spec ⟨0⟩ ⟨5999⟩ (by decide) (by decide)
  refine ⟨by decide, by decide, ?_⟩
  have h2 := (h.2.1 (by decide)).1
  simpa [time.Time.UnixNano] using h2

/-! ## Metrics aggregation -/

theorem foldl_metrics_state (dataPoints : List datapoints.DataPoint) (document : Document)
    (validationErrors : List GoError) :
    dataPoints.foldl
      (fun (st : Document × List GoError) dp =>
        match dp.Value with
        | .error err => (st.1, st.2 ++ [err])
        | .ok value => (st.1.AddAttribute dp.Metric.Name value, st.2))
      (document, validationErrors) =
    (⟨document.fields ++ metricFields dataPoints⟩,
      validationErrors ++ failedValues dataPoints) := by
  induction dataPoints generalizing document validationErrors with
  | nil => simp [metricFields, failedValues]
  | cons dp rest ih =>
    rw [List.foldl_cons]
    cases hv : dp.Value with
    | error err =>
      simp only [ih]
      simp [metricFields, failedValues, hv]
    | ok value =>
      simp only [ih]
      simp [metricFields, failedValues, hv, Document.AddAttribute]

theorem encodeMetricsState_eq (ec : encodingContext) (dp0 : datapoints.DataPoint)
    (dataPoints : List datapoints.DataPoint) (validationErrors : List GoError)
    (idx : elasticsearch.Index) :
    ecsDataPointsEncoder.encodeMetricsState ec dp0 dataPoints validationErrors idx =
      (⟨resourceFields ec.resource.Attributes ++
          ([⟨"@timestamp", .timestamp dp0.Timestamp⟩] ++
            (dp0.Attributes.map (fun kv => ⟨kv.1, .attribute kv.2⟩) ++
              (dataStreamFields "" idx ++ metricFields dataPoints)))⟩,
        validationErrors ++ failedValues dataPoints) := by
  unfold ecsDataPointsEncoder.encodeMetricsState
  rw [foldl_metrics_state]
  simp [addDataStreamAttributes_fields, Document.AddAttributes, Document.AddTimestamp,
    resourceFields, Document.flattenKey]

/-- C13: for a non-empty list of data points, `ecsDataPointsEncoder.encodeMetrics` returns;
the validation errors after the call are those before the call followed by the
value-extraction errors of the failing points in input order; the document it serializes
consists of the resource fields, the timestamp and attributes of the first point and the
data-stream fields, followed by one metric name/value entry for each point whose value
extraction succeeds, in input order; and the returned error is the error of `Serialize`. -/
theorem encodeMetrics_partial_failure (X : Env) (e : ecsDataPointsEncoder)
    (ec : encodingContext) (dp0 : datapoints.DataPoint) (rest : List datapoints.DataPoint)
    (validationErrors : List GoError) (idx : elasticsearch.Index) (buf : Buffer) :
    ∃ document : Document,
      document.fields =
        resourceFields ec.resource.Attributes ++
          ([⟨"@timestamp", .timestamp dp0.Timestamp⟩] ++
            (dp0.Attributes.map (fun kv => ⟨kv.1, .attribute kv.2⟩) ++
              (dataStreamFields "" idx ++ metricFields (dp0 :: rest)))) ∧
      (document, validationErrors ++ failedValues (dp0 :: rest)) =
        ecsDataPointsEncoder.encodeMetricsState ec dp0 (dp0 :: rest) validationErrors idx ∧
      e.encodeMetrics X ec (dp0 :: rest) validationErrors idx buf =
        some ⟨document.DynamicTemplates X, (document.Serialize X buf true).1,
          validationErrors ++ failedValues (dp0 :: rest),
          (document.Serialize X buf true).2⟩ := by
  refine ⟨_, rfl, (encodeMetricsState_eq ec dp0 (dp0 :: rest) validationErrors idx).symm, ?_⟩
  have h := encodeMetricsState_eq ec dp0 (dp0 :: rest) validationErrors idx
  unfold ecsDataPointsEncoder.encodeMetricsState at h
  unfold ecsDataPointsEncoder.encodeMetrics
  simp only [h]

/-- Witness of C13 on the three sample data points: the metric entries are those of the first
and third point, and exactly one validation error is appended to the accumulator. -/
theorem encodeMetrics_partial_failure_witness :
    metricFields sampleDataPoints =
      [⟨"cpu", .attribute (.int 1)⟩, ⟨"disk", .attribute (.int 3)⟩] ∧
    failedValues sampleDataPoints = [.mk "invalid number"] ∧
    ∃ r, ecsDataPointsEncoder.encodeMetrics sampleEnv ⟨⟩ sampleContext sampleDataPoints
        [.mk "earlier"] sampleIndex [] = some r ∧
      r.validationErrors = [.mk "earlier", .mk "invalid number"] ∧ r.err = none := by
  refine ⟨rfl, rfl, ?_⟩
  obtain ⟨document, -, -, h⟩ := encodeMetrics_partial_failure sampleEnv ⟨⟩ sampleContext
    ⟨5, [("host", .str "a")], ⟨"cpu"⟩, .ok (.int 1)⟩
    [⟨5, [("host", .str "a")], ⟨"mem"⟩, .error (.mk "invalid number")⟩,
      ⟨5, [("host", .str "a")], ⟨"disk"⟩, .ok (.int 3)⟩] [.mk "earlier"] sampleIndex []
  exact ⟨_, h, rfl, rfl⟩

/-! ## ECS documents -/

theorem flatMap_ecsRuleFields_nil (attrs : pcommon.Map) (preserveMap : List (String × Bool)) :
    attrs.flatMap (ecsRuleFields [] preserveMap) =
      attrs.map (fun kv => ⟨kv.1, .attribute kv.2⟩) := by
  induction attrs with
  | nil => rfl
  | cons kv rest ih => simp [List.flatMap_cons, ecsRuleFields_nil, ih]

theorem encodeAttributesECSMode_nil_fields (document : Document) (attrs : pcommon.Map)
    (preserveMap : List (String × Bool)) :
    (encodeAttributesECSMode document attrs [] preserveMap).fields =
      document.fields ++ attrs.map (fun kv => ⟨kv.1, .attribute kv.2⟩) := by
  rw [encodeAttributesECSMode_fields, flatMap_ecsRuleFields_nil]

theorem encodeLogAgentNameECSMode_fields (document : Document) (resource : Resource) :
    (encodeLogAgentNameECSMode document resource).fields =
      document.fields ++ agentNameFields resource := by
  simp [agentNameFields, encodeLogAgentNameECSMode, Document.AddString, Document.empty]

theorem encodeLogAgentVersionECSMode_fields (document : Document) (resource : Resource) :
    (encodeLogAgentVersionECSMode document resource).fields =
      document.fields ++ agentVersionFields resource := by
  unfold agentVersionFields encodeLogAgentVersionECSMode
  cases hd : Map.Get resource.Attributes semconv.TelemetryDistroVersionKey with
  | some d => simp [hd, Document.AddString, Document.empty]
  | none =>
    cases hv : Map.Get resource.Attributes semconv.TelemetrySDKVersionKey with
    | some v => simp [hd, hv, Document.AddString, Document.empty]
    | none => simp [hd, hv, Document.empty]

theorem encodeHostOsTypeECSMode_fields (document : Document) (resource : Resource) :
    (encodeHostOsTypeECSMode document resource).fields =
      document.fields ++ hostOsTypeFields resource := by
  unfold hostOsTypeFields
  rw [encodeHostOsTypeECSMode_eq, encodeHostOsTypeECSMode_eq]
  cases hostOsTypeRule ((Map.Get resource.Attributes "os.type").map Value.Str)
    ((Map.Get resource.Attributes "os.name").map Value.Str) with
  | some t => simp [Document.AddString, Document.empty]
  | none => simp [Document.empty]

theorem encodeLogTimestampECSMode_eq (document : Document) (record : plog.LogRecord) :
    encodeLogTimestampECSMode document record =
      document.AddTimestamp "@timestamp" (selectedTimestamp record) := by
  unfold encodeLogTimestampECSMode selectedTimestamp
  by_cases h : record.Timestamp = 0 <;> simp [h]

theorem ecsLog_fields (e : ecsModeEncoder) (ec : encodingContext) (record : plog.LogRecord)
    (idx : elasticsearch.Index) :
    (e.encodeLogDocument ec record idx).fields =
      resourceFields ec.resource.Attributes ++
      (ec.scope.Attributes.map (fun kv => ⟨kv.1, .attribute kv.2⟩) ++
      (record.Attributes.flatMap
          (ecsRuleFields recordAttrsConversionMap resourceAttrsToPreserve) ++
      (dataStreamFields "" idx ++
      (agentNameFields ec.resource ++
      (agentVersionFields ec.resource ++
      (hostOsTypeFields ec.resource ++
      ([⟨"@timestamp", .timestamp (selectedTimestamp record)⟩,
          ⟨"trace.id", .traceID record.TraceID⟩,
          ⟨"span.id", .spanID record.SpanID⟩] ++
      ((if record.SeverityNumber ≠ plog.SeverityNumberUnspecified then
          [⟨"event.severity", .int record.SeverityNumber⟩] else []) ++
      ([⟨"log.level", .string record.SeverityText⟩] ++
      (if record.Body.Type = .ValueTypeStr then
          [⟨"message", .attribute record.Body⟩] else [])))))))))) := by
  unfold ecsModeEncoder.encodeLogDocument
  by_cases h1 : record.SeverityNumber = plog.SeverityNumberUnspecified <;>
  by_cases h2 : record.Body.Type = .ValueTypeStr <;>
  simp [h1, h2, flatMap_ecsRuleFields_nil, encodeAttributesECSMode_fields,
    addDataStreamAttributes_fields, encodeLogAgentNameECSMode_fields,
    encodeLogAgentVersionECSMode_fields, encodeHostOsTypeECSMode_fields,
    encodeLogTimestampECSMode_eq, resourceFields, Document.AddTimestamp, Document.AddTraceID,
    Document.AddSpanID, Document.AddString, Document.AddInt, Document.AddAttribute,
    Document.empty]

theorem ecsSpan_fields (e : ecsModeEncoder) (ec : encodingContext) (span : ptrace.Span)
    (idx : elasticsearch.Index) :
    (e.encodeSpanDocument ec span idx).fields =
      resourceFields ec.resource.Attributes ++
      (ec.scope.Attributes.map (fun kv => ⟨kv.1, .attribute kv.2⟩) ++
      (span.Attributes.map (fun kv => ⟨kv.1, .attribute kv.2⟩) ++
      (hostOsTypeFields ec.resource ++
      (dataStreamFields "" idx ++
      ([⟨"@timestamp", .timestamp span.StartTimestamp⟩,
          ⟨"trace.id", .traceID span.TraceID⟩,
          ⟨"span.id", .spanID span.SpanID⟩,
          ⟨"span.name", .string span.Name⟩,
          ⟨"parent.id", .spanID span.ParentSpanID⟩] ++
      (eventOutcomeFields span.Status.Code ++
      [⟨"span.links", .links span.Links⟩])))))) := by
  unfold ecsModeEncoder.encodeSpanDocument eventOutcomeFields eventOutcomeRule
  by_cases h1 : span.Status.Code = 1 <;> by_cases h2 : span.Status.Code = 2 <;>
  simp [h1, h2, ptrace.StatusCodeOk, ptrace.StatusCodeError,
    flatMap_ecsRuleFields_nil, encodeAttributesECSMode_fields,
    addDataStreamAttributes_fields, encodeHostOsTypeECSMode_fields, resourceFields,
    Document.AddTimestamp, Document.AddTraceID, Document.AddSpanID, Document.AddString,
    Document.AddLinks, Document.empty]

/-! ## Shape of the fields of each part of a document -/

theorem mem_map_attribute (g : String → String) (attrs : pcommon.Map) (f : Field)
    (h : f ∈ attrs.map (fun kv => (⟨g kv.1, .attribute kv.2⟩ : Field))) :
    FieldIsAttribute f := by
  obtain ⟨kv, -, rfl⟩ := List.mem_map.mp h
  exact ⟨_, rfl⟩

theorem mem_map_attribute_id (attrs : pcommon.Map) (f : Field)
    (h : f ∈ attrs.map (fun kv => (⟨kv.1, .attribute kv.2⟩ : Field))) :
    FieldIsAttribute f :=
  mem_map_attribute id attrs f h

theorem mem_ecsRuleFields_attribute (conversionMap : List (String × String))
    (preserveMap : List (String × Bool)) (attrs : pcommon.Map) (f : Field)
    (h : f ∈ attrs.flatMap (ecsRuleFields conversionMap preserveMap)) :
    FieldIsAttribute f := by
  obtain ⟨kv, -, hf⟩ := List.mem_flatMap.mp h
  unfold ecsRuleFields at hf
  split at hf
  · simp only [List.mem_singleton] at hf
    exact ⟨_, by rw [hf]⟩
  · split_ifs at hf
    · simp at hf
    · simp only [List.mem_cons, List.mem_singleton, List.not_mem_nil, or_false] at hf
      rcases hf with hf | hf <;> exact ⟨_, by rw [hf]⟩
    · simp only [List.mem_singleton] at hf
      exact ⟨_, by rw [hf]⟩

theorem mem_resourceFields_attribute (attrs : pcommon.Map) (f : Field)
    (h : f ∈ resourceFields attrs) : FieldIsAttribute f := by
  rw [resourceFields_eq] at h
  exact mem_ecsRuleFields_attribute _ _ attrs f h

theorem mem_metricFields_attribute (dataPoints : List datapoints.DataPoint) (f : Field)
    (h : f ∈ metricFields dataPoints) : FieldIsAttribute f := by
  unfold metricFields at h
  obtain ⟨dp, -, hf⟩ := List.mem_filterMap.mp h
  split at hf
  · cases hf
  · simp only [Option.some.injEq] at hf
    exact ⟨_, by rw [← hf]⟩

theorem mem_agentNameFields (resource : Resource) (f : Field)
    (h : f ∈ agentNameFields resource) : ∃ v, f = ⟨"agent.name", .string v⟩ := by
  simp only [agentNameFields, encodeLogAgentNameECSMode, Document.AddString, Document.empty,
    List.nil_append, List.mem_singleton] at h
  exact ⟨_, h⟩

theorem mem_agentVersionFields (resource : Resource) (f : Field)
    (h : f ∈ agentVersionFields resource) : ∃ v, f = ⟨"agent.version", .string v⟩ := by
  unfold agentVersionFields encodeLogAgentVersionECSMode at h
  cases hd : Map.Get resource.Attributes semconv.TelemetryDistroVersionKey with
  | some d =>
    simp only [hd, Document.AddString, Document.empty, List.nil_append,
      List.mem_singleton] at h
    exact ⟨_, h⟩
  | none =>
    cases hv : Map.Get resource.Attributes semconv.TelemetrySDKVersionKey with
    | some v =>
      simp only [hd, hv, Document.AddString, Document.empty, List.nil_append,
        List.mem_singleton] at h
      exact ⟨_, h⟩
    | none => simp [hd, hv, Document.empty] at h

theorem mem_hostOsTypeFields (resource : Resource) (f : Field)
    (h : f ∈ hostOsTypeFields resource) : ∃ v, f = ⟨"host.os.type", .string v⟩ := by
  unfold hostOsTypeFields at h
  rw [encodeHostOsTypeECSMode_eq] at h
  cases hr : hostOsTypeRule ((Map.Get resource.Attributes "os.type").map Value.Str)
    ((Map.Get resource.Attributes "os.name").map Value.Str) with
  | some t =>
    simp only [hr, Document.AddString, Document.empty, List.nil_append,
      List.mem_singleton] at h
    exact ⟨_, h⟩
  | none => simp [hr, Document.empty] at h

theorem mem_dataStreamFields (pfx : String) (idx : elasticsearch.Index) (f : Field)
    (h : f ∈ dataStreamFields pfx idx) :
    idx.IsDataStream = true ∧
    (f = ⟨pfx ++ "data_stream.type", .string idx.Type_⟩ ∨
      f = ⟨pfx ++ "data_stream.dataset", .string idx.Dataset⟩ ∨
      f = ⟨pfx ++ "data_stream.namespace", .string idx.Namespace⟩) := by
  unfold dataStreamFields at h
  cases hd : idx.IsDataStream with
  | false => simp [hd] at h
  | true => simpa [hd] using h

theorem isTimestamp_of_attribute (f : Field) (h : FieldIsAttribute f) :
    f.isTimestamp = false := by
  obtain ⟨v, hv⟩ := h
  simp [Field.isTimestamp, hv]

theorem filter_isTimestamp_nil (l : List Field)
    (h : ∀ f ∈ l, FieldIsAttribute f ∨ ∃ k v, f = ⟨k, .string v⟩) :
    l.filter Field.isTimestamp = [] := by
  rw [List.filter_eq_nil_iff]
  intro f hf
  rcases h f hf with ha | ⟨k, v, rfl⟩
  · simp [isTimestamp_of_attribute f ha]
  · simp [Field.isTimestamp]

theorem filter_isTimestamp_map (g : String → String) (attrs : pcommon.Map) :
    (attrs.map (fun kv => (⟨g kv.1, .attribute kv.2⟩ : Field))).filter Field.isTimestamp =
      [] :=
  filter_isTimestamp_nil _ (fun f hf => Or.inl (mem_map_attribute g attrs f hf))

theorem filter_isTimestamp_dataStream (pfx : String) (idx : elasticsearch.Index) :
    (dataStreamFields pfx idx).filter Field.isTimestamp = [] := by
  apply filter_isTimestamp_nil
  intro f hf
  obtain ⟨-, h | h | h⟩ := mem_dataStreamFields pfx idx f hf <;> exact Or.inr ⟨_, _, h⟩

theorem unixNano_eq (t : time.Time) : t.UnixNano = t.nsec := rfl

theorem nsec_asTime (ts : pcommon.Timestamp) : ts.AsTime.nsec = int64OfUint64 ts := rfl

theorem asTime_unixNano (ts : pcommon.Timestamp) : ts.AsTime.UnixNano = int64OfUint64 ts :=
  (unixNano_eq _).trans (nsec_asTime ts)

theorem int64OfUint64_eq_zero (ts : Nat) (h : ts < 2 ^ 64) :
    int64OfUint64 ts = 0 ↔ ts = 0 := by
  unfold int64OfUint64 wrapInt64
  have h2 : ts % 2 ^ 64 = ts := Nat.mod_eq_of_lt h
  rw [h2]
  omega

theorem ecsLog_fields_split (e : ecsModeEncoder) (ec : encodingContext)
    (record : plog.LogRecord) (idx : elasticsearch.Index) :
    (e.encodeLogDocument ec record idx).fields =
      ecsLogPrefix ec record idx ++
      ([⟨"@timestamp", .timestamp (selectedTimestamp record)⟩,
          ⟨"trace.id", .traceID record.TraceID⟩,
          ⟨"span.id", .spanID record.SpanID⟩] ++
      ((if record.SeverityNumber ≠ plog.SeverityNumberUnspecified then
          [⟨"event.severity", .int record.SeverityNumber⟩] else []) ++
      ([⟨"log.level", .string record.SeverityText⟩] ++
      (if record.Body.Type = .ValueTypeStr then
          [⟨"message", .attribute record.Body⟩] else [])))) := by
  rw [ecsLog_fields]
  simp only [ecsLogPrefix, List.append_assoc]

theorem ecsSpan_fields_split (e : ecsModeEncoder) (ec : encodingContext) (span : ptrace.Span)
    (idx : elasticsearch.Index) :
    (e.encodeSpanDocument ec span idx).fields =
      ecsSpanPrefix ec span idx ++
      ([⟨"@timestamp", .timestamp span.StartTimestamp⟩,
          ⟨"trace.id", .traceID span.TraceID⟩,
          ⟨"span.id", .spanID span.SpanID⟩,
          ⟨"span.name", .string span.Name⟩,
          ⟨"parent.id", .spanID span.ParentSpanID⟩] ++
      (eventOutcomeFields span.Status.Code ++ [⟨"span.links", .links span.Links⟩])) := by
  rw [ecsSpan_fields]
  simp only [ecsSpanPrefix, List.append_assoc]

theorem ecsLogPrefix_shape (ec : encodingContext) (record : plog.LogRecord)
    (idx : elasticsearch.Index) (f : Field) (h : f ∈ ecsLogPrefix ec record idx) :
    FieldIsAttribute f ∨
    (idx.IsDataStream = true ∧
      (f = ⟨"data_stream.type", .string idx.Type_⟩ ∨
        f = ⟨"data_stream.dataset", .string idx.Dataset⟩ ∨
        f = ⟨"data_stream.namespace", .string idx.Namespace⟩)) ∨
    (∃ v, f = ⟨"agent.name", .string v⟩) ∨ (∃ v, f = ⟨"agent.version", .string v⟩) ∨
    (∃ v, f = ⟨"host.os.type", .string v⟩) := by
  simp only [ecsLogPrefix, List.mem_append] at h
  rcases h with h | h | h | h | h | h | h
  · exact Or.inl (mem_resourceFields_attribute _ f h)
  · exact Or.inl (mem_map_attribute_id _ f h)
  · exact Or.inl (mem_ecsRuleFields_attribute _ _ _ f h)
  · have hd := mem_dataStreamFields "" idx f h
    simp only [String.empty_append] at hd
    exact Or.inr (Or.inl hd)
  · exact Or.inr (Or.inr (Or.inl (mem_agentNameFields _ f h)))
  · exact Or.inr (Or.inr (Or.inr (Or.inl (mem_agentVersionFields _ f h))))
  · exact Or.inr (Or.inr (Or.inr (Or.inr (mem_hostOsTypeFields _ f h))))

theorem ecsSpanPrefix_shape (ec : encodingContext) (span : ptrace.Span)
    (idx : elasticsearch.Index) (f : Field) (h : f ∈ ecsSpanPrefix ec span idx) :
    FieldIsAttribute f ∨
    (idx.IsDataStream = true ∧
      (f = ⟨"data_stream.type", .string idx.Type_⟩ ∨
        f = ⟨"data_stream.dataset", .string idx.Dataset⟩ ∨
        f = ⟨"data_stream.namespace", .string idx.Namespace⟩)) ∨
    (∃ v, f = ⟨"host.os.type", .string v⟩) := by
  simp only [ecsSpanPrefix, List.mem_append] at h
  rcases h with h | h | h | h | h
  · exact Or.inl (mem_resourceFields_attribute _ f h)
  · exact Or.inl (mem_map_attribute_id _ f h)
  · exact Or.inl (mem_map_attribute_id _ f h)
  · exact Or.inr (Or.inr (mem_hostOsTypeFields _ f h))
  · have hd := mem_dataStreamFields "" idx f h
    simp only [String.empty_append] at hd
    exact Or.inr (Or.inl hd)

theorem ecsLogPrefix_attribute_or_string (ec : encodingContext) (record : plog.LogRecord)
    (idx : elasticsearch.Index) (f : Field) (h : f ∈ ecsLogPrefix ec record idx) :
    FieldIsAttribute f ∨ ∃ k v, f = ⟨k, .string v⟩ := by
  rcases ecsLogPrefix_shape ec record idx f h with
    h | ⟨-, h | h | h⟩ | ⟨v, h⟩ | ⟨v, h⟩ | ⟨v, h⟩
  · exact Or.inl h
  all_goals exact Or.inr ⟨_, _, h⟩

theorem ecsSpanPrefix_attribute_or_string (ec : encodingContext) (span : ptrace.Span)
    (idx : elasticsearch.Index) (f : Field) (h : f ∈ ecsSpanPrefix ec span idx) :
    FieldIsAttribute f ∨ ∃ k v, f = ⟨k, .string v⟩ := by
  rcases ecsSpanPrefix_shape ec span idx f h with h | ⟨-, h | h | h⟩ | ⟨v, h⟩
  · exact Or.inl h
  all_goals exact Or.inr ⟨_, _, h⟩

/-! ## Log timestamp -/

/-- C14: for a log record whose primary timestamp is an unsigned 64 bit value, the test of the
legacy encoder (the time of the timestamp has `UnixNano` equal to 0) holds exactly when the
test of the ECS encoder (the timestamp is 0) holds; the only timestamp field of the document
of the legacy encoder and the only timestamp field of the document of the ECS encoder is one
`@timestamp` field with the primary timestamp when it is not zero and the observed timestamp
otherwise; and `encodeLogTimestampECSMode` adds exactly that one field. -/
theorem log_timestamp_same (record : plog.LogRecord) (hts : record.Timestamp < 2 ^ 64) :
    (record.Timestamp.AsTime.UnixNano = 0 ↔ record.Timestamp = 0) ∧
    (∀ (e : legacyModeEncoder) (ec : encodingContext) (idx : elasticsearch.Index),
      (e.encodeLogDocument ec record idx).fields.filter Field.isTimestamp =
        [⟨"@timestamp", .timestamp (selectedTimestamp record)⟩]) ∧
    (∀ (e : ecsModeEncoder) (ec : encodingContext) (idx : elasticsearch.Index),
      (e.encodeLogDocument ec record idx).fields.filter Field.isTimestamp =
        [⟨"@timestamp", .timestamp (selectedTimestamp record)⟩]) ∧
    (∀ document : Document,
      (encodeLogTimestampECSMode document record).fields =
        document.fields ++ [⟨"@timestamp", .timestamp (selectedTimestamp record)⟩]) := by
  have hz : record.Timestamp.AsTime.UnixNano = 0 ↔ record.Timestamp = 0 := by
    rw [asTime_unixNano]
    exact int64OfUint64_eq_zero _ hts
  refine ⟨hz, ?_, ?_, ?_⟩
  · intro e ec idx
    rw [legacyLog_fields]
    have hsel : (if record.Timestamp.AsTime.UnixNano = 0 then record.ObservedTimestamp
        else record.Timestamp) = selectedTimestamp record := by
      unfold selectedTimestamp
      by_cases h0 : record.Timestamp = 0
      · rw [if_pos (hz.mpr h0), if_pos h0]
      · rw [if_neg (fun h => h0 (hz.mp h)), if_neg h0]
    rw [hsel]
    simp only [List.filter_append, filter_isTimestamp_map, filter_isTimestamp_dataStream,
      List.append_nil]
    simp [List.filter_cons, Field.isTimestamp]
  · intro e ec idx
    rw [ecsLog_fields_split]
    simp only [List.filter_append,
      filter_isTimestamp_nil _ (ecsLogPrefix_attribute_or_string ec record idx),
      List.nil_append]
    by_cases h1 : record.SeverityNumber = plog.SeverityNumberUnspecified <;>
    by_cases h2 : record.Body.Type = .ValueTypeStr <;>
    simp [h1, h2, List.filter_cons, Field.isTimestamp]
  · intro document
    rw [encodeLogTimestampECSMode_eq]
    rfl

/-- Witness of C14 on the sample record, whose primary timestamp is 0 and whose observed
timestamp is 42: both encoders insert `@timestamp` with the value 42. -/
theorem log_timestamp_same_witness :
    (sampleInfoRecord.Timestamp.AsTime.UnixNano = 0 ↔ sampleInfoRecord.Timestamp = 0) ∧
    (∀ (e : legacyModeEncoder),
      (e.encodeLogDocument sampleContext sampleInfoRecord sampleIndex).fields.filter
        Field.isTimestamp = [⟨"@timestamp", .timestamp 42⟩]) ∧
    (∀ (e : ecsModeEncoder),
      (e.encodeLogDocument sampleContext sampleInfoRecord sampleIndex).fields.filter
        Field.isTimestamp = [⟨"@timestamp", .timestamp 42⟩]) := by
  have h := log_timestamp_same sampleInfoRecord (by decide)
  exact ⟨h.1, fun e => h.2.1 e sampleContext sampleIndex,
    fun e => h.2.2.1 e sampleContext sampleIndex⟩

theorem not_attribute_of_string (k v : String) : ¬ FieldIsAttribute ⟨k, .string v⟩ := by
  rintro ⟨a, ha⟩
  cases ha

theorem not_attribute_of_int (k : String) (n : Int) : ¬ FieldIsAttribute ⟨k, .int n⟩ := by
  rintro ⟨a, ha⟩
  cases ha

/-! ## ECS span outcome -/

/-- C15: the document of the ECS span encoder is a part that does not depend on the span
status and holds no string field `event.outcome`, followed by the outcome fields of the
status code and the span links. The outcome fields are the single field `event.outcome` with
the value `success` for the code Ok, with the value `failure` for the code Error, and no
field for the code Unset and for every other code; the status message plays no role. -/
theorem ecs_span_outcome (e : ecsModeEncoder) (ec : encodingContext) (span : ptrace.Span)
    (idx : elasticsearch.Index) :
    (∀ st : ptrace.Status,
      (e.encodeSpanDocument ec { span with Status := st } idx).fields =
        (ecsSpanPrefix ec span idx ++
          [⟨"@timestamp", .timestamp span.StartTimestamp⟩,
            ⟨"trace.id", .traceID span.TraceID⟩,
            ⟨"span.id", .spanID span.SpanID⟩,
            ⟨"span.name", .string span.Name⟩,
            ⟨"parent.id", .spanID span.ParentSpanID⟩]) ++
        (eventOutcomeFields st.Code ++ [⟨"span.links", .links span.Links⟩])) ∧
    (∀ f ∈ ecsSpanPrefix ec span idx ++
          [⟨"@timestamp", .timestamp span.StartTimestamp⟩,
            ⟨"trace.id", .traceID span.TraceID⟩,
            ⟨"span.id", .spanID span.SpanID⟩,
            ⟨"span.name", .string span.Name⟩,
            ⟨"parent.id", .spanID span.ParentSpanID⟩],
      ∀ v, f ≠ ⟨"event.outcome", .string v⟩) ∧
    eventOutcomeFields ptrace.StatusCodeOk = [⟨"event.outcome", .string "success"⟩] ∧
    eventOutcomeFields ptrace.StatusCodeError = [⟨"event.outcome", .string "failure"⟩] ∧
    eventOutcomeFields ptrace.StatusCodeUnset = [] ∧
    (∀ code, code ≠ ptrace.StatusCodeOk → code ≠ ptrace.StatusCodeError →
      eventOutcomeFields code = []) ∧
    (∀ code, (eventOutcomeFields code).length ≤ 1) := by
  refine ⟨?_, ?_, rfl, rfl, rfl, ?_, ?_⟩
  · intro st
    rw [ecsSpan_fields_split]
    simp only [List.append_assoc]
    rfl
  · intro f hf v hfv
    subst hfv
    rw [List.mem_append] at hf
    rcases hf with hf | hf
    · rcases ecsSpanPrefix_shape ec span idx _ hf with h | ⟨-, h | h | h⟩ | ⟨w, h⟩
      · exact not_attribute_of_string _ _ h
      all_goals
        simp only [Field.mk.injEq] at h
        exact absurd h.1 (by decide)
    · simp +decide at hf
  · intro code h1 h2
    simp only [ptrace.StatusCodeOk, ptrace.StatusCodeError] at h1 h2
    simp [eventOutcomeFields, eventOutcomeRule, h1, h2]
  · intro code
    unfold eventOutcomeFields eventOutcomeRule
    split_ifs <;> simp

/-- Witness of C15 on the sample span, which carries an attribute named `event.outcome`: with
the status Error the encoder adds `event.outcome` with the value `failure` before the span
links, and with the status Unset it adds no outcome field. -/
theorem ecs_span_outcome_witness :
    (∀ e : ecsModeEncoder,
      ((e.encodeSpanDocument sampleContext (sampleSpanWithStatus 2 "boom") sampleIndex).fields.drop
        6 = [⟨"event.outcome", .string "failure"⟩, ⟨"span.links", .links []⟩]) ∧
      ((e.encodeSpanDocument sampleContext (sampleSpanWithStatus 0 "") sampleIndex).fields.drop
        6 = [⟨"span.links", .links []⟩])) := by
  intro e
  have h := (ecs_span_outcome e sampleContext (sampleSpanWithStatus 2 "boom") sampleIndex).1
  constructor
  · have h1 := h ⟨2, "boom"⟩
    rw [show ({ sampleSpanWithStatus 2 "boom" with Status := ⟨2, "boom"⟩ } : ptrace.Span) =
      sampleSpanWithStatus 2 "boom" from rfl] at h1
    rw [h1]
    rfl
  · have h1 := h ⟨0, ""⟩
    rw [show ({ sampleSpanWithStatus 2 "boom" with Status := ⟨0, ""⟩ } : ptrace.Span) =
      sampleSpanWithStatus 0 "" from rfl] at h1
    rw [h1]
    rfl

/-! ## ECS log record fields -/

/-- C16: the document of the ECS log encoder ends, after the fields of the attributes and
special cases, with the fields taken from the record: `@timestamp`, `trace.id`, `span.id`,
then `event.severity` with the severity number exactly when the severity number is not
Unspecified, then `log.level` with the severity text, then `message` with the body exactly
when the type of the body is string. The only integer field of the document is
`event.severity`, and it is present if and only if the severity number is not Unspecified;
`log.level`, `trace.id` and `span.id` are always present. -/
theorem ecs_log_record_fields (e : ecsModeEncoder) (ec : encodingContext)
    (record : plog.LogRecord) (idx : elasticsearch.Index) :
    (e.encodeLogDocument ec record idx).fields =
      ecsLogPrefix ec record idx ++
      ([⟨"@timestamp", .timestamp (selectedTimestamp record)⟩,
          ⟨"trace.id", .traceID record.TraceID⟩,
          ⟨"span.id", .spanID record.SpanID⟩] ++
      ((if record.SeverityNumber ≠ plog.SeverityNumberUnspecified then
          [⟨"event.severity", .int record.SeverityNumber⟩] else []) ++
      ([⟨"log.level", .string record.SeverityText⟩] ++
      (if record.Body.Type = .ValueTypeStr then
          [⟨"message", .attribute record.Body⟩] else [])))) ∧
    (∀ k n, (⟨k, .int n⟩ : Field) ∈ (e.encodeLogDocument ec record idx).fields ↔
      (k = "event.severity" ∧ n = record.SeverityNumber ∧
        record.SeverityNumber ≠ plog.SeverityNumberUnspecified)) ∧
    (⟨"log.level", .string record.SeverityText⟩ : Field) ∈
      (e.encodeLogDocument ec record idx).fields ∧
    (⟨"trace.id", .traceID record.TraceID⟩ : Field) ∈
      (e.encodeLogDocument ec record idx).fields ∧
    (⟨"span.id", .spanID record.SpanID⟩ : Field) ∈
      (e.encodeLogDocument ec record idx).fields ∧
    ((e.encodeLogDocument ec record idx).fields.getLast? =
        some ⟨"message", .attribute record.Body⟩ ↔ record.Body.Type = .ValueTypeStr) := by
  refine ⟨ecsLog_fields_split e ec record idx, ?_, ?_, ?_, ?_, ?_⟩
  · intro k n
    rw [ecsLog_fields_split]
    constructor
    · intro h
      rw [List.mem_append] at h
      rcases h with h | h
      · rcases ecsLogPrefix_attribute_or_string ec record idx _ h with ha | ⟨k2, v2, hs⟩
        · exact absurd ha (not_attribute_of_int _ _)
        · cases hs
      · by_cases h1 : record.SeverityNumber = plog.SeverityNumberUnspecified <;>
        by_cases h2 : record.Body.Type = .ValueTypeStr <;>
        simp [h1, h2] at h
        · exact ⟨h.1, h.2, h1⟩
        · exact ⟨h.1, h.2, h1⟩
    · rintro ⟨rfl, rfl, h1⟩
      simp [h1]
  · rw [ecsLog_fields_split]
    simp
  · rw [ecsLog_fields_split]
    simp
  · rw [ecsLog_fields_split]
    simp
  · rw [ecsLog_fields_split]
    by_cases h1 : record.SeverityNumber = plog.SeverityNumberUnspecified <;>
    by_cases h2 : record.Body.Type = .ValueTypeStr <;>
    simp +decide [h1, h2, List.getLast?_append, List.getLast?_cons_cons]

/-- Witness of C16 on the sample record with severity number 9, severity text `INFO` and a
string body: the document ends with `event.severity`, `log.level` and `message`. -/
theorem ecs_log_record_fields_witness :
    ∀ e : ecsModeEncoder,
      (e.encodeLogDocument sampleContext sampleInfoRecord sampleIndex).fields.drop 4 =
        [⟨"event.severity", .int 9⟩, ⟨"log.level", .string "INFO"⟩,
          ⟨"message", .attribute (.str "started")⟩] := by
  intro e
  rw [(ecs_log_record_fields e sampleContext sampleInfoRecord sampleIndex).1]
  rfl

/-! ## Data-stream identity fields -/

theorem dataStreamFields_has (pfx : String) (idx : elasticsearch.Index)
    (h : idx.IsDataStream = true) : HasDataStreamFields (dataStreamFields pfx idx) pfx idx := by
  simp [HasDataStreamFields, dataStreamFields, h]

theorem hasDataStreamFields_of_sublist (fs gs hs : List Field) (pfx : String)
    (idx : elasticsearch.Index) (h : HasDataStreamFields gs pfx idx) :
    HasDataStreamFields (fs ++ (gs ++ hs)) pfx idx := by
  obtain ⟨h1, h2, h3⟩ := h
  refine ⟨?_, ?_, ?_⟩ <;> simp only [List.mem_append] <;> tauto

theorem legacyLog_string_mem (e : legacyModeEncoder) (ec : encodingContext)
    (record : plog.LogRecord) (idx : elasticsearch.Index) (k v : String)
    (h : (⟨k, .string v⟩ : Field) ∈ (e.encodeLogDocument ec record idx).fields) :
    k = "SeverityText" ∨
      (⟨k, .string v⟩ : Field) ∈ dataStreamFields e.attributesPrefix idx := by
  rw [legacyLog_fields] at h
  simp only [List.mem_append] at h
  rcases h with h | h | h | h | h
  · simp at h
    exact Or.inl h.1
  · exact absurd (mem_map_attribute (Document.flattenKey "Resource") _ _ h)
      (not_attribute_of_string _ _)
  · exact absurd (mem_map_attribute (Document.flattenKey "Scope") _ _ h)
      (not_attribute_of_string _ _)
  · exact absurd (mem_map_attribute (Document.flattenKey e.attributesPrefix) _ _ h)
      (not_attribute_of_string _ _)
  · exact Or.inr h

theorem nonOTelSpan_string_mem (X : Env) (e : nonOTelSpanEncoder) (ec : encodingContext)
    (span : ptrace.Span) (idx : elasticsearch.Index) (k v : String)
    (h : (⟨k, .string v⟩ : Field) ∈ (e.encodeSpanDocument X ec span idx).fields) :
    k ∈ ["Name", "Kind", "TraceStatusDescription", "Link"] ∨
      (⟨k, .string v⟩ : Field) ∈ dataStreamFields e.attributesPrefix idx := by
  rw [nonOTelSpan_fields] at h
  simp only [List.mem_append] at h
  rcases h with h | h | h | h | h | h | h
  · simp at h
    left
    simp only [List.mem_cons, List.mem_singleton, List.not_mem_nil, or_false]
    tauto
  · exact absurd (mem_map_attribute (Document.flattenKey "Resource") _ _ h)
      (not_attribute_of_string _ _)
  · simp at h
  · exact absurd (mem_map_attribute (Document.flattenKey "Scope") _ _ h)
      (not_attribute_of_string _ _)
  · exact absurd (mem_map_attribute (Document.flattenKey e.attributesPrefix) _ _ h)
      (not_attribute_of_string _ _)
  · exact Or.inr h
  · simp at h

theorem ecsLog_string_mem (e : ecsModeEncoder) (ec : encodingContext)
    (record : plog.LogRecord) (idx : elasticsearch.Index) (k v : String)
    (h : (⟨k, .string v⟩ : Field) ∈ (e.encodeLogDocument ec record idx).fields) :
    k ∈ ["agent.name", "agent.version", "host.os.type", "log.level"] ∨
      (⟨k, .string v⟩ : Field) ∈ dataStreamFields "" idx := by
  rw [ecsLog_fields] at h
  simp only [List.mem_append] at h
  rcases h with h | h | h | h | h | h | h | h | h | h | h
  · exact absurd (mem_resourceFields_attribute _ _ h) (not_attribute_of_string _ _)
  · exact absurd (mem_map_attribute_id _ _ h) (not_attribute_of_string _ _)
  · exact absurd (mem_ecsRuleFields_attribute _ _ _ _ h) (not_attribute_of_string _ _)
  · exact Or.inr h
  · obtain ⟨w, hw⟩ := mem_agentNameFields _ _ h
    simp only [Field.mk.injEq] at hw
    simp [hw.1]
  · obtain ⟨w, hw⟩ := mem_agentVersionFields _ _ h
    simp only [Field.mk.injEq] at hw
    simp [hw.1]
  · obtain ⟨w, hw⟩ := mem_hostOsTypeFields _ _ h
    simp only [Field.mk.injEq] at hw
    simp [hw.1]
  · simp at h
  · split_ifs at h <;> simp at h
  · simp at h
    simp [h.1]
  · split_ifs at h <;> simp at h

theorem ecsSpan_string_mem (e : ecsModeEncoder) (ec : encodingContext) (span : ptrace.Span)
    (idx : elasticsearch.Index) (k v : String)
    (h : (⟨k, .string v⟩ : Field) ∈ (e.encodeSpanDocument ec span idx).fields) :
    k ∈ ["host.os.type", "span.name", "event.outcome"] ∨
      (⟨k, .string v⟩ : Field) ∈ dataStreamFields "" idx := by
  rw [ecsSpan_fields] at h
  simp only [List.mem_append] at h
  rcases h with h | h | h | h | h | h | h | h
  · exact absurd (mem_resourceFields_attribute _ _ h) (not_attribute_of_string _ _)
  · exact absurd (mem_map_attribute_id _ _ h) (not_attribute_of_string _ _)
  · exact absurd (mem_map_attribute_id _ _ h) (not_attribute_of_string _ _)
  · obtain ⟨w, hw⟩ := mem_hostOsTypeFields _ _ h
    simp only [Field.mk.injEq] at hw
    simp [hw.1]
  · exact Or.inr h
  · simp at h
    simp [h.1]
  · unfold eventOutcomeFields at h
    split at h
    · simp at h
      simp [h.1]
    · simp at h
  · simp at h

theorem ecsMetrics_string_mem (ec : encodingContext) (dp0 : datapoints.DataPoint)
    (dataPoints : List datapoints.DataPoint) (validationErrors : List GoError)
    (idx : elasticsearch.Index) (k v : String)
    (h : (⟨k, .string v⟩ : Field) ∈
      (ecsDataPointsEncoder.encodeMetricsState ec dp0 dataPoints validationErrors idx).1.fields) :
    (⟨k, .string v⟩ : Field) ∈ dataStreamFields "" idx := by
  rw [encodeMetricsState_eq] at h
  simp only [List.mem_append] at h
  rcases h with h | h | h | h | h
  · exact absurd (mem_resourceFields_attribute _ _ h) (not_attribute_of_string _ _)
  · simp at h
  · exact absurd (mem_map_attribute_id _ _ h) (not_attribute_of_string _ _)
  · exact h
  · exact absurd (mem_metricFields_attribute _ _ h) (not_attribute_of_string _ _)

theorem hasDataStreamFields_iff (fields : List Field) (pfx : String)
    (idx : elasticsearch.Index)
    (hin : idx.IsDataStream = true → HasDataStreamFields fields pfx idx)
    (hout : ∀ v, (⟨pfx ++ "data_stream.type", .string v⟩ : Field) ∈ fields →
      idx.IsDataStream = true) :
    HasDataStreamFields fields pfx idx ↔ idx.IsDataStream = true :=
  ⟨fun h => hout _ h.1, hin⟩

/-- C17: `addDataStreamAttributes` adds exactly the three string fields `data_stream.type`,
`data_stream.dataset` and `data_stream.namespace`, each keyed by the given prefix followed
by the name and carrying the type, dataset and namespace of the index, when the index is a
data stream, and adds no field when it is not. The log and span documents of the None and
Raw encoders (prefix `Attributes` and the empty prefix) and the log, span and metrics
documents of the ECS encoder (empty prefix) contain these three fields if and only if the
index is a data stream. -/
theorem data_stream_fields_spec (idx : elasticsearch.Index) :
    (idx.IsDataStream = true → ∀ (document : Document) (key : String),
      (addDataStreamAttributes document key idx).fields =
        document.fields ++
          [⟨key ++ "data_stream.type", .string idx.Type_⟩,
            ⟨key ++ "data_stream.dataset", .string idx.Dataset⟩,
            ⟨key ++ "data_stream.namespace", .string idx.Namespace⟩]) ∧
    (idx.IsDataStream = false → ∀ (document : Document) (key : String),
      addDataStreamAttributes document key idx = document) ∧
    (∀ (X : Env), X.WellFormed →
      (∃ e, newEncoder X X.MappingNone = .ok (.legacy e) ∧ e.attributesPrefix = "Attributes" ∧
        e.nonOTelSpanEncoder.attributesPrefix = "Attributes") ∧
      (∃ e, newEncoder X X.MappingRaw = .ok (.legacy e) ∧ e.attributesPrefix = "" ∧
        e.nonOTelSpanEncoder.attributesPrefix = "")) ∧
    (∀ (e : legacyModeEncoder) (ec : encodingContext) (record : plog.LogRecord),
      e.attributesPrefix = "Attributes" ∨ e.attributesPrefix = "" →
      (HasDataStreamFields (e.encodeLogDocument ec record idx).fields e.attributesPrefix idx ↔
        idx.IsDataStream = true)) ∧
    (∀ (X : Env) (e : nonOTelSpanEncoder) (ec : encodingContext) (span : ptrace.Span),
      e.attributesPrefix = "Attributes" ∨ e.attributesPrefix = "" →
      (HasDataStreamFields (e.encodeSpanDocument X ec span idx).fields e.attributesPrefix idx ↔
        idx.IsDataStream = true)) ∧
    (∀ (e : ecsModeEncoder) (ec : encodingContext) (record : plog.LogRecord),
      HasDataStreamFields (e.encodeLogDocument ec record idx).fields "" idx ↔
        idx.IsDataStream = true) ∧
    (∀ (e : ecsModeEncoder) (ec : encodingContext) (span : ptrace.Span),
      HasDataStreamFields (e.encodeSpanDocument ec span idx).fields "" idx ↔
        idx.IsDataStream = true) ∧
    (∀ (ec : encodingContext) (dp0 : datapoints.DataPoint) (rest : List datapoints.DataPoint)
        (validationErrors : List GoError),
      HasDataStreamFields
          (ecsDataPointsEncoder.encodeMetricsState ec dp0 (dp0 :: rest) validationErrors
            idx).1.fields "" idx ↔
        idx.IsDataStream = true) := by
  refine ⟨?_, ?_, ?_, ?_, ?_, ?_, ?_, ?_⟩
  · intro h document key
    simp [addDataStreamAttributes, h, Document.AddString]
  · intro h document key
    simp [addDataStreamAttributes, h]
  · intro X hX
    exact ⟨⟨_, newEncoder_none X, rfl, rfl⟩, ⟨_, newEncoder_raw X hX, rfl, rfl⟩⟩
  · intro e ec record hp
    apply hasDataStreamFields_iff
    · intro h
      rw [legacyLog_fields]
      simp [HasDataStreamFields, dataStreamFields, h]
    · intro v hv
      rcases legacyLog_string_mem e ec record idx _ v hv with hk | hk
      · rcases hp with hp | hp <;> rw [hp] at hk <;> exact absurd hk (by decide)
      · exact (mem_dataStreamFields _ idx _ hk).1
  · intro X e ec span hp
    apply hasDataStreamFields_iff
    · intro h
      rw [nonOTelSpan_fields]
      simp [HasDataStreamFields, dataStreamFields, h]
    · intro v hv
      rcases nonOTelSpan_string_mem X e ec span idx _ v hv with hk | hk
      · rcases hp with hp | hp <;> rw [hp] at hk <;> exact absurd hk (by decide)
      · exact (mem_dataStreamFields _ idx _ hk).1
  · intro e ec record
    apply hasDataStreamFields_iff
    · intro h
      rw [ecsLog_fields]
      simp [HasDataStreamFields, dataStreamFields, h]
    · intro v hv
      rcases ecsLog_string_mem e ec record idx _ v hv with hk | hk
      · exact absurd hk (by decide)
      · exact (mem_dataStreamFields _ idx _ hk).1
  · intro e ec span
    apply hasDataStreamFields_iff
    · intro h
      rw [ecsSpan_fields]
      simp [HasDataStreamFields, dataStreamFields, h]
    · intro v hv
      rcases ecsSpan_string_mem e ec span idx _ v hv with hk | hk
      · exact absurd hk (by decide)
      · exact (mem_dataStreamFields _ idx _ hk).1
  · intro ec dp0 rest validationErrors
    apply hasDataStreamFields_iff
    · intro h
      rw [encodeMetricsState_eq]
      simp [HasDataStreamFields, dataStreamFields, h]
    · intro v hv
      exact (mem_dataStreamFields _ idx _
        (ecsMetrics_string_mem ec dp0 _ validationErrors idx _ v hv)).1

/-- Witness of C17 on the sample data stream `logs-generic-default`: the three fields added
at the prefix `Attributes`, and their absence from the ECS log document for the sample index
that is no data stream. -/
theorem data_stream_fields_spec_witness :
    (addDataStreamAttributes Document.empty "Attributes" sampleDataStream).fields =
      [⟨"Attributesdata_stream.type", .string "logs"⟩,
        ⟨"Attributesdata_stream.dataset", .string "generic"⟩,
        ⟨"Attributesdata_stream.namespace", .string "default"⟩] ∧
    (∀ e : ecsModeEncoder,
      ¬ HasDataStreamFields (e.encodeLogDocument sampleContext sampleInfoRecord
        sampleIndex).fields "" sampleIndex) := by
  constructor
  · exact (data_stream_fields_spec sampleDataStream).1 rfl Document.empty "Attributes"
  · intro e h
    have h2 := ((data_stream_fields_spec sampleIndex).2.2.2.2.2.1 e sampleContext
      sampleInfoRecord).mp h
    exact absurd h2 (by decide)

/-- C18, at the failing input: with the prefix `Attributes` of the None encoder and the sample
data stream, a record attribute named `data_stream.type` is emitted by the bulk insertion
under `Attributes.data_stream.type`, while the data-stream type is injected under
`Attributesdata_stream.type`; the two keys differ. With the empty prefix of the Raw encoder
both keys are `data_stream.type`. -/
theorem legacy_data_stream_key_mismatch :
    (encodeAttributes "Attributes" Document.empty [("data_stream.type", .str "metrics")]
      sampleDataStream).fields =
      [⟨"Attributes.data_stream.type", .attribute (.str "metrics")⟩,
        ⟨"Attributesdata_stream.type", .string "logs"⟩,
        ⟨"Attributesdata_stream.dataset", .string "generic"⟩,
        ⟨"Attributesdata_stream.namespace", .string "default"⟩] ∧
    "Attributes" ++ "data_stream.type" ≠ Document.flattenKey "Attributes" "data_stream.type" ∧
    "Attributes" ++ "data_stream.dataset" ≠
      Document.flattenKey "Attributes" "data_stream.dataset" ∧
    "Attributes" ++ "data_stream.namespace" ≠
      Document.flattenKey "Attributes" "data_stream.namespace" ∧
    (encodeAttributes "" Document.empty [("data_stream.type", .str "metrics")]
      sampleDataStream).fields =
      [⟨"data_stream.type", .attribute (.str "metrics")⟩,
        ⟨"data_stream.type", .string "logs"⟩,
        ⟨"data_stream.dataset", .string "generic"⟩,
        ⟨"data_stream.namespace", .string "default"⟩] :=
  ⟨rfl, by decide, by decide, by decide, rfl⟩

/-! ## None and Raw encoders -/

/-- C20: the documents of the None and the Raw encoder for the same context, index and log
record consist of one common sequence of fields followed by the record attributes and the
data-stream identity fields, which the None encoder places at the prefix `Attributes` and the
Raw encoder at the empty prefix; the span documents consist of one common sequence of fields
followed by the span attributes and the data-stream identity fields at the prefix
`Attributes` or the empty prefix and by the span events at the prefix `Events` or the empty
prefix. Both encoders serialize log documents with the flattening flag off and have the same
flattening flag for span documents. -/
theorem none_raw_differ_in_placement (X : Env) (hX : X.WellFormed) (ec : encodingContext)
    (idx : elasticsearch.Index) (record : plog.LogRecord) (span : ptrace.Span) :
    ∃ eNone eRaw : legacyModeEncoder,
      newEncoder X X.MappingNone = .ok (.legacy eNone) ∧
      newEncoder X X.MappingRaw = .ok (.legacy eRaw) ∧
      (∃ common : List Field,
        (eNone.encodeLogDocument ec record idx).fields =
          common ++ (encodeAttributes "Attributes" Document.empty record.Attributes idx).fields ∧
        (eRaw.encodeLogDocument ec record idx).fields =
          common ++ (encodeAttributes "" Document.empty record.Attributes idx).fields) ∧
      (∃ common : List Field,
        (eNone.nonOTelSpanEncoder.encodeSpanDocument X ec span idx).fields =
          common ++
            ((encodeAttributes "Attributes" Document.empty span.Attributes idx).fields ++
              [⟨"Events", .events span.Events⟩]) ∧
        (eRaw.nonOTelSpanEncoder.encodeSpanDocument X ec span idx).fields =
          common ++
            ((encodeAttributes "" Document.empty span.Attributes idx).fields ++
              [⟨"", .events span.Events⟩])) ∧
      (∀ buf, eNone.encodeLog X ec record idx buf =
        (eNone.encodeLogDocument ec record idx).Serialize X buf false) ∧
      (∀ buf, eRaw.encodeLog X ec record idx buf =
        (eRaw.encodeLogDocument ec record idx).Serialize X buf false) ∧
      eNone.nonOTelSpanEncoder.dedot = eRaw.nonOTelSpanEncoder.dedot := by
  refine ⟨_, _, newEncoder_none X, newEncoder_raw X hX, ?_, ?_, fun _ => rfl, fun _ => rfl,
    rfl⟩
  · refine ⟨[⟨"@timestamp", .timestamp
          (if record.Timestamp.AsTime.UnixNano = 0 then record.ObservedTimestamp
            else record.Timestamp)⟩,
        ⟨"TraceId", .traceID record.TraceID⟩,
        ⟨"SpanId", .spanID record.SpanID⟩,
        ⟨"TraceFlags", .int (record.Flags : Int)⟩,
        ⟨"SeverityText", .string record.SeverityText⟩,
        ⟨"SeverityNumber", .int record.SeverityNumber⟩,
        ⟨"Body", .attribute record.Body⟩] ++
      (ec.resource.Attributes.map
          (fun kv => ⟨Document.flattenKey "Resource" kv.1, .attribute kv.2⟩) ++
        (scopeToAttributes ec.scope).map
            (fun kv => ⟨Document.flattenKey "Scope" kv.1, .attribute kv.2⟩)), ?_, ?_⟩
    · rw [legacyLog_fields, encodeAttributes_fields]
      simp only [Document.empty, List.nil_append, List.append_assoc]
    · rw [legacyLog_fields, encodeAttributes_fields]
      simp only [Document.empty, List.nil_append, List.append_assoc]
  · refine ⟨[⟨"@timestamp", .timestamp span.StartTimestamp⟩,
        ⟨"EndTimestamp", .timestamp span.EndTimestamp⟩,
        ⟨"TraceId", .traceID span.TraceID⟩,
        ⟨"SpanId", .spanID span.SpanID⟩,
        ⟨"ParentSpanId", .spanID span.ParentSpanID⟩,
        ⟨"Name", .string span.Name⟩,
        ⟨"Kind", .string (X.spanKindStr span.Kind)⟩,
        ⟨"TraceStatus", .int span.Status.Code⟩,
        ⟨"TraceStatusDescription", .string span.Status.Message⟩,
        ⟨"Link", .string (spanLinksToString X span.Links)⟩] ++
      (ec.resource.Attributes.map
          (fun kv => ⟨Document.flattenKey "Resource" kv.1, .attribute kv.2⟩) ++
        ([⟨"Duration", .int (durationAsMicroseconds span.StartTimestamp.AsTime
            span.EndTimestamp.AsTime)⟩] ++
          (scopeToAttributes ec.scope).map
              (fun kv => ⟨Document.flattenKey "Scope" kv.1, .attribute kv.2⟩))), ?_, ?_⟩
    · rw [nonOTelSpan_fields, encodeAttributes_fields]
      simp only [Document.empty, List.nil_append, List.append_assoc]
    · rw [nonOTelSpan_fields, encodeAttributes_fields]
      simp only [Document.empty, List.nil_append, List.append_assoc]

/-- Witness of C20 on the sample environment, with one record attribute `k`: the None encoder
emits it as the last field under `Attributes.k`, the Raw encoder under `k`, after the same
seven leading fields and the same two scope fields. -/
theorem none_raw_differ_in_placement_witness :
    sampleEnv.WellFormed ∧
    ∃ eNone eRaw : legacyModeEncoder,
      newEncoder sampleEnv 0 = .ok (.legacy eNone) ∧
      newEncoder sampleEnv 3 = .ok (.legacy eRaw) ∧
      ((eNone.encodeLogDocument sampleContext
          ⟨0, 42, fun _ => 0, fun _ => 0, 0, "INFO", 9, .str "started", [("k", .int 1)]⟩
          sampleIndex).fields.map Field.key).drop 7 =
        ["Scope.name", "Scope.version", "Attributes.k"] ∧
      ((eRaw.encodeLogDocument sampleContext
          ⟨0, 42, fun _ => 0, fun _ => 0, 0, "INFO", 9, .str "started", [("k", .int 1)]⟩
          sampleIndex).fields.map Field.key).drop 7 =
        ["Scope.name", "Scope.version", "k"] := by
  have hX : sampleEnv.WellFormed := by decide
  obtain ⟨eNone, eRaw, h1, h2, -⟩ := none_raw_differ_in_placement sampleEnv hX sampleContext
    sampleIndex ⟨0, 42, fun _ => 0, fun _ => 0, 0, "INFO", 9, .str "started", [("k", .int 1)]⟩
    sampleSpan
  refine ⟨hX, eNone, eRaw, h1, h2, ?_, ?_⟩
  · rw [newEncoder_none sampleEnv] at h1
    cases h1
    decide
  · rw [newEncoder_raw sampleEnv hX] at h2
    cases h2
    decide

/-! ## Span links -/

theorem foldl_append_singleton {α β : Type} (g : α → β) (l : List α) (acc : List β) :
    l.foldl (fun a x => a ++ [g x]) acc = acc ++ l.map g := by
  induction l generalizing acc with
  | nil => simp
  | cons x rest ih => simp [List.foldl_cons, ih]

theorem spanLinksArray_eq_map (links : List ptrace.SpanLink) :
    spanLinksArray links = links.map linkObjectOf := by
  have hstep : ∀ link : ptrace.SpanLink,
      LinkObject.set
        (LinkObject.set
          (LinkObject.set [] spanIDField
            (.str (traceutil.SpanIDToHexOrEmptyString link.SpanID)))
          traceIDField (.str (traceutil.TraceIDToHexOrEmptyString link.TraceID)))
        attributeField (.raw link.Attributes) = linkObjectOf link := by
    intro link
    simp +decide [LinkObject.set, linkObjectOf, spanIDField, traceIDField, attributeField]
  unfold spanLinksArray
  simp only [hstep]
  rw [foldl_append_singleton]
  rfl

theorem hexEncodeToString_length (bytes : List Byte) :
    (hexEncodeToString bytes).length = 2 * bytes.length := by
  unfold hexEncodeToString
  rw [String.length_mk]
  induction bytes with
  | nil => rfl
  | cons b rest ih =>
    rw [List.flatMap_cons, List.length_append, ih]
    simp only [List.length_cons, List.length_nil]
    omega

theorem marshalEach_ok {α : Type} (f : α → Except GoError String) (g : α → String)
    (l : List α) (h : ∀ a ∈ l, f a = .ok (g a)) :
    json.marshalEach f l = .ok (l.map g) := by
  induction l with
  | nil => rfl
  | cons a rest ih =>
    unfold json.marshalEach
    rw [h a (List.mem_cons_self _ _), ih (fun b hb => h b (List.mem_cons_of_mem _ hb))]
    rfl

theorem marshalEach_error {α : Type} (f : α → Except GoError String) (l : List α)
    (h : ∃ a ∈ l, ∃ err, f a = .error err) : ∃ err, json.marshalEach f l = .error err := by
  induction l with
  | nil =>
    obtain ⟨a, ha, -⟩ := h
    simp at ha
  | cons a rest ih =>
    unfold json.marshalEach
    cases hfa : f a with
    | error err => exact ⟨err, rfl⟩
    | ok encoded =>
      obtain ⟨b, hb, err, hfb⟩ := h
      rcases List.mem_cons.mp hb with hb1 | hb2
      · subst hb1
        rw [hfa] at hfb
        cases hfb
      · obtain ⟨err2, h2⟩ := ih ⟨b, hb2, err, hfb⟩
        exact ⟨err2, by simp only [h2]⟩

theorem sorted_linkObjectOf (link : ptrace.SpanLink) :
    (linkObjectOf link).insertionSort (fun a b => json.keyLE a.1 b.1 = true) =
      [("attribute", .raw link.Attributes),
        ("spanID", .str (traceutil.SpanIDToHexOrEmptyString link.SpanID)),
        ("traceID", .str (traceutil.TraceIDToHexOrEmptyString link.TraceID))] := by
  simp +decide [linkObjectOf, List.insertionSort, List.orderedInsert]

theorem marshalObject_linkObjectOf (X : Env) (link : ptrace.SpanLink)
    (h : unsupportedFloatInMap link.Attributes = false) :
    json.marshalObject X (linkObjectOf link) = .ok (linkJSON X link) := by
  unfold json.marshalObject
  rw [sorted_linkObjectOf]
  simp [json.marshalEach, json.marshalValue, h, linkJSON]

theorem marshalObject_linkObjectOf_error (X : Env) (link : ptrace.SpanLink)
    (h : unsupportedFloatInMap link.Attributes = true) :
    ∃ err, json.marshalObject X (linkObjectOf link) = .error err := by
  unfold json.marshalObject
  rw [sorted_linkObjectOf]
  exact ⟨.mk "json: unsupported value", by simp [json.marshalEach, json.marshalValue, h]⟩

/-- C19, as stated, fails: for the sample link whose attribute `ratio` is the double NaN,
`json.Marshal` refuses the slice, the error is discarded and `spanLinksToString` returns the
empty string, which is not the JSON array with one object for the link. -/
theorem spanLinksToString_nan_counterexample :
    spanLinksToString sampleEnv [sampleNaNLink] = "" ∧
    spanLinksToString sampleEnv [sampleNaNLink] ≠ linksJSON sampleEnv [sampleNaNLink] := by
  decide

/-- C19, amended: the slice `spanLinksToString` hands to `json.Marshal` holds exactly one
object per span link, in the order of the links, and is empty for an empty link list; every
object has exactly the three keys `spanID`, `traceID` and `attribute`; `spanID` and `traceID`
hold the hex form of the ids of the link (16 and 32 digits), or the empty string when all
bytes of the id are zero, and `attribute` holds the raw attribute map of the link. When no
attribute of a link holds a NaN or an infinite double, at any depth, the string returned is
the JSON array with one object per link, in the order of the links, each object with the
three members `attribute`, `spanID` and `traceID`; when an attribute of some link holds such
a double, the string returned is the empty string. -/
theorem spanLinksToString_spec (X : Env) (links : List ptrace.SpanLink) :
    spanLinksArray links = links.map linkObjectOf ∧
    (spanLinksArray links).length = links.length ∧
    spanLinksArray [] = [] ∧
    (∀ link : ptrace.SpanLink,
      (linkObjectOf link).map Prod.fst = ["spanID", "traceID", "attribute"] ∧
      (linkObjectOf link).lookup "spanID" =
        some (.str (if link.SpanID.IsEmpty then ""
          else hexEncodeToString (List.ofFn link.SpanID))) ∧
      (linkObjectOf link).lookup "traceID" =
        some (.str (if link.TraceID.IsEmpty then ""
          else hexEncodeToString (List.ofFn link.TraceID))) ∧
      (linkObjectOf link).lookup "attribute" = some (.raw link.Attributes)) ∧
    (∀ id : pcommon.SpanID, (id.IsEmpty = true ↔ ∀ i, id i = 0) ∧
      (hexEncodeToString (List.ofFn id)).length = 16) ∧
    (∀ id : pcommon.TraceID, (id.IsEmpty = true ↔ ∀ i, id i = 0) ∧
      (hexEncodeToString (List.ofFn id)).length = 32) ∧
    ((∀ link ∈ links, unsupportedFloatInMap link.Attributes = false) →
      spanLinksToString X links = linksJSON X links) ∧
    ((∃ link ∈ links, unsupportedFloatInMap link.Attributes = true) →
      spanLinksToString X links = "") ∧
    spanLinksToString X [] = "[]" := by
  refine ⟨spanLinksArray_eq_map links, ?_, rfl, ?_, ?_, ?_, ?_, ?_, ?_⟩
  · rw [spanLinksArray_eq_map, List.length_map]
  · intro link
    refine ⟨rfl, ?_, ?_, ?_⟩
    · simp +decide [linkObjectOf, List.lookup, traceutil.SpanIDToHexOrEmptyString]
    · simp +decide [linkObjectOf, List.lookup, traceutil.TraceIDToHexOrEmptyString]
    · simp +decide [linkObjectOf, List.lookup]
  · intro id
    constructor
    · unfold SpanID.IsEmpty
      rw [List.all_eq_true]
      constructor
      · intro h i
        simpa using h (id i) ((List.mem_ofFn id (id i)).mpr ⟨i, rfl⟩)
      · intro h b hb
        obtain ⟨i, rfl⟩ := (List.mem_ofFn id b).mp hb
        simp [h i]
    · rw [hexEncodeToString_length, List.length_ofFn]
  · intro id
    constructor
    · unfold TraceID.IsEmpty
      rw [List.all_eq_true]
      constructor
      · intro h i
        simpa using h (id i) ((List.mem_ofFn id (id i)).mpr ⟨i, rfl⟩)
      · intro h b hb
        obtain ⟨i, rfl⟩ := (List.mem_ofFn id b).mp hb
        simp [h i]
    · rw [hexEncodeToString_length, List.length_ofFn]
  · intro h
    unfold spanLinksToString json.Marshal
    rw [spanLinksArray_eq_map]
    have hall : json.marshalEach (json.marshalObject X) (links.map linkObjectOf) =
        .ok ((links.map linkObjectOf).map (fun obj =>
          match json.marshalObject X obj with
          | .ok encoded => encoded
          | .error _ => "")) := by
      apply marshalEach_ok
      intro obj hobj
      obtain ⟨link, hl, rfl⟩ := List.mem_map.mp hobj
      rw [marshalObject_linkObjectOf X link (h link hl)]
    rw [hall]
    have hmap : (links.map linkObjectOf).map (fun obj =>
          match json.marshalObject X obj with
          | .ok encoded => encoded
          | .error _ => "") = links.map (linkJSON X) := by
      rw [List.map_map]
      apply List.map_congr_left
      intro link hl
      simp only [Function.comp, marshalObject_linkObjectOf X link (h link hl)]
    rw [hmap]
    rfl
  · rintro ⟨link, hl, hu⟩
    unfold spanLinksToString json.Marshal
    rw [spanLinksArray_eq_map]
    obtain ⟨err, he⟩ := marshalEach_error (json.marshalObject X) (links.map linkObjectOf)
      ⟨linkObjectOf link, List.mem_map.mpr ⟨link, hl, rfl⟩,
        marshalObject_linkObjectOf_error X link hu⟩
    rw [he]
  · rfl

/-- Witness of the amended C19 on the sample environment: the sample link, whose span id is
empty, gives an array of one object that keeps the member `spanID` with the empty string
and holds the 32 hex digits of the trace id. -/
theorem spanLinksToString_spec_witness :
    spanLinksToString sampleEnv [sampleLink] =
      "[\x7b\"attribute\":\x7b\"k\":1\x7d,\"spanID\":\"\"," ++
        "\"traceID\":\"01000000000000000000000000000000\"\x7d]" := by
  rw [(spanLinksToString_spec sampleEnv [sampleLink]).2.2.2.2.2.2.1 (by decide)]
  decide

/-! ## ECS log timestamp order -/

/-- C21: in the document of the ECS log encoder the `@timestamp` field of the record is
inserted after all fields produced from the resource, scope and record attributes, and no
field inserted after it has the key `@timestamp`; so the last field with the key
`@timestamp` in insertion order is the timestamp field with the selected timestamp of the
record, whatever the attributes are. -/
theorem ecs_log_timestamp_last (e : ecsModeEncoder) (ec : encodingContext)
    (record : plog.LogRecord) (idx : elasticsearch.Index) :
    (∃ special after : List Field,
      (e.encodeLogDocument ec record idx).fields =
        (resourceFields ec.resource.Attributes ++
          (ec.scope.Attributes.map (fun kv => ⟨kv.1, .attribute kv.2⟩) ++
            (record.Attributes.flatMap
              (ecsRuleFields recordAttrsConversionMap resourceAttrsToPreserve) ++ special))) ++
          ⟨"@timestamp", .timestamp (selectedTimestamp record)⟩ :: after ∧
      (∀ f ∈ special, f.key ≠ "@timestamp") ∧
      (∀ f ∈ after, f.key ≠ "@timestamp")) ∧
    ((e.encodeLogDocument ec record idx).fields.filter
        (fun f => decide (f.key = "@timestamp"))).getLast? =
      some ⟨"@timestamp", .timestamp (selectedTimestamp record)⟩ := by
  have hafter : ∀ f ∈
      ([⟨"trace.id", .traceID record.TraceID⟩, ⟨"span.id", .spanID record.SpanID⟩] ++
        ((if record.SeverityNumber ≠ plog.SeverityNumberUnspecified then
            [⟨"event.severity", .int record.SeverityNumber⟩] else []) ++
          ([⟨"log.level", .string record.SeverityText⟩] ++
            (if record.Body.Type = .ValueTypeStr then
              [⟨"message", .attribute record.Body⟩] else []))) : List Field),
      f.key ≠ "@timestamp" := by
    intro f hf
    by_cases h1 : record.SeverityNumber = plog.SeverityNumberUnspecified <;>
    by_cases h2 : record.Body.Type = .ValueTypeStr <;>
    simp [h1, h2] at hf <;>
    rcases hf with rfl | rfl | rfl | rfl | rfl <;> simp +decide
  have hsplit : (e.encodeLogDocument ec record idx).fields =
      ecsLogPrefix ec record idx ++
        ⟨"@timestamp", .timestamp (selectedTimestamp record)⟩ ::
          ([⟨"trace.id", .traceID record.TraceID⟩, ⟨"span.id", .spanID record.SpanID⟩] ++
            ((if record.SeverityNumber ≠ plog.SeverityNumberUnspecified then
                [⟨"event.severity", .int record.SeverityNumber⟩] else []) ++
              ([⟨"log.level", .string record.SeverityText⟩] ++
                (if record.Body.Type = .ValueTypeStr then
                  [⟨"message", .attribute record.Body⟩] else [])))) := by
    rw [ecsLog_fields_split]
    simp
  constructor
  · refine ⟨dataStreamFields "" idx ++ (agentNameFields ec.resource ++
      (agentVersionFields ec.resource ++ hostOsTypeFields ec.resource)), _, ?_, ?_, hafter⟩
    · rw [hsplit]
      simp only [ecsLogPrefix, List.append_assoc]
    · intro f hf
      simp only [List.mem_append] at hf
      rcases hf with hf | hf | hf | hf
      · obtain ⟨-, h | h | h⟩ := mem_dataStreamFields "" idx f hf <;> rw [h] <;>
          simp +decide
      · obtain ⟨v, h⟩ := mem_agentNameFields _ f hf
        rw [h]
        simp +decide
      · obtain ⟨v, h⟩ := mem_agentVersionFields _ f hf
        rw [h]
        simp +decide
      · obtain ⟨v, h⟩ := mem_hostOsTypeFields _ f hf
        rw [h]
        simp +decide
  · rw [hsplit, List.filter_append, List.filter_cons]
    have hnil : List.filter (fun f : Field => decide (f.key = "@timestamp"))
        ([⟨"trace.id", .traceID record.TraceID⟩, ⟨"span.id", .spanID record.SpanID⟩] ++
          ((if record.SeverityNumber ≠ plog.SeverityNumberUnspecified then
              [⟨"event.severity", .int record.SeverityNumber⟩] else []) ++
            ([⟨"log.level", .string record.SeverityText⟩] ++
              (if record.Body.Type = .ValueTypeStr then
                [⟨"message", .attribute record.Body⟩] else [])))) = [] := by
      rw [List.filter_eq_nil_iff]
      intro f hf
      simpa using hafter f hf
    rw [hnil]
    simp [List.getLast?_append]

/-- Witness of C21 on a sample context and record whose resource, scope and record
attributes all contain the key `@timestamp`: the four fields with that key are the three
attributes followed by the timestamp 7 of the record. -/
theorem ecs_log_timestamp_last_witness :
    ((ecsModeEncoder.encodeLogDocument ⟨⟨⟩, ⟨⟩, ⟨1⟩⟩ sampleTimestampContext
        sampleTimestampRecord sampleIndex).fields.filter
      (fun f => decide (f.key = "@timestamp"))).getLast? =
      some ⟨"@timestamp", .timestamp 7⟩ ∧
    ((ecsModeEncoder.encodeLogDocument ⟨⟨⟩, ⟨⟩, ⟨1⟩⟩ sampleTimestampContext
        sampleTimestampRecord sampleIndex).fields.filter
      (fun f => decide (f.key = "@timestamp"))).length = 4 :=
  ⟨(ecs_log_timestamp_last ⟨⟨⟩, ⟨⟩, ⟨1⟩⟩ sampleTimestampContext sampleTimestampRecord
    sampleIndex).2, by decide⟩

/-! ## Agent name with an empty distro name -/

/-- C22: when the `telemetry.distro.name` attribute is present and its value is the empty
string, `encodeLogAgentNameECSMode` inserts an `agent.name` with no distro segment: `sdk`
followed by `/unknown` when the language attribute is absent or empty, and `sdk` followed by
`/` and the language otherwise; with neither a language nor a distro attribute the value is
`sdk` alone. -/
theorem encodeLogAgentNameECSMode_empty_distro (document : Document) (resource : Resource)
    (d : Value) (hd : Map.Get resource.Attributes "telemetry.distro.name" = some d)
    (he : d.Str = "") :
    (agentLanguage resource = none →
      (encodeLogAgentNameECSMode document resource).fields =
        document.fields ++ [⟨"agent.name", .string (agentSdkName resource ++ "/unknown")⟩]) ∧
    (∀ language, agentLanguage resource = some language →
      (encodeLogAgentNameECSMode document resource).fields =
        document.fields ++
          [⟨"agent.name", .string (agentSdkName resource ++ "/" ++ language)⟩]) ∧
    (∀ other : Resource,
      Map.Get other.Attributes "telemetry.distro.name" = none →
      agentLanguage other = none →
      (encodeLogAgentNameECSMode document other).fields =
        document.fields ++ [⟨"agent.name", .string (agentSdkName other)⟩]) := by
  have hu : ∀ s : String, s ++ "/" ++ "unknown" = s ++ "/unknown" := by
    intro s
    rw [String.append_assoc]
    rfl
  refine ⟨?_, ?_, ?_⟩
  · intro hl
    unfold agentLanguage at hl
    unfold encodeLogAgentNameECSMode agentSdkName
    simp only [semconv.TelemetrySDKNameKey, semconv.TelemetrySDKLanguageKey,
      semconv.TelemetryDistroNameKey, hd, Document.AddString]
    cases hg : Map.Get resource.Attributes "telemetry.sdk.language" with
    | none => simp [he, hu]
    | some l =>
      rw [hg] at hl
      by_cases hls : l.Str = ""
      · simp [he, hls, hu]
      · simp [hls] at hl
  · intro language hl
    unfold agentLanguage at hl
    unfold encodeLogAgentNameECSMode agentSdkName
    simp only [semconv.TelemetrySDKNameKey, semconv.TelemetrySDKLanguageKey,
      semconv.TelemetryDistroNameKey, hd, Document.AddString]
    cases hg : Map.Get resource.Attributes "telemetry.sdk.language" with
    | none =>
      rw [hg] at hl
      simp at hl
    | some l =>
      rw [hg] at hl
      by_cases hls : l.Str = ""
      · simp [hls] at hl
      · simp only [hls, if_false, Option.some.injEq] at hl
        subst hl
        simp [he, hls]
  · intro other hod hol
    unfold agentLanguage at hol
    unfold encodeLogAgentNameECSMode agentSdkName
    simp only [semconv.TelemetrySDKNameKey, semconv.TelemetrySDKLanguageKey,
      semconv.TelemetryDistroNameKey, hod, Document.AddString]
    cases hg : Map.Get other.Attributes "telemetry.sdk.language" with
    | none => simp
    | some l =>
      rw [hg] at hol
      by_cases hls : l.Str = ""
      · simp [hls]
      · simp [hls] at hol

/-- Witness of C22: SDK name `otlp` with an empty distro name gives `otlp/unknown`, while SDK
name `otlp` alone gives `otlp`. -/
theorem encodeLogAgentNameECSMode_empty_distro_witness :
    (encodeLogAgentNameECSMode Document.empty sampleEmptyDistroResource).fields =
      [⟨"agent.name", .string "otlp/unknown"⟩] ∧
    (encodeLogAgentNameECSMode Document.empty
      ⟨[("telemetry.sdk.name", .str "otlp")]⟩).fields = [⟨"agent.name", .string "otlp"⟩] :=
  ⟨(encodeLogAgentNameECSMode_empty_distro Document.empty sampleEmptyDistroResource
      (.str "") rfl rfl).1 rfl,
    (encodeLogAgentNameECSMode_empty_distro Document.empty sampleEmptyDistroResource
      (.str "") rfl rfl).2.2 ⟨[("telemetry.sdk.name", .str "otlp")]⟩ rfl rfl⟩

/-! ## Scope attributes -/

theorem get_putStr_self (m : pcommon.Map) (k v : String) :
    Map.Get (Map.PutStr m k v) k = some (.str v) := by
  induction m with
  | nil => simp [Map.PutStr, Map.Get, List.lookup]
  | cons p rest ih =>
    obtain ⟨k0, v0⟩ := p
    unfold Map.PutStr
    by_cases h : k0 = k
    · subst h
      simp [Map.Get, List.lookup]
    · have hb : (k == k0) = false := by simpa using Ne.symm h
      simp only [h, if_false, Map.Get, List.lookup_cons, hb]
      exact ih

theorem get_putStr_ne (m : pcommon.Map) (k v k2 : String) (h : k2 ≠ k) :
    Map.Get (Map.PutStr m k v) k2 = Map.Get m k2 := by
  induction m with
  | nil =>
    have hb : (k2 == k) = false := by simpa using h
    simp [Map.PutStr, Map.Get, List.lookup, hb]
  | cons p rest ih =>
    obtain ⟨k0, v0⟩ := p
    unfold Map.PutStr
    by_cases h0 : k0 = k
    · subst h0
      have hb : (k2 == k0) = false := by simpa using h
      simp [Map.Get, List.lookup_cons, hb]
    · simp only [h0, if_false, Map.Get, List.lookup_cons]
      cases hk : (k2 == k0)
      · exact ih
      · rfl

theorem keys_putStr (m : pcommon.Map) (k v : String) :
    (Map.PutStr m k v).map Prod.fst =
      if k ∈ m.map Prod.fst then m.map Prod.fst else m.map Prod.fst ++ [k] := by
  induction m with
  | nil => simp [Map.PutStr]
  | cons p rest ih =>
    obtain ⟨k0, v0⟩ := p
    unfold Map.PutStr
    by_cases h0 : k0 = k
    · subst h0
      simp
    · have hne : ¬ k = k0 := fun h => h0 h.symm
      simp only [h0, if_false, List.map_cons, ih, List.mem_cons, hne, false_or]
      split_ifs <;> simp

theorem mem_putStr_of_ne (m : pcommon.Map) (k v k2 : String) (v2 : Value)
    (hm : (k2, v2) ∈ m) (h : k2 ≠ k) : (k2, v2) ∈ Map.PutStr m k v := by
  induction m with
  | nil => simp at hm
  | cons p rest ih =>
    obtain ⟨k0, v0⟩ := p
    unfold Map.PutStr
    by_cases h0 : k0 = k
    · subst h0
      rcases List.mem_cons.mp hm with hm | hm
      · simp only [Prod.mk.injEq] at hm
        exact absurd hm.1 h
      · simp only [if_true]
        exact List.mem_cons_of_mem _ hm
    · simp only [h0, if_false]
      rcases List.mem_cons.mp hm with hm | hm
      · rw [hm]
        exact List.mem_cons_self _ _
      · exact List.mem_cons_of_mem _ (ih hm)

theorem mem_putStr (m : pcommon.Map) (k v k2 : String) (v2 : Value)
    (hm : (k2, v2) ∈ Map.PutStr m k v) : (k2, v2) ∈ m ∨ (k2 = k ∧ v2 = .str v) := by
  induction m with
  | nil =>
    simp only [Map.PutStr, List.mem_singleton, Prod.mk.injEq] at hm
    exact Or.inr hm
  | cons p rest ih =>
    obtain ⟨k0, v0⟩ := p
    unfold Map.PutStr at hm
    by_cases h0 : k0 = k
    · subst h0
      simp only [if_true] at hm
      rcases List.mem_cons.mp hm with hm | hm
      · simp only [Prod.mk.injEq] at hm
        exact Or.inr hm
      · exact Or.inl (List.mem_cons_of_mem _ hm)
    · simp only [h0, if_false] at hm
      rcases List.mem_cons.mp hm with hm | hm
      · rw [hm]
        exact Or.inl (List.mem_cons_self _ _)
      · rcases ih hm with h | h
        · exact Or.inl (List.mem_cons_of_mem _ h)
        · exact Or.inr h

theorem nodup_keys_putStr (m : pcommon.Map) (k v : String) (h : (m.map Prod.fst).Nodup) :
    ((Map.PutStr m k v).map Prod.fst).Nodup := by
  rw [keys_putStr]
  split_ifs with hk
  · exact h
  · exact List.Nodup.append h (List.nodup_singleton k) (by simpa using hk)

theorem get_of_mem_nodup (m : pcommon.Map) (k : String) (v : Value)
    (hn : (m.map Prod.fst).Nodup) (hm : (k, v) ∈ m) : Map.Get m k = some v := by
  induction m with
  | nil => simp at hm
  | cons p rest ih =>
    obtain ⟨k0, v0⟩ := p
    simp only [List.map_cons, List.nodup_cons] at hn
    rcases List.mem_cons.mp hm with h1 | h2
    · simp only [Prod.mk.injEq] at h1
      obtain ⟨rfl, rfl⟩ := h1
      simp [Map.Get, List.lookup]
    · have hne : k ≠ k0 := by
        intro h
        subst h
        exact hn.1 (List.mem_map.mpr ⟨(k, v), h2, rfl⟩)
      have hb : (k == k0) = false := by simpa using hne
      simp only [Map.Get, List.lookup_cons, hb]
      exact ih hn.2 h2

theorem mem_keys_putStr_self (m : pcommon.Map) (k v : String) :
    k ∈ (Map.PutStr m k v).map Prod.fst := by
  rw [keys_putStr]
  split_ifs with hk
  · exact hk
  · simp

theorem mem_keys_putStr_of_mem (m : pcommon.Map) (k v k2 : String)
    (h : k2 ∈ m.map Prod.fst) : k2 ∈ (Map.PutStr m k v).map Prod.fst := by
  rw [keys_putStr]
  split_ifs
  · exact h
  · exact List.mem_append_left _ h

/-- C23: the map returned by `scopeToAttributes` holds `name` with the scope name and
`version` with the scope version; every scope attribute stored under another key is in the
result with its value, and looking up another key gives what the scope attributes give; the
result holds nothing else. When the keys of the scope attributes are distinct, the keys of
the result are distinct, `name` and `version` occur exactly once, and the only values stored
under them are the scope name and the scope version, so a scope attribute that used one of
these keys is replaced. -/
theorem scopeToAttributes_spec (scope : InstrumentationScope) :
    Map.Get (scopeToAttributes scope) "name" = some (.str scope.Name) ∧
    Map.Get (scopeToAttributes scope) "version" = some (.str scope.Version) ∧
    (∀ k, k ≠ "name" → k ≠ "version" →
      Map.Get (scopeToAttributes scope) k = Map.Get scope.Attributes k) ∧
    (∀ k v, (k, v) ∈ scope.Attributes → k ≠ "name" → k ≠ "version" →
      (k, v) ∈ scopeToAttributes scope) ∧
    (∀ k v, (k, v) ∈ scopeToAttributes scope →
      (k, v) ∈ scope.Attributes ∨ (k = "name" ∧ v = .str scope.Name) ∨
        (k = "version" ∧ v = .str scope.Version)) ∧
    ((scope.Attributes.map Prod.fst).Nodup →
      ((scopeToAttributes scope).map Prod.fst).Nodup ∧
      ((scopeToAttributes scope).map Prod.fst).count "name" = 1 ∧
      ((scopeToAttributes scope).map Prod.fst).count "version" = 1 ∧
      (∀ v, ("name", v) ∈ scopeToAttributes scope → v = .str scope.Name) ∧
      (∀ v, ("version", v) ∈ scopeToAttributes scope → v = .str scope.Version)) := by
  have hname : Map.Get (scopeToAttributes scope) "name" = some (.str scope.Name) := by
    unfold scopeToAttributes
    rw [get_putStr_ne _ _ _ _ (by decide), get_putStr_self]
  have hversion : Map.Get (scopeToAttributes scope) "version" = some (.str scope.Version) := by
    unfold scopeToAttributes
    rw [get_putStr_self]
  refine ⟨hname, hversion, ?_, ?_, ?_, ?_⟩
  · intro k h1 h2
    unfold scopeToAttributes
    rw [get_putStr_ne _ _ _ _ h2, get_putStr_ne _ _ _ _ h1]
  · intro k v hm h1 h2
    unfold scopeToAttributes
    exact mem_putStr_of_ne _ _ _ _ _ (mem_putStr_of_ne _ _ _ _ _ hm h1) h2
  · intro k v hm
    unfold scopeToAttributes at hm
    rcases mem_putStr _ _ _ _ _ hm with h | h
    · rcases mem_putStr _ _ _ _ _ h with h | h
      · exact Or.inl h
      · exact Or.inr (Or.inl h)
    · exact Or.inr (Or.inr h)
  · intro hn
    have hnd : ((scopeToAttributes scope).map Prod.fst).Nodup := by
      unfold scopeToAttributes
      exact nodup_keys_putStr _ _ _ (nodup_keys_putStr _ _ _ hn)
    refine ⟨hnd, ?_, ?_, ?_, ?_⟩
    · apply List.count_eq_one_of_mem hnd
      unfold scopeToAttributes
      exact mem_keys_putStr_of_mem _ _ _ _ (mem_keys_putStr_self _ _ _)
    · apply List.count_eq_one_of_mem hnd
      unfold scopeToAttributes
      exact mem_keys_putStr_self _ _ _
    · intro v hv
      have h := get_of_mem_nodup _ _ _ hnd hv
      rw [hname] at h
      exact (Option.some.inj h).symm
    · intro v hv
      have h := get_of_mem_nodup _ _ _ hnd hv
      rw [hversion] at h
      exact (Option.some.inj h).symm

/-- Witness of C23 on the sample scope `lib` `1.0`, whose attributes already use the keys
`name` and `version`: both are replaced in place and the attribute `k` keeps its value. -/
theorem scopeToAttributes_spec_witness :
    scopeToAttributes sampleScope =
      [("name", .str "lib"), ("k", .int 1), ("version", .str "1.0")] ∧
    ((scopeToAttributes sampleScope).map Prod.fst).Nodup ∧
    ((scopeToAttributes sampleScope).map Prod.fst).count "name" = 1 ∧
    Map.Get (scopeToAttributes sampleScope) "k" = Map.Get sampleScope.Attributes "k" := by
  have h := scopeToAttributes_spec sampleScope
  have h6 := h.2.2.2.2.2 (by decide)
  exact ⟨rfl, h6.1, h6.2.1, h.2.2.1 "k" (by decide) (by decide)⟩

end ElasticsearchExporter
